import Mathlib

/-!
# kube-replay: temporal snapshot store

A shallow embedding of the entity model (`internal/data`), the snapshot store
(`internal/repositories/dynamodb_store.go`) and the temporal query engine
(`internal/services/replayer.go`), followed by theorems about them.

Modelling conventions

* `time.Time` is the instant it denotes, an integer count of nanoseconds since
  the zero time (January 1, year 1, 00:00:00 UTC).  `Before`, `After` and `Equal`
  compare instants; `IsZero` holds of the instant 0.  Zone and monotonic-clock
  parts of a Go time value are not represented, and the instant is unbounded.
* `time.Duration` is a signed 64-bit count of nanoseconds; products wrap.
* A Go pointer to a struct is the struct value; `nil` results are `none`.
  Dereferencing `nil` is the failure `Failure.nilDeref`.
* A Go `error` result is `Option String` (`none` is `nil`).
-/

namespace KubeReplay

/-! ## time -/

/-- An instant, in nanoseconds since the zero time. -/
abbrev Time := Int

/-- Go `t.Before(u)`. -/
def Time.Before (t u : Time) : Bool := decide (t < u)

/-- Go `t.After(u)`. -/
def Time.After (t u : Time) : Bool := decide (u < t)

/-- Go `t.Equal(u)`. -/
def Time.Equal (t u : Time) : Bool := decide (t = u)

/-- Go `t.IsZero()`. -/
def Time.IsZero (t : Time) : Bool := decide (t = 0)

/-- Wrap an integer into the signed 64-bit range (two's complement). -/
def wrap64 (x : Int) : Int := (x + 2 ^ 63) % 2 ^ 64 - 2 ^ 63

/-- Go `time.Second`, in nanoseconds. -/
def Second : Int := 1000000000

/-- Go `time.Hour`, in nanoseconds. -/
def Hour : Int := 3600 * Second

/-- Go `t.Add(d)`. -/
def Time.Add (t : Time) (d : Int) : Time := t + d

/-! ## enums (`internal/data/enums.go`) -/

/-- Go `type NodeCondition int`. -/
abbrev NodeCondition := Int

def NodeStateReady : NodeCondition := 0
def NodeStateNotReady : NodeCondition := 1
def NodeStateUnknown : NodeCondition := 2

/-- Go `type PodPhase int`. -/
abbrev PodPhase := Int

def PodPhasePending : PodPhase := 0
def PodPhaseRunning : PodPhase := 1
def PodPhaseSucceeded : PodPhase := 2
def PodPhaseFailed : PodPhase := 3
def PodPhaseUnknown : PodPhase := 4

/-- Go `(*PodPhase).String`. -/
def PodPhase.String (p : PodPhase) : String :=
  if p = PodPhasePending then "Pending"
  else if p = PodPhaseRunning then "Running"
  else if p = PodPhaseSucceeded then "Succeeded"
  else if p = PodPhaseFailed then "Failed"
  else "Unknown"

/-- Go `(*NodeCondition).String`. -/
def NodeCondition.String (n : NodeCondition) : String :=
  if n = NodeStateReady then "Ready"
  else if n = NodeStateNotReady then "NotReady"
  else "Unknown"

/-- Go `type PodQOSClass int`. -/
abbrev PodQOSClass := Int

def PodQOSClassBestEffort : PodQOSClass := 0
def PodQOSClassBurstable : PodQOSClass := 1
def PodQOSClassGuaranteed : PodQOSClass := 2
def PodQOSClassUnknown : PodQOSClass := 3

/-- Go `(*PodQOSClass).String`. -/
def PodQOSClass.String (p : PodQOSClass) : String :=
  if p = PodQOSClassBestEffort then "BestEffort"
  else if p = PodQOSClassBurstable then "Burstable"
  else if p = PodQOSClassGuaranteed then "Guaranteed"
  else "Unknown"

/-! ## entity model (`internal/data/node.go`, `internal/data/pod.go`) -/

structure Taint where
  Key : String
  Value : String
  Effect : String
  TimeAdded : Time
deriving DecidableEq, Repr

structure NodeCapacity where
  Cpu : String
  Memory : String
  EphemeralStorage : String
  Pods : Int
deriving DecidableEq, Repr

structure NodeState where
  Condition : NodeCondition
  Capacity : NodeCapacity
  Allocatable : NodeCapacity
  Taints : List Taint
  Unschedulable : Bool
deriving DecidableEq, Repr

/-- Go `data.NodeSnapshot`; the Go field `Type` is `Type_` here. -/
structure NodeSnapshot where
  ID : String
  TreeID : String
  TreePath : String
  ExpireAt : Time
  Type_ : String
  Timestamp : Time
  State : NodeState
deriving DecidableEq, Repr

structure ContainerResource where
  Cpu : String
  Memory : String
  EphemeralStorage : String
deriving DecidableEq, Repr

structure ContainerResources where
  Requests : ContainerResource
  Limits : ContainerResource
deriving DecidableEq, Repr

structure ContainerState where
  ExitCode : Int
  StartedAt : Time
  FinishedAt : Time
  Reason : String
deriving DecidableEq, Repr

structure ContainerSnapshot where
  ContainerID : String
  Name : String
  Image : String
  ImageID : String
  Ready : Bool
  RestartCount : Int
  StartedAt : Time
  Running : Bool
  Resources : ContainerResources
  State : ContainerState
  LastState : ContainerState
deriving DecidableEq, Repr

/-- Go `data.PodSnapshot`. -/
structure PodSnapshot where
  ID : String
  TreeID : String
  TreePath : String
  ExpireAt : Time
  Type_ : String
  Timestamp : Time
  Status : PodPhase
  InitContainers : List ContainerSnapshot
  EphemeralContainers : List ContainerSnapshot
  Containers : List ContainerSnapshot
deriving DecidableEq, Repr

/-- Go `data.PodMeta`. -/
structure PodMeta where
  ID : String
  TreeID : String
  TreePath : String
  ExpireAt : Time
  Type_ : String
  Name : String
  Namespace : String
  StartedAt : Time
  DeletedAt : Time
  FinishedAt : Time
  DeletedBy : String
  QOSClass : PodQOSClass
  Snapshots : List PodSnapshot
deriving DecidableEq, Repr

/-- Go `data.NodeMeta`. -/
structure NodeMeta where
  ID : String
  TreeID : String
  TreePath : String
  ExpireAt : Time
  Type_ : String
  Name : String
  ProviderID : String
  Architecture : String
  ContainerRuntimeVersion : String
  KernelVersion : String
  KubeletVersion : String
  KubeProxyVersion : String
  OsImage : String
  OperatingSystem : String
  MachineID : String
  SystemUUID : String
  BootID : String
  Roles : List String
  Snapshots : List NodeSnapshot
  Pods : List PodMeta
deriving DecidableEq, Repr

/-! ## sorting

`sort.Sort` and `sort.Slice` belong to the Go standard library.  Their contract
is that the slice is rearranged into an order in which no element is `Less`
than an earlier one; where elements that compare equal end up is not part of
it.  The embedding runs the insertion sort that both use on short slices (up
to 12 elements): each element in turn travels left past every element it is
`Less` than.  On a longer slice the library may leave elements that compare
equal in another order than this sort does.  The theorems about arbitrary
slices use of `goSort` only that it returns an ordered rearrangement, and
where the order of equal elements matters the library sort is a parameter
(`IsSortReverse`).  -/

/-- Place `x` in front of the first element it is `less` than. -/
def sortInsert {α : Type} (less : α → α → Bool) (x : α) : List α → List α
  | [] => [x]
  | y :: ys => if less x y then x :: y :: ys else y :: sortInsert less x ys

/-- Insertion sort by `less`. -/
def goSort {α : Type} (less : α → α → Bool) (l : List α) : List α :=
  l.foldl (fun acc x => sortInsert less x acc) []

/-- The first element of a list accepted by `p` (a Go range loop that returns
on the first hit). -/
def firstThat {α : Type} (p : α → Bool) : List α → Option α
  | [] => none
  | x :: xs => if p x then some x else firstThat p xs

/-- Go `(*NodeSnapshots).Less`. -/
def NodeSnapshots.Less (a b : NodeSnapshot) : Bool := a.Timestamp.Before b.Timestamp

/-- Go `sort.Sort(sort.Reverse(n))` on node snapshots: `Less` with swapped arguments. -/
def NodeSnapshots.sortReverse (n : List NodeSnapshot) : List NodeSnapshot :=
  goSort (fun a b => NodeSnapshots.Less b a) n

/-- Go `(*NodeSnapshots).EffectiveAt`. -/
def NodeSnapshots.EffectiveAt (n : List NodeSnapshot) (timestamp : Time) : Option NodeSnapshot :=
  firstThat (fun snapshot => snapshot.Timestamp.Before timestamp || snapshot.Timestamp.Equal timestamp)
    (NodeSnapshots.sortReverse n)

/-- Go `(*PodSnapshots).Less`. -/
def PodSnapshots.Less (a b : PodSnapshot) : Bool := a.Timestamp.Before b.Timestamp

/-- Go `sort.Sort(sort.Reverse(p))` on pod snapshots. -/
def PodSnapshots.sortReverse (p : List PodSnapshot) : List PodSnapshot :=
  goSort (fun a b => PodSnapshots.Less b a) p

/-- Go `(*PodSnapshots).EffectiveAt`. -/
def PodSnapshots.EffectiveAt (p : List PodSnapshot) (timestamp : Time) : Option PodSnapshot :=
  firstThat (fun snapshot => snapshot.Timestamp.Before timestamp || snapshot.Timestamp.Equal timestamp)
    (PodSnapshots.sortReverse p)

/-! ## key derivation (`SetDynamoAttributes`) -/

/-- The text of an instant, as `fmt.Sprintf("%s", t)` yields it.  Go prints a
calendar date; the embedding prints the instant in decimal, which like the Go
layout gives different instants different texts. -/
def Time.String (t : Time) : String :=
  match t with
  | Int.ofNat n => String.mk (Nat.toDigits 10 n)
  | Int.negSucc n => String.mk ('-' :: Nat.toDigits 10 (n + 1))

/-- Go `(*NodeMeta).SetDynamoAttributes`. -/
def NodeMeta.SetDynamoAttributes (n : NodeMeta) : NodeMeta :=
  { n with TreeID := n.ID, TreePath := "root", Type_ := "node_meta" }

/-- Go `(*NodeSnapshot).SetDynamoAttributes`. -/
def NodeSnapshot.SetDynamoAttributes (n : NodeSnapshot) (nodeID : String) : NodeSnapshot :=
  { n with ID := nodeID ++ "_" ++ n.Timestamp.String, TreeID := nodeID, TreePath := nodeID,
           Type_ := "node_snapshot" }

/-- Go `(*PodMeta).SetDynamoAttributes`. -/
def PodMeta.SetDynamoAttributes (p : PodMeta) (nodeID : String) : PodMeta :=
  { p with TreeID := nodeID, TreePath := nodeID, Type_ := "pod_meta" }

/-- Go `(*PodSnapshot).SetDynamoAttributes`. -/
def PodSnapshot.SetDynamoAttributes (p : PodSnapshot) (nodeID podID : String) : PodSnapshot :=
  { p with ID := podID ++ "_" ++ p.Timestamp.String, TreeID := nodeID,
           TreePath := nodeID ++ "#" ++ podID, Type_ := "pod_snapshot" }

/-! ## the backing table

The DynamoDB client is an external collaborator.  A table is a state `σ` with
the four requests the store issues.  A stored row is the struct it was written
from, without the fields tagged `dynamo:"-"`. -/

/-- A row of the table. -/
inductive Item where
  | nodeMeta (n : NodeMeta)
  | nodeSnapshot (s : NodeSnapshot)
  | podMeta (p : PodMeta)
  | podSnapshot (s : PodSnapshot)
deriving DecidableEq, Repr

/-- Marshal a node meta: `Snapshots` and `Pods` are tagged `dynamo:"-"`. -/
def Item.ofNodeMeta (n : NodeMeta) : Item := Item.nodeMeta { n with Snapshots := [], Pods := [] }

/-- Marshal a pod meta: `Snapshots` is tagged `dynamo:"-"`. -/
def Item.ofPodMeta (p : PodMeta) : Item := Item.podMeta { p with Snapshots := [] }

def Item.ID : Item → String
  | nodeMeta n => n.ID
  | nodeSnapshot s => s.ID
  | podMeta p => p.ID
  | podSnapshot s => s.ID

def Item.TreeID : Item → String
  | nodeMeta n => n.TreeID
  | nodeSnapshot s => s.TreeID
  | podMeta p => p.TreeID
  | podSnapshot s => s.TreeID

def Item.TreePath : Item → String
  | nodeMeta n => n.TreePath
  | nodeSnapshot s => s.TreePath
  | podMeta p => p.TreePath
  | podSnapshot s => s.TreePath

def Item.Type_ : Item → String
  | nodeMeta n => n.Type_
  | nodeSnapshot s => s.Type_
  | podMeta p => p.Type_
  | podSnapshot s => s.Type_

def Item.ExpireAt : Item → Time
  | nodeMeta n => n.ExpireAt
  | nodeSnapshot s => s.ExpireAt
  | podMeta p => p.ExpireAt
  | podSnapshot s => s.ExpireAt

/-- The primary key of a row: hash key `ID`, range key `TreePath`. -/
def Item.key (i : Item) : String × String := (i.ID, i.TreePath)

/-- The requests issued against `dynamo.Table`.
`Put` is `table.Put(x).Run`, `BatchPut` is `table.Batch().Write().Put(xs...).Run`
and returns the reported persisted count and the error, `Query` is
`table.Get("TreeID", v).Index("TreeIndex").All`, `ScanRoot` is
`table.Scan().Filter("TreePath = ?", "root").All`. -/
structure Table (σ : Type) where
  Put : σ → Item → σ × Option String
  BatchPut : σ → List Item → σ × Int × Option String
  Query : σ → String → Except String (List Item)
  ScanRoot : σ → Except String (List Item)

/-- The table together with the number of clock readings taken so far;
`time.Now()` returns `clock tick` and advances `tick`. -/
structure World (σ : Type) where
  table : σ
  tick : Nat
deriving DecidableEq, Repr

/-- Go `const ttl = time.Hour * 24 * 90`. -/
def ttl : Int := Hour * 24 * 90

/-! ## the snapshot store (`internal/repositories/dynamodb_store.go`) -/

/-- The loop of `UpsertNodeSnapshots`: validate, stamp and key every snapshot.
Returns the clock position and either the first error or the batch. -/
def stampNodeSnapshots (clock : Nat → Time) (nodeID : String) :
    Nat → List NodeSnapshot → Nat × Except String (List NodeSnapshot)
  | tick, [] => (tick, .ok [])
  | tick, nodeSnapshot :: rest =>
    if nodeSnapshot.Timestamp.IsZero then
      (tick, .error "unable to upsert NodeSnapshot vertex since timestamp is zero")
    else
      let stamped := { nodeSnapshot with ExpireAt := (clock tick).Add ttl }
      match stampNodeSnapshots clock nodeID (tick + 1) rest with
      | (tick1, .ok items) => (tick1, .ok (stamped.SetDynamoAttributes nodeID :: items))
      | (tick1, .error e) => (tick1, .error e)

/-- Go `(*treeStore).UpsertNodeSnapshots`. -/
def UpsertNodeSnapshots {σ : Type} (t : Table σ) (clock : Nat → Time) (w : World σ)
    (nodeID : String) (nodeSnapshots : List NodeSnapshot) : World σ × Option String :=
  let batchSize : Int := nodeSnapshots.length
  match stampNodeSnapshots clock nodeID w.tick nodeSnapshots with
  | (tick, .error e) => (⟨w.table, tick⟩, some e)
  | (tick, .ok items) =>
    if items.length > 0 then
      match t.BatchPut w.table (items.map Item.nodeSnapshot) with
      | (table, _, some err) =>
        (⟨table, tick⟩, some ("error when upserting NodeSnapshot vertexes: " ++ err))
      | (table, wc, none) =>
        if wc ≠ batchSize then
          (⟨table, tick⟩,
            some "while upsetting node snapshots: persisted count != length of snapshots")
        else (⟨table, tick⟩, none)
    else (⟨w.table, tick⟩, none)

/-- The loop of `UpsertPodSnapshots`. -/
def stampPodSnapshots (clock : Nat → Time) (nodeID podID : String) :
    Nat → List PodSnapshot → Nat × Except String (List PodSnapshot)
  | tick, [] => (tick, .ok [])
  | tick, podSnapshot :: rest =>
    if podSnapshot.Timestamp.IsZero then
      (tick, .error "unable to upsert PodSnapshot vertex since timestamp is zero")
    else
      let stamped := { podSnapshot with ExpireAt := (clock tick).Add ttl }
      match stampPodSnapshots clock nodeID podID (tick + 1) rest with
      | (tick1, .ok items) => (tick1, .ok (stamped.SetDynamoAttributes nodeID podID :: items))
      | (tick1, .error e) => (tick1, .error e)

/-- Go `(*treeStore).UpsertPodSnapshots`. -/
def UpsertPodSnapshots {σ : Type} (t : Table σ) (clock : Nat → Time) (w : World σ)
    (nodeID podID : String) (podSnapshots : List PodSnapshot) : World σ × Option String :=
  let batchSize : Int := podSnapshots.length
  match stampPodSnapshots clock nodeID podID w.tick podSnapshots with
  | (tick, .error e) => (⟨w.table, tick⟩, some e)
  | (tick, .ok items) =>
    if items.length > 0 then
      match t.BatchPut w.table (items.map Item.podSnapshot) with
      | (table, _, some err) =>
        (⟨table, tick⟩, some ("error when upserting PodSnapshot vertexes: " ++ err))
      | (table, wc, none) =>
        if wc ≠ batchSize then
          (⟨table, tick⟩,
            some "while upsetting pod snapshot vertexes: persisted count != length of pod snapshots")
        else (⟨table, tick⟩, none)
    else (⟨w.table, tick⟩, none)

/-- The loop of `UpsertPodMetas`: validate, stamp and key every pod meta and
upsert its snapshots before moving to the next one. -/
def upsertPodMetasLoop {σ : Type} (t : Table σ) (clock : Nat → Time) (nodeID : String) :
    World σ → List PodMeta → World σ × Except String (List PodMeta)
  | w, [] => (w, .ok [])
  | w, podMeta :: rest =>
    if podMeta.ID.length = 0 then
      (w, .error "unable to upsert PodMetas vertex since pod meta ID is empty")
    else
      let stamped := { podMeta with ExpireAt := (clock w.tick).Add ttl }
      let keyed := stamped.SetDynamoAttributes nodeID
      match UpsertPodSnapshots t clock ⟨w.table, w.tick + 1⟩ nodeID keyed.ID keyed.Snapshots with
      | (w1, some err) => (w1, .error err)
      | (w1, none) =>
        match upsertPodMetasLoop t clock nodeID w1 rest with
        | (w2, .ok items) => (w2, .ok (keyed :: items))
        | (w2, .error e) => (w2, .error e)

/-- Go `(*treeStore).UpsertPodMetas`. -/
def UpsertPodMetas {σ : Type} (t : Table σ) (clock : Nat → Time) (w : World σ)
    (nodeID : String) (podMetas : List PodMeta) : World σ × Option String :=
  let batchSize : Int := podMetas.length
  match upsertPodMetasLoop t clock nodeID w podMetas with
  | (w1, .error e) => (w1, some e)
  | (w1, .ok items) =>
    if items.length > 0 then
      match t.BatchPut w1.table (items.map Item.ofPodMeta) with
      | (table, _, some err) =>
        (⟨table, w1.tick⟩, some ("error when upserting PodMeta vertexes: " ++ err))
      | (table, wc, none) =>
        if wc ≠ batchSize then
          (⟨table, w1.tick⟩,
            some "while upsetting pod meta vertexes: persisted count != length of pod metas")
        else (⟨table, w1.tick⟩, none)
    else (w1, none)

/-- Go `(*treeStore).Upsert`. -/
def Upsert {σ : Type} (t : Table σ) (clock : Nat → Time) (w : World σ) (nodeMeta : NodeMeta) :
    World σ × Option String :=
  if nodeMeta.ID.length = 0 then
    (w, some "unable to upsert NodeMeta vertex since node ID is empty")
  else
    let stamped := { nodeMeta with ExpireAt := (clock w.tick).Add ttl }
    let keyed := stamped.SetDynamoAttributes
    match t.Put w.table (Item.ofNodeMeta keyed) with
    | (table, some err) =>
      (⟨table, w.tick + 1⟩, some ("error when upserting NodeMeta vertex: " ++ err))
    | (table, none) =>
      match UpsertNodeSnapshots t clock ⟨table, w.tick + 1⟩ keyed.ID keyed.Snapshots with
      | (w1, some err) => (w1, some err)
      | (w1, none) => UpsertPodMetas t clock w1 keyed.ID keyed.Pods

/-- Go `strings.Split(s, "_")[0]`: the part of `s` in front of its first `_`. -/
def idPart0 (s : String) : String := String.mk (s.data.takeWhile (fun c => c != '_'))

/-- Go `dynamo.UnmarshalItem(item, &nodeMeta)`.  The codec belongs to the
client library; a row decodes into the struct it was written from and into no
other. -/
def unmarshalNodeMeta : Item → Except String NodeMeta
  | Item.nodeMeta n => .ok n
  | _ => .error "failed to unmarshal node_meta"

def unmarshalNodeSnapshot : Item → Except String NodeSnapshot
  | Item.nodeSnapshot s => .ok s
  | _ => .error "failed to unmarshal node_snapshot"

def unmarshalPodMeta : Item → Except String PodMeta
  | Item.podMeta p => .ok p
  | _ => .error "failed to unmarshal pod_meta"

def unmarshalPodSnapshot : Item → Except String PodSnapshot
  | Item.podSnapshot s => .ok s
  | _ => .error "failed to unmarshal pod_snapshot"

/-- The four accumulators of `Get`. -/
structure Demux where
  nodeMeta : Option NodeMeta
  nodeSnapshots : List NodeSnapshot
  podMetas : List PodMeta
  podSnapshots : List PodSnapshot
deriving DecidableEq, Repr

/-- One turn of the first loop of `Get`: switch on the row's `Type`. -/
def demuxStep (acc : Demux) (item : Item) : Except String Demux :=
  if item.Type_ = "node_meta" then
    match unmarshalNodeMeta item with
    | .error e => .error e
    | .ok n => .ok { acc with nodeMeta := some n }
  else if item.Type_ = "node_snapshot" then
    match unmarshalNodeSnapshot item with
    | .error e => .error e
    | .ok s => .ok { acc with nodeSnapshots := acc.nodeSnapshots ++ [s] }
  else if item.Type_ = "pod_meta" then
    match unmarshalPodMeta item with
    | .error e => .error e
    | .ok p => .ok { acc with podMetas := acc.podMetas ++ [p] }
  else if item.Type_ = "pod_snapshot" then
    match unmarshalPodSnapshot item with
    | .error e => .error e
    | .ok s => .ok { acc with podSnapshots := acc.podSnapshots ++ [s] }
  else .ok acc

/-- The first loop of `Get`. -/
def demux : Demux → List Item → Except String Demux
  | acc, [] => .ok acc
  | acc, item :: rest =>
    match demuxStep acc item with
    | .error e => .error e
    | .ok acc1 => demux acc1 rest

/-- The inner loop of the second loop of `Get`: append `podSnapshot` to every
pod meta whose `ID` equals the first `_`-separated part of the snapshot's `ID`. -/
def attachOne (podSnapshot : PodSnapshot) (podMetas : List PodMeta) : List PodMeta :=
  podMetas.map (fun podMeta =>
    if idPart0 podSnapshot.ID = podMeta.ID then
      { podMeta with Snapshots := podMeta.Snapshots ++ [podSnapshot] }
    else podMeta)

/-- The second loop of `Get`. -/
def attach (podSnapshots : List PodSnapshot) (podMetas : List PodMeta) : List PodMeta :=
  podSnapshots.foldl (fun acc podSnapshot => attachOne podSnapshot acc) podMetas

/-- Go `(*treeStore).Get`. -/
def Get {σ : Type} (t : Table σ) (w : World σ) (nodeID : String) : Except String NodeMeta :=
  match t.Query w.table nodeID with
  | .error e => .error e
  | .ok items =>
    match demux ⟨none, [], [], []⟩ items with
    | .error e => .error e
    | .ok acc =>
      match acc.nodeMeta with
      | none => .error "failed to find items to build node meta aka. tree root"
      | some nodeMeta =>
        .ok { nodeMeta with Snapshots := acc.nodeSnapshots,
                            Pods := attach acc.podSnapshots acc.podMetas }

/-- A Go loop that applies a fallible step to every element in order and
returns at the first failure. -/
def forEachM {α β ε : Type} (f : α → Except ε β) : List α → Except ε (List β)
  | [] => .ok []
  | x :: xs =>
    match f x with
    | .error e => .error e
    | .ok y =>
      match forEachM f xs with
      | .error e => .error e
      | .ok ys => .ok (y :: ys)

/-- Go `(*treeStore).GetAll`. -/
def GetAll {σ : Type} (t : Table σ) (w : World σ) : Except String (List NodeMeta) :=
  match t.ScanRoot w.table with
  | .error e => .error e
  | .ok items => forEachM (fun item => Get t w item.ID) items

/-! ## a table that is a finite map

The table as a finite map from the primary key `(ID, TreePath)` to the row,
kept as an association list in insertion order.  Every request succeeds and a
batch reports all its rows as persisted. -/

/-- Overwrite the row stored under the key of `item`, or add `item`. -/
def mapPut (rows : List Item) (item : Item) : List Item :=
  if rows.any (fun r => r.key = item.key) then
    rows.map (fun r => if r.key = item.key then item else r)
  else rows ++ [item]

/-- The map-backed table. -/
def mapTable : Table (List Item) where
  Put := fun rows item => (mapPut rows item, none)
  BatchPut := fun rows items => (items.foldl mapPut rows, (items.length : Int), none)
  Query := fun rows treeID => .ok (rows.filter (fun r => r.TreeID = treeID))
  ScanRoot := fun rows => .ok (rows.filter (fun r => r.TreePath = "root"))

/-! ## the API model (`graph/model`)

The generated package `graph/model` is not among the sources.  Its types are
declared here with the fields the replayer assigns; a pointer field holds the
value it points to. -/

namespace model

/-- Modelled from the spec: `model.NodeCondition` (package `graph/model` is
missing), the host condition enum Ready/NotReady/Unknown. -/
inductive NodeCondition where
  | Ready | NotReady | Unknown
deriving DecidableEq, Repr

/-- Modelled from the spec: `model.PodPhase` (package `graph/model` is missing),
the workload phase enum Pending/Running/Succeeded/Failed/Unknown. -/
inductive PodPhase where
  | Pending | Running | Succeeded | Failed | Unknown
deriving DecidableEq, Repr

/-- Modelled from the spec: `model.PodQOSClass` (package `graph/model` is
missing), the quality-of-service enum BestEffort/Burstable/Guaranteed/Unknown. -/
inductive PodQOSClass where
  | BestEffort | Burstable | Guaranteed | Unknown
deriving DecidableEq, Repr

/-- Modelled from the spec: `model.PodPhase.String` (package `graph/model` is
missing), the name of a model phase. -/
def PodPhase.String : PodPhase → String
  | Pending => "Pending"
  | Running => "Running"
  | Succeeded => "Succeeded"
  | Failed => "Failed"
  | Unknown => "Unknown"

/-- Modelled from the spec: `model.NodeCondition.String` (package `graph/model`
is missing), the name of a model condition. -/
def NodeCondition.String : NodeCondition → String
  | Ready => "Ready"
  | NotReady => "NotReady"
  | Unknown => "Unknown"

/-- Modelled from the spec: `model.PodQOSClass.String` (package `graph/model` is
missing), the name of a model QoS class. -/
def PodQOSClass.String : PodQOSClass → String
  | BestEffort => "BestEffort"
  | Burstable => "Burstable"
  | Guaranteed => "Guaranteed"
  | Unknown => "Unknown"

/-- Modelled from the spec: `model.NodeTaint` (package `graph/model` is missing). -/
structure NodeTaint where
  Key : String
  Value : String
  Effect : String
  TimeAdded : Time
deriving DecidableEq, Repr

/-- Modelled from the spec: `model.NodeCapacity` (package `graph/model` is missing). -/
structure NodeCapacity where
  CPU : String
  Memory : String
  EphemeralStorage : String
  Pods : Int
deriving DecidableEq, Repr

/-- Modelled from the spec: `model.NodeState` (package `graph/model` is missing). -/
structure NodeState where
  Status : NodeCondition
  Capacity : NodeCapacity
  Allocatable : NodeCapacity
  Taints : List NodeTaint
  Unschedulable : Bool
deriving DecidableEq, Repr

/-- Modelled from the spec: `model.NodeInfo` (package `graph/model` is missing). -/
structure NodeInfo where
  Architecture : String
  ContainerRuntimeVersion : String
  KernelVersion : String
  KubeletVersion : String
  KubeProxyVersion : String
  OsImage : String
  OperatingSystem : String
  MachineID : String
  SystemUUID : String
  BootID : String
deriving DecidableEq, Repr

/-- Modelled from the spec: `model.ContainerResource` (package `graph/model` is missing). -/
structure ContainerResource where
  CPU : String
  Memory : String
  EphemeralStorage : String
deriving DecidableEq, Repr

/-- Modelled from the spec: `model.ContainerResources` (package `graph/model` is missing). -/
structure ContainerResources where
  Requests : ContainerResource
  Limits : ContainerResource
deriving DecidableEq, Repr

/-- Modelled from the spec: `model.ContainerState` and `model.ContainerLastState`
(package `graph/model` is missing); the two have the same fields. -/
structure ContainerState where
  ExitCode : Int
  StartedAt : Time
  FinishedAt : Time
  Reason : String
deriving DecidableEq, Repr

/-- Modelled from the spec: `model.ContainerSnapshot` (package `graph/model` is missing). -/
structure ContainerSnapshot where
  ContainerID : String
  Name : String
  Image : String
  ImageID : String
  Resources : ContainerResources
  Ready : Bool
  RestartCount : Int
  StartedAt : Time
  Running : Bool
  State : ContainerState
  LastState : ContainerState
deriving DecidableEq, Repr

/-- Modelled from the spec: `model.PodSnapshot` (package `graph/model` is
missing), the entry of one workload in a fleet view. -/
structure PodSnapshot where
  ID : String
  Timestamp : Time
  Name : String
  Namespace : String
  Status : PodPhase
  StartedAt : Time
  DeletedAt : Time
  FinishedAt : Time
  DeletedBy : String
  QosClass : PodQOSClass
  InitContainers : List ContainerSnapshot
  Containers : List ContainerSnapshot
  EphemeralContainers : List ContainerSnapshot
deriving DecidableEq, Repr

/-- Modelled from the spec: `model.NodeSnapshot` (package `graph/model` is
missing), the entry of one host in a fleet view. -/
structure NodeSnapshot where
  ID : String
  Timestamp : Time
  Name : String
  Roles : List String
  ProviderID : String
  Info : NodeInfo
  State : NodeState
  Pods : List PodSnapshot
deriving DecidableEq, Repr

/-- Modelled from the spec: `model.TimedNodeSnapshots` (package `graph/model`
is missing), the fleet view `FleetView{timestamp, hosts}`. -/
structure TimedNodeSnapshots where
  Timestamp : Time
  Nodes : List NodeSnapshot
deriving DecidableEq, Repr

end model

/-! ## enum translation (`internal/utils/utils.go`) -/

/-- Go `utils.TransformToModelNodeCondition`. -/
def TransformToModelNodeCondition (condition : NodeCondition) : model.NodeCondition :=
  if condition = NodeStateReady then model.NodeCondition.Ready
  else if condition = NodeStateNotReady then model.NodeCondition.NotReady
  else model.NodeCondition.Unknown

/-- Go `utils.TransformToModelPodPhase`. -/
def TransformToModelPodPhase (phase : PodPhase) : model.PodPhase :=
  if phase = PodPhaseRunning then model.PodPhase.Running
  else if phase = PodPhasePending then model.PodPhase.Pending
  else if phase = PodPhaseFailed then model.PodPhase.Failed
  else model.PodPhase.Unknown

/-- Go `utils.TransformToModelPodQOSClass`. -/
def TransformToModelPodQOSClass (cls : PodQOSClass) : model.PodQOSClass :=
  if cls = PodQOSClassBestEffort then model.PodQOSClass.BestEffort
  else if cls = PodQOSClassBurstable then model.PodQOSClass.Burstable
  else if cls = PodQOSClassGuaranteed then model.PodQOSClass.Guaranteed
  else model.PodQOSClass.Unknown

/-! ## the temporal query engine (`internal/services/replayer.go`) -/

/-- How a query call ends when it does not return a value: with a Go `error`,
or with the run-time panic of a nil pointer dereference. -/
inductive Failure where
  | error (msg : String)
  | nilDeref
deriving DecidableEq, Repr

/-- The store as the query engine reads it: the result of `store.GetAll`.
Queries do not write, so every call within one query sees the same result. -/
structure Store where
  GetAll : Except String (List NodeMeta)

/-- Go `containerSnapshots`. -/
def containerSnapshots (containers : List ContainerSnapshot) : List model.ContainerSnapshot :=
  containers.map (fun container =>
    { ContainerID := container.ContainerID
      Name := container.Name
      Image := container.Image
      ImageID := container.ImageID
      Resources :=
        { Requests :=
            { CPU := container.Resources.Requests.Cpu
              Memory := container.Resources.Requests.Memory
              EphemeralStorage := container.Resources.Requests.EphemeralStorage }
          Limits :=
            { CPU := container.Resources.Limits.Cpu
              Memory := container.Resources.Limits.Memory
              EphemeralStorage := container.Resources.Limits.EphemeralStorage } }
      Ready := container.Ready
      RestartCount := container.RestartCount
      StartedAt := container.StartedAt
      Running := container.Running
      State :=
        { ExitCode := container.State.ExitCode
          StartedAt := container.State.StartedAt
          FinishedAt := container.State.FinishedAt
          Reason := container.State.Reason }
      LastState :=
        { ExitCode := container.LastState.ExitCode
          StartedAt := container.LastState.StartedAt
          FinishedAt := container.LastState.FinishedAt
          Reason := container.LastState.Reason } })

/-- The body of the pod loop of `EffectiveAtSnapshot`, once `podInTime` is there. -/
def podEntry (pod : PodMeta) (podInTime : PodSnapshot) : model.PodSnapshot :=
  { ID := pod.ID
    Timestamp := podInTime.Timestamp
    Name := pod.Name
    Namespace := pod.Namespace
    Status := TransformToModelPodPhase podInTime.Status
    StartedAt := pod.StartedAt
    DeletedAt := pod.DeletedAt
    FinishedAt := pod.FinishedAt
    DeletedBy := pod.DeletedBy
    QosClass := TransformToModelPodQOSClass pod.QOSClass
    InitContainers := containerSnapshots podInTime.InitContainers
    Containers := containerSnapshots podInTime.Containers
    EphemeralContainers := containerSnapshots podInTime.EphemeralContainers }

/-- One turn of the pod loop of `EffectiveAtSnapshot`: `podInTime` is read
without a nil check. -/
def podView (effectiveAt : Time) (pod : PodMeta) : Except Failure model.PodSnapshot :=
  match PodSnapshots.EffectiveAt pod.Snapshots effectiveAt with
  | none => .error Failure.nilDeref
  | some podInTime => .ok (podEntry pod podInTime)

/-- The host entry assembled at the end of one turn of the node loop. -/
def nodeEntry (node : NodeMeta) (nodeInTime : NodeSnapshot) (podSnapshots : List model.PodSnapshot) :
    model.NodeSnapshot :=
  { ID := node.ID
    Timestamp := nodeInTime.Timestamp
    Name := node.Name
    Roles := node.Roles
    ProviderID := node.ProviderID
    Info :=
      { Architecture := node.Architecture
        ContainerRuntimeVersion := node.ContainerRuntimeVersion
        KernelVersion := node.KernelVersion
        KubeletVersion := node.KubeletVersion
        KubeProxyVersion := node.KubeProxyVersion
        OsImage := node.OsImage
        OperatingSystem := node.OperatingSystem
        MachineID := node.MachineID
        SystemUUID := node.SystemUUID
        BootID := node.BootID }
    State :=
      { Status := TransformToModelNodeCondition nodeInTime.State.Condition
        Capacity :=
          { CPU := nodeInTime.State.Capacity.Cpu
            Memory := nodeInTime.State.Capacity.Memory
            EphemeralStorage := nodeInTime.State.Capacity.EphemeralStorage
            Pods := nodeInTime.State.Capacity.Pods }
        Allocatable :=
          { CPU := nodeInTime.State.Allocatable.Cpu
            Memory := nodeInTime.State.Allocatable.Memory
            EphemeralStorage := nodeInTime.State.Allocatable.EphemeralStorage
            Pods := nodeInTime.State.Allocatable.Pods }
        Taints := nodeInTime.State.Taints.map (fun taint =>
          { Key := taint.Key, Value := taint.Value, Effect := taint.Effect,
            TimeAdded := taint.TimeAdded })
        Unschedulable := nodeInTime.State.Unschedulable }
    Pods := podSnapshots }

/-- One turn of the node loop of `EffectiveAtSnapshot`: `nodeInTime` is read
without a nil check, then the pods are walked. -/
def nodeView (effectiveAt : Time) (node : NodeMeta) : Except Failure model.NodeSnapshot :=
  match NodeSnapshots.EffectiveAt node.Snapshots effectiveAt with
  | none => .error Failure.nilDeref
  | some nodeInTime =>
    match forEachM (podView effectiveAt) node.Pods with
    | .error e => .error e
    | .ok podSnapshots => .ok (nodeEntry node nodeInTime podSnapshots)

/-- Go `(*replayer).EffectiveAtSnapshot`. -/
def EffectiveAtSnapshot (store : Store) (effectiveAt : Time) :
    Except Failure model.TimedNodeSnapshots :=
  match store.GetAll with
  | .error e => .error (Failure.error ("unable to get all nodes in cluster: " ++ e))
  | .ok nodes =>
    match forEachM (nodeView effectiveAt) nodes with
    | .error e => .error e
    | .ok nodeSnapshots => .ok { Timestamp := effectiveAt, Nodes := nodeSnapshots }

/-- The range test of `EventfulSnapshots`. -/
def inWindow (beginAt endAt t : Time) : Bool :=
  (t.After beginAt || t.Equal beginAt) && (t.Before endAt || t.Equal endAt)

/-- The collecting loop of `EventfulSnapshots`: per node, its snapshot times in
the window, then those of each of its pods. -/
def eventTimes (beginAt endAt : Time) (nodes : List NodeMeta) : List Time :=
  nodes.flatMap (fun node =>
    (node.Snapshots.filter (fun s => inWindow beginAt endAt s.Timestamp)).map (fun s => s.Timestamp)
    ++ node.Pods.flatMap (fun pod =>
      (pod.Snapshots.filter (fun s => inWindow beginAt endAt s.Timestamp)).map
        (fun s => s.Timestamp)))

/-- Go `(*replayer).EventfulSnapshots`. -/
def EventfulSnapshots (store : Store) (beginAt endAt : Time) :
    Except Failure (List model.TimedNodeSnapshots) :=
  match store.GetAll with
  | .error e => .error (Failure.error ("unable to get all nodes in cluster: " ++ e))
  | .ok nodes =>
    let times := goSort Time.Before (eventTimes beginAt endAt nodes)
    forEachM (EffectiveAtSnapshot store) times

/-- The first loop of `IntervalSnapshots`,
`for t := beginAt; t.Before(endAt) || t.Equal(endAt); t = t.Add(step)`,
run for at most `fuel` tests of the loop condition; `none` when the loop is
still running after that. -/
def intervalTimes : Nat → Time → Time → Int → Option (List Time)
  | 0, _, _, _ => none
  | fuel + 1, t, endAt, step =>
    if t.Before endAt || t.Equal endAt then
      match intervalTimes fuel (t.Add step) endAt step with
      | none => none
      | some times => some (t :: times)
    else some []

/-- Go `time.Duration(intervalInSec) * time.Second`, a wrapping 64-bit product. -/
def intervalStep (intervalInSec : Int) : Int := wrap64 (intervalInSec * Second)

/-- Go `(*replayer).IntervalSnapshots`; `none` when the first loop does not
end within `fuel` tests of its condition. -/
def IntervalSnapshots (fuel : Nat) (store : Store) (beginAt endAt : Time) (intervalInSec : Int) :
    Option (Except Failure (List model.TimedNodeSnapshots)) :=
  match intervalTimes fuel beginAt endAt (intervalStep intervalInSec) with
  | none => none
  | some times => some (forEachM (EffectiveAtSnapshot store) times)

/-! ## auxiliary notions and sample records -/

deriving instance DecidableEq for Except

/-- The order a sort by `less` leaves behind: no element is `less` than an
earlier one. -/
def Ordered {α : Type} (less : α → α → Bool) (l : List α) : Prop :=
  l.Pairwise (fun a b => less b a = false)

/-- A node snapshot with the given timestamp and condition, everything else zero. -/
def mkNodeSnapshot (t : Time) (condition : NodeCondition) : NodeSnapshot :=
  { ID := "", TreeID := "", TreePath := "", ExpireAt := 0, Type_ := "", Timestamp := t,
    State :=
      { Condition := condition
        Capacity := { Cpu := "", Memory := "", EphemeralStorage := "", Pods := 0 }
        Allocatable := { Cpu := "", Memory := "", EphemeralStorage := "", Pods := 0 }
        Taints := []
        Unschedulable := false } }

/-- A pod snapshot with the given timestamp and phase, everything else zero. -/
def mkPodSnapshot (t : Time) (phase : PodPhase) : PodSnapshot :=
  { ID := "", TreeID := "", TreePath := "", ExpireAt := 0, Type_ := "", Timestamp := t,
    Status := phase, InitContainers := [], EphemeralContainers := [], Containers := [] }

/-- A pod meta with the given id and history, everything else zero. -/
def mkPod (id : String) (snapshots : List PodSnapshot) : PodMeta :=
  { ID := id, TreeID := "", TreePath := "", ExpireAt := 0, Type_ := "", Name := "",
    Namespace := "", StartedAt := 0, DeletedAt := 0, FinishedAt := 0, DeletedBy := "",
    QOSClass := PodQOSClassBestEffort, Snapshots := snapshots }

/-- A node meta with the given id, history and pods, everything else zero. -/
def mkNode (id : String) (snapshots : List NodeSnapshot) (pods : List PodMeta) : NodeMeta :=
  { ID := id, TreeID := "", TreePath := "", ExpireAt := 0, Type_ := "", Name := "",
    ProviderID := "", Architecture := "", ContainerRuntimeVersion := "", KernelVersion := "",
    KubeletVersion := "", KubeProxyVersion := "", OsImage := "", OperatingSystem := "",
    MachineID := "", SystemUUID := "", BootID := "", Roles := [],
    Snapshots := snapshots, Pods := pods }

/-- Host `H1` with snapshots at 10 (Ready) and 20 (NotReady), workload `W1`
with one snapshot at 12. -/
def fleetH1W1 : Store :=
  { GetAll := .ok [mkNode "H1" [mkNodeSnapshot 10 NodeStateReady, mkNodeSnapshot 20 NodeStateNotReady]
      [mkPod "W1" [mkPodSnapshot 12 PodPhaseRunning]]] }

/-- Host `H1` whose only snapshot is at 20, without workloads. -/
def fleetLateHost : Store :=
  { GetAll := .ok [mkNode "H1" [mkNodeSnapshot 20 NodeStateReady] []] }

/-- Host `H1` with a snapshot at 10 and workload `W1` with a snapshot at 10
whose phase is `phase`. -/
def fleetSameInstant (phase : PodPhase) : Store :=
  { GetAll := .ok [mkNode "H1" [mkNodeSnapshot 10 NodeStateReady]
      [mkPod "W1" [mkPodSnapshot 10 phase]]] }

/-- A clock that reads 1000 plus the number of earlier readings. -/
def sampleClock : Nat → Time := fun n => 1000 + n

/-! ## what `Upsert` writes, and what round-trips -/

/-- A row with its retention expiry cleared. -/
def Item.clearExpire : Item → Item
  | Item.nodeMeta n => Item.nodeMeta { n with ExpireAt := 0 }
  | Item.nodeSnapshot s => Item.nodeSnapshot { s with ExpireAt := 0 }
  | Item.podMeta p => Item.podMeta { p with ExpireAt := 0 }
  | Item.podSnapshot s => Item.podSnapshot { s with ExpireAt := 0 }

/-- A node snapshot without its retention expiry and its derived key fields. -/
def NodeSnapshot.content (s : NodeSnapshot) : NodeSnapshot :=
  { s with ID := "", TreeID := "", TreePath := "", ExpireAt := 0, Type_ := "" }

/-- A pod snapshot without its retention expiry and its derived key fields. -/
def PodSnapshot.content (s : PodSnapshot) : PodSnapshot :=
  { s with ID := "", TreeID := "", TreePath := "", ExpireAt := 0, Type_ := "" }

/-- A pod meta without retention expiry and derived key fields, in itself and
in its snapshots. -/
def PodMeta.content (p : PodMeta) : PodMeta :=
  { p with TreeID := "", TreePath := "", ExpireAt := 0, Type_ := "",
           Snapshots := p.Snapshots.map PodSnapshot.content }

/-- A node meta without retention expiry and derived key fields, in itself,
its snapshots, its pods and their snapshots. -/
def NodeMeta.content (n : NodeMeta) : NodeMeta :=
  { n with TreeID := "", TreePath := "", ExpireAt := 0, Type_ := "",
           Snapshots := n.Snapshots.map NodeSnapshot.content,
           Pods := n.Pods.map PodMeta.content }

/-- The batch `UpsertNodeSnapshots` submits for snapshots that pass validation,
the first clock reading being number `tick`. -/
def keyedNodeSnapshots (clock : Nat → Time) (nodeID : String) :
    Nat → List NodeSnapshot → List NodeSnapshot
  | _, [] => []
  | tick, s :: rest =>
    ({ s with ExpireAt := (clock tick).Add ttl }).SetDynamoAttributes nodeID
      :: keyedNodeSnapshots clock nodeID (tick + 1) rest

/-- The batch `UpsertPodSnapshots` submits for snapshots that pass validation. -/
def keyedPodSnapshots (clock : Nat → Time) (nodeID podID : String) :
    Nat → List PodSnapshot → List PodSnapshot
  | _, [] => []
  | tick, s :: rest =>
    ({ s with ExpireAt := (clock tick).Add ttl }).SetDynamoAttributes nodeID podID
      :: keyedPodSnapshots clock nodeID podID (tick + 1) rest

/-- The clock readings `UpsertPodMetas` takes: one per pod and one per pod snapshot. -/
def podTicks : List PodMeta → Nat
  | [] => 0
  | p :: rest => 1 + p.Snapshots.length + podTicks rest

/-- The batch `UpsertPodMetas` submits for pods that pass validation. -/
def keyedPods (clock : Nat → Time) (nodeID : String) : Nat → List PodMeta → List PodMeta
  | _, [] => []
  | tick, p :: rest =>
    ({ p with ExpireAt := (clock tick).Add ttl }).SetDynamoAttributes nodeID
      :: keyedPods clock nodeID (tick + 1 + p.Snapshots.length) rest

/-- The pod snapshots the loop of `UpsertPodMetas` writes, pod after pod. -/
def podSnapshotWrites (clock : Nat → Time) (nodeID : String) :
    Nat → List PodMeta → List PodSnapshot
  | _, [] => []
  | tick, p :: rest =>
    keyedPodSnapshots clock nodeID p.ID (tick + 1) p.Snapshots
      ++ podSnapshotWrites clock nodeID (tick + 1 + p.Snapshots.length) rest

/-- The rows `Upsert` writes for a valid record, in the order it writes them. -/
def treeWrites (clock : Nat → Time) (tick : Nat) (h : NodeMeta) : List Item :=
  Item.ofNodeMeta (({ h with ExpireAt := (clock tick).Add ttl }).SetDynamoAttributes)
    :: ((keyedNodeSnapshots clock h.ID (tick + 1) h.Snapshots).map Item.nodeSnapshot
      ++ ((podSnapshotWrites clock h.ID (tick + 1 + h.Snapshots.length) h.Pods).map
            Item.podSnapshot
        ++ (keyedPods clock h.ID (tick + 1 + h.Snapshots.length) h.Pods).map Item.ofPodMeta))

/-- The last row of `writes` with key `k`. -/
def lastWrite (writes : List Item) (k : String × String) : Option Item :=
  writes.reverse.find? (fun w => w.key = k)

/-- A table that is a finite map but whose batches report one row fewer than
they were given. -/
def shortCountTable : Table (List Item) where
  Put := fun rows item => (mapPut rows item, none)
  BatchPut := fun rows items => (items.foldl mapPut rows, (items.length : Int) - 1, none)
  Query := fun rows treeID => .ok (rows.filter (fun r => r.TreeID = treeID))
  ScanRoot := fun rows => .ok (rows.filter (fun r => r.TreePath = "root"))

/-- Host `n1` with snapshots at 10 and 20 and the workloads `a` (snapshot at
10) and `a_b` (snapshot at 12). -/
def treeUnderscore : NodeMeta :=
  mkNode "n1" [mkNodeSnapshot 10 NodeStateReady, mkNodeSnapshot 20 NodeStateNotReady]
    [mkPod "a" [mkPodSnapshot 10 PodPhaseRunning], mkPod "a_b" [mkPodSnapshot 12 PodPhasePending]]

/-- Host `n1` with snapshots at 10 and 20 and the workloads `a` (snapshot at
10) and `b` (snapshots at 12 and 15). -/
def treePlain : NodeMeta :=
  mkNode "n1" [mkNodeSnapshot 10 NodeStateReady, mkNodeSnapshot 20 NodeStateNotReady]
    [mkPod "a" [mkPodSnapshot 10 PodPhaseRunning],
     mkPod "b" [mkPodSnapshot 12 PodPhasePending, mkPodSnapshot 15 PodPhaseRunning]]

/-! ## a table that records the rows submitted to it -/

/-- The table `t` together with a log of every row handed to `Put` or to a
batch write, in the order of submission.  The answers are those of `t`. -/
def logged {σ : Type} (t : Table σ) : Table (σ × List Item) where
  Put := fun s item => (((t.Put s.1 item).1, s.2 ++ [item]), (t.Put s.1 item).2)
  BatchPut := fun s items => (((t.BatchPut s.1 items).1, s.2 ++ items), (t.BatchPut s.1 items).2)
  Query := fun s treeID => t.Query s.1 treeID
  ScanRoot := fun s => t.ScanRoot s.1

/-- The expiry `e` is a clock reading numbered from `lo` up to, not including,
`hi`, plus `ttl`. -/
def IsStamped (clock : Nat → Time) (lo hi : Nat) (e : Time) : Prop :=
  ∃ k, lo ≤ k ∧ k < hi ∧ e = (clock k).Add ttl

/-- The row passes its turn of the first loop of `Get` without an error:
its `Type` names the struct it decodes into, or none of the four kinds. -/
def Item.decodes (item : Item) : Bool :=
  match demuxStep ⟨none, [], [], []⟩ item with
  | .ok _ => true
  | .error _ => false

/-- The row is a node meta row written for `h`: `h` has an id, and the row is
`h` keyed and stamped with a clock reading numbered in `[lo, hi)`. -/
def IsNodeMetaRow (clock : Nat → Time) (h : NodeMeta) (lo hi : Nat) (i : Item) : Prop :=
  h.ID ≠ "" ∧ ∃ k, lo ≤ k ∧ k < hi ∧
    i = Item.ofNodeMeta (({ h with ExpireAt := (clock k).Add ttl }).SetDynamoAttributes)

/-- The row is a node snapshot row written for one of `snaps` under `nodeID`. -/
def IsNodeSnapshotRow (clock : Nat → Time) (nodeID : String) (snaps : List NodeSnapshot)
    (lo hi : Nat) (i : Item) : Prop :=
  ∃ s ∈ snaps, ∃ k, lo ≤ k ∧ k < hi ∧
    i = Item.nodeSnapshot (({ s with ExpireAt := (clock k).Add ttl }).SetDynamoAttributes nodeID)

/-- The row is a pod snapshot row written for a snapshot in `snaps` of the pod
`podID` under `nodeID`. -/
def IsSnapshotRowOf (clock : Nat → Time) (nodeID podID : String) (snaps : List PodSnapshot)
    (lo hi : Nat) (i : Item) : Prop :=
  ∃ s ∈ snaps, ∃ k, lo ≤ k ∧ k < hi ∧
    i = Item.podSnapshot
      (({ s with ExpireAt := (clock k).Add ttl }).SetDynamoAttributes nodeID podID)

/-- The row is a pod snapshot row written for a snapshot of one of `pods` that
has an id. -/
def IsPodSnapshotRow (clock : Nat → Time) (nodeID : String) (pods : List PodMeta)
    (lo hi : Nat) (i : Item) : Prop :=
  ∃ p ∈ pods, p.ID ≠ "" ∧ IsSnapshotRowOf clock nodeID p.ID p.Snapshots lo hi i

/-- The row is a pod meta row written for one of `pods`, all of which have an id. -/
def IsPodMetaRow (clock : Nat → Time) (nodeID : String) (pods : List PodMeta)
    (lo hi : Nat) (i : Item) : Prop :=
  (∀ p ∈ pods, p.ID ≠ "") ∧ ∃ p ∈ pods, ∃ k, lo ≤ k ∧ k < hi ∧
    i = Item.ofPodMeta (({ p with ExpireAt := (clock k).Add ttl }).SetDynamoAttributes nodeID)

/-- The row is one `Upsert(h)` may write. -/
def IsTreeRow (clock : Nat → Time) (h : NodeMeta) (lo hi : Nat) (i : Item) : Prop :=
  IsNodeMetaRow clock h lo hi i ∨ IsNodeSnapshotRow clock h.ID h.Snapshots lo hi i ∨
    IsPodSnapshotRow clock h.ID h.Pods lo hi i ∨ IsPodMetaRow clock h.ID h.Pods lo hi i

/-! ## the recorder's input (`graph/model`) -/

namespace model

/-- Modelled from the spec: `model.ContainerResourceInput` (package `graph/model`
is missing).  The fields are those `transformToDataContainers` reads; it reads
every one through `*`, so each is a pointer, `none` when nil. -/
structure ContainerResourceInput where
  CPU : Option String
  Memory : Option String
  EphemeralStorage : Option String
deriving DecidableEq, Repr

/-- Modelled from the spec: `model.ContainerResourcesInput` (package
`graph/model` is missing). -/
structure ContainerResourcesInput where
  Requests : ContainerResourceInput
  Limits : ContainerResourceInput
deriving DecidableEq, Repr

/-- Modelled from the spec: `model.ContainerStateInput` (package `graph/model` is
missing), the type of both `State` and `LastState`.  `ExitCode`, `FinishedAt`
and `Reason` are read through `*`: pointers, `none` when nil. -/
structure ContainerStateInput where
  ExitCode : Option Int
  StartedAt : Time
  FinishedAt : Option Time
  Reason : Option String
deriving DecidableEq, Repr

/-- Modelled from the spec: `model.ContainerSnapshotInput` (package `graph/model`
is missing).  `RestartCount` is read through `*`: a pointer, `none` when nil. -/
structure ContainerSnapshotInput where
  ContainerID : String
  Name : String
  Image : String
  ImageID : String
  Ready : Bool
  RestartCount : Option Int
  StartedAt : Time
  Running : Bool
  Resources : ContainerResourcesInput
  State : ContainerStateInput
  LastState : ContainerStateInput
deriving DecidableEq, Repr

/-- Modelled from the spec: `model.PodSnapshotInput` (package `graph/model` is
missing), one workload snapshot handed to the recorder.  The fields are those
`RecordPodSnapshots` and `TransformToDataPods` read; `Namespace`, `DeletedAt`,
`FinishedAt` and `DeletedBy` are read through `*`: pointers, `none` when nil. -/
structure PodSnapshotInput where
  ID : String
  NodeID : String
  Timestamp : Time
  Name : String
  Namespace : Option String
  Status : PodPhase
  StartedAt : Time
  DeletedAt : Option Time
  FinishedAt : Option Time
  DeletedBy : Option String
  QosClass : PodQOSClass
  InitContainers : List ContainerSnapshotInput
  EphemeralContainers : List ContainerSnapshotInput
  Containers : List ContainerSnapshotInput
deriving DecidableEq, Repr

end model

/-! ## from the input to the entity model (`internal/data/enums.go`,
`internal/utils/utils.go`) -/

/-- Go `strings.ToLower`, on the letters A to Z. -/
def toLower (s : String) : String := String.mk (s.data.map Char.toLower)

/-- Go `data.StringToPodPhase`. -/
def StringToPodPhase (s : String) : PodPhase :=
  if toLower s = "pending" then PodPhasePending
  else if toLower s = "running" then PodPhaseRunning
  else if toLower s = "succeeded" then PodPhaseSucceeded
  else if toLower s = "failed" then PodPhaseFailed
  else if toLower s = "unknown" then PodPhaseUnknown
  else PodPhaseUnknown

/-- Go `data.StringToPodQOSClass`. -/
def StringToPodQOSClass (s : String) : PodQOSClass :=
  if toLower s = "besteffort" then PodQOSClassBestEffort
  else if toLower s = "burstable" then PodQOSClassBurstable
  else if toLower s = "guaranteed" then PodQOSClassGuaranteed
  else if toLower s = "unknown" then PodQOSClassUnknown
  else PodQOSClassUnknown

/-- Go `*p`: the value pointed to, or the panic of a nil pointer dereference. -/
def deref {α : Type} : Option α → Except Failure α
  | some a => .ok a
  | none => .error Failure.nilDeref

/-- The `data.ContainerResource` literal of `transformToDataContainers`. -/
def transformToDataResource (r : model.ContainerResourceInput) : Except Failure ContainerResource :=
  match deref r.CPU with
  | .error f => .error f
  | .ok cpu =>
    match deref r.Memory with
    | .error f => .error f
    | .ok memory =>
      match deref r.EphemeralStorage with
      | .error f => .error f
      | .ok ephemeralStorage =>
        .ok { Cpu := cpu, Memory := memory, EphemeralStorage := ephemeralStorage }

/-- The `data.ContainerState` literal of `transformToDataContainers`. -/
def transformToDataState (s : model.ContainerStateInput) : Except Failure ContainerState :=
  match deref s.ExitCode with
  | .error f => .error f
  | .ok exitCode =>
    match deref s.FinishedAt with
    | .error f => .error f
    | .ok finishedAt =>
      match deref s.Reason with
      | .error f => .error f
      | .ok reason =>
        .ok { ExitCode := exitCode, StartedAt := s.StartedAt, FinishedAt := finishedAt,
              Reason := reason }

/-- The body of the loop of `transformToDataContainers`. -/
def transformToDataContainer (container : model.ContainerSnapshotInput) :
    Except Failure ContainerSnapshot :=
  match deref container.RestartCount with
  | .error f => .error f
  | .ok restartCount =>
    match transformToDataResource container.Resources.Requests with
    | .error f => .error f
    | .ok requests =>
      match transformToDataResource container.Resources.Limits with
      | .error f => .error f
      | .ok limits =>
        match transformToDataState container.State with
        | .error f => .error f
        | .ok state =>
          match transformToDataState container.LastState with
          | .error f => .error f
          | .ok lastState =>
            .ok { ContainerID := container.ContainerID
                  Name := container.Name
                  Image := container.Image
                  ImageID := container.ImageID
                  Ready := container.Ready
                  RestartCount := restartCount
                  StartedAt := container.StartedAt
                  Running := container.Running
                  Resources := { Requests := requests, Limits := limits }
                  State := state
                  LastState := lastState }

/-- Go `transformToDataContainers`. -/
def transformToDataContainers (untransformed : List model.ContainerSnapshotInput) :
    Except Failure (List ContainerSnapshot) :=
  forEachM transformToDataContainer untransformed

/-- The body of the loop of `TransformToDataPods`: the `data.PodMeta` literal
with its one snapshot.  The fields the literal leaves out hold their zero
values. -/
def transformToDataPod (pod : model.PodSnapshotInput) : Except Failure PodMeta :=
  match deref pod.Namespace with
  | .error f => .error f
  | .ok ns =>
    match deref pod.DeletedAt with
    | .error f => .error f
    | .ok deletedAt =>
      match deref pod.FinishedAt with
      | .error f => .error f
      | .ok finishedAt =>
        match deref pod.DeletedBy with
        | .error f => .error f
        | .ok deletedBy =>
          match transformToDataContainers pod.InitContainers with
          | .error f => .error f
          | .ok initContainers =>
            match transformToDataContainers pod.EphemeralContainers with
            | .error f => .error f
            | .ok ephemeralContainers =>
              match transformToDataContainers pod.Containers with
              | .error f => .error f
              | .ok containers =>
                .ok { ID := pod.ID
                      TreeID := ""
                      TreePath := ""
                      ExpireAt := 0
                      Type_ := ""
                      Name := pod.Name
                      Namespace := ns
                      StartedAt := pod.StartedAt
                      DeletedAt := deletedAt
                      FinishedAt := finishedAt
                      DeletedBy := deletedBy
                      QOSClass := StringToPodQOSClass pod.QosClass.String
                      Snapshots := [{ ID := ""
                                      TreeID := ""
                                      TreePath := ""
                                      ExpireAt := 0
                                      Type_ := ""
                                      Timestamp := pod.Timestamp
                                      Status := StringToPodPhase pod.Status.String
                                      InitContainers := initContainers
                                      EphemeralContainers := ephemeralContainers
                                      Containers := containers }] }

/-- Go `TransformToDataPods`. -/
def TransformToDataPods (untransformed : List model.PodSnapshotInput) :
    Except Failure (List PodMeta) :=
  forEachM transformToDataPod untransformed

/-- No pointer that `transformToDataContainers` reads through is nil. -/
def model.ContainerSnapshotInput.complete (c : model.ContainerSnapshotInput) : Bool :=
  c.RestartCount.isSome &&
  c.Resources.Requests.CPU.isSome && c.Resources.Requests.Memory.isSome &&
  c.Resources.Requests.EphemeralStorage.isSome &&
  c.Resources.Limits.CPU.isSome && c.Resources.Limits.Memory.isSome &&
  c.Resources.Limits.EphemeralStorage.isSome &&
  c.State.ExitCode.isSome && c.State.FinishedAt.isSome && c.State.Reason.isSome &&
  c.LastState.ExitCode.isSome && c.LastState.FinishedAt.isSome && c.LastState.Reason.isSome

/-- No pointer that `TransformToDataPods` reads through is nil, in the
snapshot or in any of its containers. -/
def model.PodSnapshotInput.complete (p : model.PodSnapshotInput) : Bool :=
  p.Namespace.isSome && p.DeletedAt.isSome && p.FinishedAt.isSome && p.DeletedBy.isSome &&
  p.InitContainers.all (fun c => c.complete) &&
  p.EphemeralContainers.all (fun c => c.complete) &&
  p.Containers.all (fun c => c.complete)

/-! ## the recorder (`internal/services/replayer.go`) -/

/-- The store as the recorder writes it: `store.UpsertPodMetas` on a store
state, returning the state it leaves and the Go `error`. -/
structure PodStore (σ : Type) where
  UpsertPodMetas : σ → String → List PodMeta → σ × Option String

/-- The tree store over a table and a clock, as the recorder's store. -/
def treeStore {σ : Type} (t : Table σ) (clock : Nat → Time) : PodStore (World σ) where
  UpsertPodMetas := UpsertPodMetas t clock

/-- The store together with a log of every `UpsertPodMetas` call made to it:
the owner id and the list it was given, in the order of the calls. -/
def recorded {σ : Type} (store : PodStore σ) : PodStore (σ × List (String × List PodMeta)) where
  UpsertPodMetas := fun s nodeID podMetas =>
    (((store.UpsertPodMetas s.1 nodeID podMetas).1, s.2 ++ [(nodeID, podMetas)]),
     (store.UpsertPodMetas s.1 nodeID podMetas).2)

/-- A store that accepts every call and keeps nothing. -/
def acceptingStore : PodStore Unit where
  UpsertPodMetas := fun _ _ _ => ((), none)

/-- Go `m[k]` on a `map[string][]*model.PodSnapshotInput` held as a list of
entries: the value of the entry with key `k`, the nil slice when there is none. -/
def mapGet : List (String × List model.PodSnapshotInput) → String → List model.PodSnapshotInput
  | [], _ => []
  | e :: rest, k => if e.1 = k then e.2 else mapGet rest k

/-- Go `m[k] = v`: the entry with key `k` is replaced, or added when there is
none. -/
def mapSet : List (String × List model.PodSnapshotInput) → String →
    List model.PodSnapshotInput → List (String × List model.PodSnapshotInput)
  | [], k, v => [(k, v)]
  | e :: rest, k, v => if e.1 = k then (k, v) :: rest else e :: mapSet rest k v

/-- The first loop of `RecordPodSnapshots`: the map from owner id to the
snapshots of that owner. -/
def nodesPodsMap (snapshots : List model.PodSnapshotInput) :
    List (String × List model.PodSnapshotInput) :=
  snapshots.foldl (fun m snapshot =>
    if (mapGet m snapshot.NodeID).length = 0 then
      mapSet m snapshot.NodeID [snapshot]
    else
      mapSet m snapshot.NodeID (mapGet m snapshot.NodeID ++ [snapshot])) []

/-- The map holds the snapshots `xs` grouped by owner: no key twice, under
every key the snapshots of that owner in the order of `xs` and at least one
of them, and a key for the owner of every snapshot. -/
def IsGrouping (m : List (String × List model.PodSnapshotInput))
    (xs : List model.PodSnapshotInput) : Prop :=
  (m.map Prod.fst).Nodup ∧
  (∀ e ∈ m, e.2 = xs.filter (fun x => x.NodeID = e.1) ∧ e.2 ≠ []) ∧
  ∀ x ∈ xs, x.NodeID ∈ m.map Prod.fst

/-- The second loop of `RecordPodSnapshots`, over the entries of the map in the
order the `range` visits them.  A nil dereference inside `TransformToDataPods`
ends the call before the store is reached. -/
def recordLoop {σ : Type} (store : PodStore σ) :
    σ → List (String × List model.PodSnapshotInput) → σ × Except Failure Unit
  | s, [] => (s, .ok ())
  | s, (nodeID, pods) :: rest =>
    match TransformToDataPods pods with
    | .error f => (s, .error f)
    | .ok podMetas =>
      match store.UpsertPodMetas s nodeID podMetas with
      | (s1, some err) => (s1, .error (Failure.error err))
      | (s1, none) => recordLoop store s1 rest

/-- Go `(*replayer).RecordPodSnapshots`.  Go leaves the order in which `range`
visits a map open; `order` is the order of this run. -/
def RecordPodSnapshots {σ : Type} (store : PodStore σ)
    (order : List (String × List model.PodSnapshotInput) →
      List (String × List model.PodSnapshotInput))
    (s : σ) (snapshots : List model.PodSnapshotInput) : σ × Except Failure Unit :=
  recordLoop store s (order (nodesPodsMap snapshots))

/-- A workload snapshot input with every pointer set and no containers. -/
def mkPodInput (id nodeID : String) (t : Time) : model.PodSnapshotInput :=
  { ID := id, NodeID := nodeID, Timestamp := t, Name := id, Namespace := some "default",
    Status := model.PodPhase.Running, StartedAt := 0, DeletedAt := some 0, FinishedAt := some 0,
    DeletedBy := some "", QosClass := model.PodQOSClass.Burstable,
    InitContainers := [], EphemeralContainers := [], Containers := [] }

/-- Three workload snapshot inputs on two hosts: `a` and `c` on `n1`, `b` on
`n2` between them. -/
def podInputs : List model.PodSnapshotInput :=
  [mkPodInput "a" "n1" 10, mkPodInput "b" "n2" 20, mkPodInput "c" "n1" 30]

/-! ## `EffectiveAt` as a call on its receiver

`EffectiveAt` sorts its receiver in place before it scans it, so a call leaves
the slice in the order of the library sort.  Here the library sort is a
parameter, bound only by what `sort.Sort` documents. -/

/-- The documented contract of the library call `sort.Sort(sort.Reverse(n))`,
for a function `sort` that stands for it on slices with the timestamp `key`:
the slice it leaves is a rearrangement of the slice it was given, and in it no
element is earlier than an element behind it.  Nothing is promised about the
order of elements with equal timestamps. -/
def IsSortReverse {α : Type} (key : α → Time) (sort : List α → List α) : Prop :=
  ∀ l, (sort l).Perm l ∧ Ordered (fun a b => (key b).Before (key a)) (sort l)

/-- The sort leaves a slice that is already in order as it is. -/
def FixesOrdered {α : Type} (key : α → Time) (sort : List α → List α) : Prop :=
  ∀ l, Ordered (fun a b => (key b).Before (key a)) l → sort l = l

/-- Go `(*NodeSnapshots).EffectiveAt` as a call on the receiver `n`, with the
library sort as the parameter `sort`: the slice as the call leaves it, and the
snapshot the call returns. -/
def NodeSnapshots.EffectiveAtInPlace (sort : List NodeSnapshot → List NodeSnapshot)
    (n : List NodeSnapshot) (timestamp : Time) : List NodeSnapshot × Option NodeSnapshot :=
  (sort n,
   firstThat (fun snapshot => snapshot.Timestamp.Before timestamp || snapshot.Timestamp.Equal timestamp)
     (sort n))

/-- Go `(*PodSnapshots).EffectiveAt` as a call on the receiver `p`, with the
library sort as the parameter `sort`: the slice as the call leaves it, and the
snapshot the call returns. -/
def PodSnapshots.EffectiveAtInPlace (sort : List PodSnapshot → List PodSnapshot)
    (p : List PodSnapshot) (timestamp : Time) : List PodSnapshot × Option PodSnapshot :=
  (sort p,
   firstThat (fun snapshot => snapshot.Timestamp.Before timestamp || snapshot.Timestamp.Equal timestamp)
     (sort p))

/-- A node history in which two snapshots share the timestamp 10. -/
def tiedNodeHistory : List NodeSnapshot :=
  [mkNodeSnapshot 10 NodeStateReady, mkNodeSnapshot 20 NodeStateReady,
   mkNodeSnapshot 10 NodeStateNotReady]

/-- A pod history in which two snapshots share the timestamp 10. -/
def tiedPodHistory : List PodSnapshot :=
  [mkPodSnapshot 10 PodPhasePending, mkPodSnapshot 20 PodPhaseRunning,
   mkPodSnapshot 10 PodPhaseFailed]

/-! # Theorems -/

/-! ## sorting -/

theorem sortInsert_perm {α : Type} (less : α → α → Bool) (x : α) (l : List α) :
    (sortInsert less x l).Perm (x :: l) := by
  induction l with
  | nil => exact List.Perm.refl _
  | cons y ys ih =>
    unfold sortInsert
    split
    · exact List.Perm.refl _
    · exact (List.Perm.cons y ih).trans (List.Perm.swap x y ys)

theorem goSort_perm_aux {α : Type} (less : α → α → Bool) (l acc : List α) :
    (l.foldl (fun acc x => sortInsert less x acc) acc).Perm (acc ++ l) := by
  induction l generalizing acc with
  | nil => simp
  | cons x xs ih =>
    simp only [List.foldl_cons]
    refine (ih _).trans ?_
    refine ((sortInsert_perm less x acc).append_right xs).trans ?_
    simpa using (@List.perm_middle _ x acc xs).symm

theorem goSort_perm {α : Type} (less : α → α → Bool) (l : List α) :
    (goSort less l).Perm l := by
  simpa [goSort] using goSort_perm_aux less l []

theorem mem_goSort {α : Type} (less : α → α → Bool) (l : List α) (x : α) :
    x ∈ goSort less l ↔ x ∈ l := (goSort_perm less l).mem_iff

theorem sortInsert_ordered {α : Type} (less : α → α → Bool)
    (hasym : ∀ a b, less a b = true → less b a = false)
    (htrans : ∀ a b c, less b a = false → less c b = false → less c a = false)
    (x : α) (l : List α) (hl : Ordered less l) : Ordered less (sortInsert less x l) := by
  induction l with
  | nil => simp [sortInsert, Ordered]
  | cons y ys ih =>
    unfold Ordered at hl ih ⊢
    rw [List.pairwise_cons] at hl
    unfold sortInsert
    by_cases hxy : less x y = true
    · rw [if_pos hxy]
      refine List.pairwise_cons.2 ⟨?_, List.pairwise_cons.2 hl⟩
      intro z hz
      rcases List.mem_cons.1 hz with rfl | hz
      · exact hasym _ _ hxy
      · exact htrans _ _ _ (hasym _ _ hxy) (hl.1 z hz)
    · rw [if_neg hxy]
      refine List.pairwise_cons.2 ⟨?_, ih hl.2⟩
      intro z hz
      rcases List.mem_cons.1 ((sortInsert_perm less x ys).mem_iff.1 hz) with rfl | hz
      · simpa using hxy
      · exact hl.1 z hz

theorem goSort_ordered {α : Type} (less : α → α → Bool)
    (hasym : ∀ a b, less a b = true → less b a = false)
    (htrans : ∀ a b c, less b a = false → less c b = false → less c a = false)
    (l : List α) : Ordered less (goSort less l) := by
  have aux : ∀ (l acc : List α), Ordered less acc →
      Ordered less (l.foldl (fun acc x => sortInsert less x acc) acc) := by
    intro l
    induction l with
    | nil => intro acc h; simpa using h
    | cons x xs ih =>
      intro acc h
      simp only [List.foldl_cons]
      exact ih _ (sortInsert_ordered less hasym htrans x acc h)
  exact aux l [] (by simp [Ordered])

/-! ## the first hit of a scan -/

theorem firstThat_eq_none {α : Type} (p : α → Bool) (l : List α) :
    firstThat p l = none ↔ ∀ x ∈ l, p x = false := by
  induction l with
  | nil => simp [firstThat]
  | cons y ys ih =>
    unfold firstThat
    by_cases hy : p y = true
    · simp [hy]
    · simp [hy, ih]

theorem firstThat_eq_some {α : Type} (p : α → Bool) (l : List α) (s : α)
    (h : firstThat p l = some s) :
    p s = true ∧ ∃ pre post, l = pre ++ s :: post ∧ ∀ y ∈ pre, p y = false := by
  induction l with
  | nil => simp [firstThat] at h
  | cons y ys ih =>
    unfold firstThat at h
    by_cases hy : p y = true
    · rw [if_pos hy] at h
      cases h
      exact ⟨hy, [], ys, rfl, by simp⟩
    · rw [if_neg hy] at h
      obtain ⟨hs, pre, post, hl, hpre⟩ := ih h
      refine ⟨hs, y :: pre, post, by simp [hl], ?_⟩
      intro z hz
      rcases List.mem_cons.1 hz with rfl | hz
      · simpa using hy
      · exact hpre z hz

/-- The scan of a list sorted by descending key with the test `key ≤ T`. -/
theorem effective_spec {α : Type} (key : α → Time) (H : List α) (T : Time) :
    let r := firstThat (fun s => (key s).Before T || (key s).Equal T)
      (goSort (fun a b => (key b).Before (key a)) H)
    ((∃ s, r = some s) ↔ ∃ x ∈ H, key x ≤ T) ∧
    (∀ s, r = some s → s ∈ H ∧ key s ≤ T ∧ ∀ x ∈ H, ¬ (key s < key x ∧ key x ≤ T)) ∧
    (r = none ↔ (H = [] ∨ ∀ x ∈ H, T < key x)) ∧
    (∀ x ∈ H, key x = T → ∃ s, r = some s ∧ key s = T) := by
  intro r
  have hp : ∀ s : α, ((key s).Before T || (key s).Equal T) = true ↔ key s ≤ T := by
    intro s
    simp [Time.Before, Time.Equal, le_iff_lt_or_eq]
  have hord := goSort_ordered (fun a b : α => (key b).Before (key a))
    (by intro a b; simp only [Time.Before, decide_eq_true_eq, decide_eq_false_iff_not]; intro h; linarith)
    (by intro a b c; simp only [Time.Before, decide_eq_false_iff_not]; intro h1 h2; linarith) H
  have hnone : r = none ↔ ∀ x ∈ H, T < key x := by
    show firstThat _ _ = none ↔ _
    rw [firstThat_eq_none]
    constructor
    · intro h x hx
      have := h x ((mem_goSort _ _ _).2 hx)
      have h2 : ¬ key x ≤ T := by
        rw [← hp]; simp [this]
      linarith
    · intro h x hx
      have := h x ((mem_goSort _ _ _).1 hx)
      have h2 : ¬ key x ≤ T := by linarith
      rw [← hp] at h2
      simpa using h2
  have hsome : ∀ s, r = some s → s ∈ H ∧ key s ≤ T ∧ ∀ x ∈ H, ¬ (key s < key x ∧ key x ≤ T) := by
    intro s hs
    obtain ⟨hps, pre, post, hl, hpre⟩ := firstThat_eq_some _ _ _ hs
    have hmem : ∀ x, x ∈ H ↔ x ∈ pre ++ s :: post := by
      intro x; rw [← hl]; exact (mem_goSort _ _ _).symm
    refine ⟨(hmem s).2 (by simp), (hp s).1 hps, ?_⟩
    rintro x hx ⟨h1, h2⟩
    rcases List.mem_append.1 ((hmem x).1 hx) with hx | hx
    · have := hpre x hx
      have h3 : ¬ key x ≤ T := by rw [← hp]; simp [this]
      exact h3 h2
    · rcases List.mem_cons.1 hx with rfl | hx
      · linarith
      · unfold Ordered at hord
        rw [hl, List.pairwise_append] at hord
        have := (List.pairwise_cons.1 hord.2.1).1 x hx
        simp only [Time.Before, decide_eq_false_iff_not] at this
        linarith
  refine ⟨?_, hsome, ?_, ?_⟩
  · constructor
    · rintro ⟨s, hs⟩
      exact ⟨s, (hsome s hs).1, (hsome s hs).2.1⟩
    · rintro ⟨x, hx, hxT⟩
      cases hr : r with
      | some s => exact ⟨s, rfl⟩
      | none =>
        have := (hnone.1 hr) x hx
        linarith
  · rw [hnone]
    constructor
    · intro h; exact Or.inr h
    · rintro (h | h)
      · subst h; simp
      · exact h
  · intro x hx hxT
    cases hr : r with
    | none =>
      have := (hnone.1 hr) x hx
      linarith
    | some s =>
      refine ⟨s, rfl, ?_⟩
      obtain ⟨_, h2, h3⟩ := hsome s hr
      have h4 := h3 x hx
      rw [hxT] at h4
      exact le_antisymm h2 (not_lt.1 (fun h => h4 ⟨h, le_refl T⟩))

/-- C1. For every node history `Hn`, pod history `Hp` and query time `T`:
`EffectiveAt` returns a snapshot exactly when some snapshot of the history has
a timestamp at or before `T`; the snapshot returned is a member of the history,
its timestamp is at or before `T`, and no snapshot of the history has a
timestamp strictly after it and at or before `T`; `EffectiveAt` returns nil
exactly when the history is empty or every timestamp is after `T`; and when a
snapshot has timestamp `T`, a snapshot with timestamp `T` is returned. -/
theorem C1_effectiveAt_latest_not_after (Hn : List NodeSnapshot) (Hp : List PodSnapshot)
    (T : Time) :
    (((∃ s, NodeSnapshots.EffectiveAt Hn T = some s) ↔ ∃ x ∈ Hn, x.Timestamp ≤ T) ∧
     (∀ s, NodeSnapshots.EffectiveAt Hn T = some s →
        s ∈ Hn ∧ s.Timestamp ≤ T ∧ ∀ x ∈ Hn, ¬ (s.Timestamp < x.Timestamp ∧ x.Timestamp ≤ T)) ∧
     (NodeSnapshots.EffectiveAt Hn T = none ↔ (Hn = [] ∨ ∀ x ∈ Hn, T < x.Timestamp)) ∧
     (∀ x ∈ Hn, x.Timestamp = T →
        ∃ s, NodeSnapshots.EffectiveAt Hn T = some s ∧ s.Timestamp = T)) ∧
    (((∃ s, PodSnapshots.EffectiveAt Hp T = some s) ↔ ∃ x ∈ Hp, x.Timestamp ≤ T) ∧
     (∀ s, PodSnapshots.EffectiveAt Hp T = some s →
        s ∈ Hp ∧ s.Timestamp ≤ T ∧ ∀ x ∈ Hp, ¬ (s.Timestamp < x.Timestamp ∧ x.Timestamp ≤ T)) ∧
     (PodSnapshots.EffectiveAt Hp T = none ↔ (Hp = [] ∨ ∀ x ∈ Hp, T < x.Timestamp)) ∧
     (∀ x ∈ Hp, x.Timestamp = T →
        ∃ s, PodSnapshots.EffectiveAt Hp T = some s ∧ s.Timestamp = T)) :=
  ⟨effective_spec (fun s : NodeSnapshot => s.Timestamp) Hn T,
   effective_spec (fun s : PodSnapshot => s.Timestamp) Hp T⟩

/-! ## loops with a fallible body -/

theorem forEachM_eq_ok {α β ε : Type} (f : α → Except ε β) (l : List α) (ys : List β) :
    forEachM f l = .ok ys ↔ List.Forall₂ (fun x y => f x = .ok y) l ys := by
  induction l generalizing ys with
  | nil =>
    cases ys <;> simp [forEachM]
  | cons x xs ih =>
    unfold forEachM
    cases hfx : f x with
    | error e =>
      simp only
      constructor
      · intro h; cases h
      · intro h
        cases h with
        | cons h1 _ => rw [hfx] at h1; cases h1
    | ok y =>
      simp only
      cases hrest : forEachM f xs with
      | error e =>
        simp only
        constructor
        · intro h; cases h
        · intro h
          cases h with
          | cons h1 h2 =>
            rw [← ih] at h2
            rw [hrest] at h2; cases h2
      | ok zs =>
        simp only
        constructor
        · intro h
          cases h
          refine List.Forall₂.cons hfx ?_
          exact (ih zs).1 hrest
        · intro h
          cases h with
          | cons h1 h2 =>
            rw [hfx] at h1
            cases h1
            have := (ih _).2 h2
            rw [hrest] at this
            cases this
            rfl

theorem forEachM_ok_of_forall {α β ε : Type} (f : α → Except ε β) (l : List α)
    (h : ∀ x ∈ l, ∃ y, f x = .ok y) : ∃ ys, forEachM f l = .ok ys := by
  induction l with
  | nil => exact ⟨[], rfl⟩
  | cons x xs ih =>
    obtain ⟨y, hy⟩ := h x (by simp)
    obtain ⟨ys, hys⟩ := ih (fun z hz => h z (by simp [hz]))
    exact ⟨y :: ys, by simp [forEachM, hy, hys]⟩

theorem forEachM_map {α β ε γ : Type} (f : α → Except ε β) (g : β → γ) (k : α → γ)
    (hfg : ∀ x y, f x = .ok y → g y = k x) (l : List α) (ys : List β)
    (h : forEachM f l = .ok ys) : ys.map g = l.map k := by
  rw [forEachM_eq_ok] at h
  induction h with
  | nil => rfl
  | cons h1 _ ih => simp [hfg _ _ h1, ih]

theorem forEachM_length {α β ε : Type} (f : α → Except ε β) (l : List α) (ys : List β)
    (h : forEachM f l = .ok ys) : ys.length = l.length := by
  rw [forEachM_eq_ok] at h
  exact h.length_eq.symm

/-! ## the view at an instant -/

theorem EffectiveAtSnapshot_timestamp (store : Store) (t : Time) (v : model.TimedNodeSnapshots)
    (h : EffectiveAtSnapshot store t = .ok v) : v.Timestamp = t := by
  unfold EffectiveAtSnapshot at h
  cases hg : store.GetAll with
  | error e => rw [hg] at h; cases h
  | ok nodes =>
    rw [hg] at h
    simp only at h
    cases hn : forEachM (nodeView t) nodes with
    | error e => rw [hn] at h; cases h
    | ok ns => rw [hn] at h; cases h; rfl

theorem views_timestamps (store : Store) (times : List Time)
    (views : List model.TimedNodeSnapshots)
    (h : forEachM (EffectiveAtSnapshot store) times = .ok views) :
    views.map (fun v => v.Timestamp) = times := by
  have := forEachM_map (EffectiveAtSnapshot store) (fun v => v.Timestamp) id
    (fun x y hxy => EffectiveAtSnapshot_timestamp store x y hxy) times views h
  simpa using this

theorem goSort_times_sorted (l : List Time) :
    (goSort Time.Before l).Pairwise (fun a b => a ≤ b) := by
  have h := goSort_ordered Time.Before
    (by intro a b; simp only [Time.Before, decide_eq_true_eq, decide_eq_false_iff_not]
        intro h; exact lt_asymm h)
    (by intro a b c; simp only [Time.Before, decide_eq_false_iff_not]
        intro h1 h2; exact fun h3 => h2 (lt_of_lt_of_le h3 (not_lt.1 h1))) l
  unfold Ordered at h
  refine h.imp ?_
  intro a b hab
  simp only [Time.Before, decide_eq_false_iff_not] at hab
  exact not_lt.1 hab

/-- C4, amended. When `EventfulSnapshots` returns views over the fleet `nodes`,
their timestamps are in ascending order, and they are, with multiplicity, the
timestamps of the node and pod snapshots of the fleet inside the window: one
view per in-window snapshot.  The order is strict, with no timestamp twice,
exactly when no two in-window snapshots of the fleet share a timestamp. -/
theorem C4_eventfulSnapshots_ascending (store : Store) (nodes : List NodeMeta)
    (beginAt endAt : Time) (views : List model.TimedNodeSnapshots)
    (hget : store.GetAll = .ok nodes)
    (h : EventfulSnapshots store beginAt endAt = .ok views) :
    (views.map (fun v => v.Timestamp)).Pairwise (fun a b => a ≤ b) ∧
    (views.map (fun v => v.Timestamp)).Perm (eventTimes beginAt endAt nodes) ∧
    ((views.map (fun v => v.Timestamp)).Pairwise (fun a b => a < b) ↔
      (eventTimes beginAt endAt nodes).Nodup) := by
  unfold EventfulSnapshots at h
  rw [hget] at h
  simp only at h
  have hts := views_timestamps store _ views h
  rw [hts]
  have hsorted := goSort_times_sorted (eventTimes beginAt endAt nodes)
  have hperm := goSort_perm Time.Before (eventTimes beginAt endAt nodes)
  refine ⟨hsorted, hperm, ?_⟩
  rw [← hperm.nodup_iff]
  constructor
  · intro hlt
    exact hlt.imp (fun hab => ne_of_lt hab)
  · intro hnd
    exact (hsorted.and hnd).imp (fun hab => lt_of_le_of_ne hab.1 hab.2)

/-- C4, counterexample. A host snapshot and a workload snapshot that share the
timestamp 10 give two views with the timestamp 10. -/
theorem C4_counterexample_duplicate_timestamp :
    ∃ views, EventfulSnapshots (fleetSameInstant PodPhaseRunning) 0 30 = .ok views ∧
      views.map (fun v => v.Timestamp) = [10, 10] ∧
      ¬ (views.map (fun v => v.Timestamp)).Pairwise (fun a b => a < b) :=
  ⟨_, rfl, rfl, by decide⟩

/-- C4, witness. -/
theorem C4_eventfulSnapshots_ascending_witness :
    ∃ views, EventfulSnapshots (fleetSameInstant PodPhaseRunning) 0 30 = .ok views ∧
      (views.map (fun v => v.Timestamp)).Pairwise (fun a b => a ≤ b) :=
  ⟨_, rfl, (C4_eventfulSnapshots_ascending (fleetSameInstant PodPhaseRunning) _ 0 30 _ rfl rfl).1⟩

/-! ## the event times -/

theorem inWindow_iff (beginAt endAt t : Time) :
    inWindow beginAt endAt t = true ↔ beginAt ≤ t ∧ t ≤ endAt := by
  simp only [inWindow, Time.After, Time.Before, Time.Equal, Bool.and_eq_true, Bool.or_eq_true,
    decide_eq_true_eq]
  constructor
  · rintro ⟨h1 | h1, h2 | h2⟩
    · exact ⟨le_of_lt h1, le_of_lt h2⟩
    · exact ⟨le_of_lt h1, le_of_eq h2⟩
    · exact ⟨le_of_eq h1.symm, le_of_lt h2⟩
    · exact ⟨le_of_eq h1.symm, le_of_eq h2⟩
  · rintro ⟨h1, h2⟩
    exact ⟨(lt_or_eq_of_le h1).imp id Eq.symm, lt_or_eq_of_le h2⟩

/-- The times collected by `EventfulSnapshots` are the timestamps, inside the
window, of the node snapshots and of the pod snapshots of the fleet. -/
theorem mem_eventTimes (beginAt endAt : Time) (nodes : List NodeMeta) (t : Time) :
    t ∈ eventTimes beginAt endAt nodes ↔
      (beginAt ≤ t ∧ t ≤ endAt) ∧
      ((∃ node ∈ nodes, ∃ s ∈ node.Snapshots, s.Timestamp = t) ∨
       (∃ node ∈ nodes, ∃ pod ∈ node.Pods, ∃ s ∈ pod.Snapshots, s.Timestamp = t)) := by
  simp only [eventTimes, List.mem_flatMap, List.mem_append, List.mem_map, List.mem_filter,
    inWindow_iff]
  constructor
  · rintro ⟨node, hn, ⟨s, ⟨hs, hw⟩, rfl⟩ | ⟨pod, hp, s, ⟨hs, hw⟩, rfl⟩⟩
    · exact ⟨hw, Or.inl ⟨node, hn, s, hs, rfl⟩⟩
    · exact ⟨hw, Or.inr ⟨node, hn, pod, hp, s, hs, rfl⟩⟩
  · rintro ⟨hw, ⟨node, hn, s, hs, rfl⟩ | ⟨node, hn, pod, hp, s, hs, rfl⟩⟩
    · exact ⟨node, hn, Or.inl ⟨s, ⟨hs, hw⟩, rfl⟩⟩
    · exact ⟨node, hn, Or.inr ⟨pod, hp, s, ⟨hs, hw⟩, rfl⟩⟩

/-- When `EventfulSnapshots` returns, the timestamps of its views are exactly
the timestamps, inside the window, of the node and pod snapshots of the fleet. -/
theorem EventfulSnapshots_timestamps (store : Store) (nodes : List NodeMeta)
    (beginAt endAt : Time) (views : List model.TimedNodeSnapshots)
    (hget : store.GetAll = .ok nodes)
    (h : EventfulSnapshots store beginAt endAt = .ok views) (t : Time) :
    t ∈ views.map (fun v => v.Timestamp) ↔
      (beginAt ≤ t ∧ t ≤ endAt) ∧
      ((∃ node ∈ nodes, ∃ s ∈ node.Snapshots, s.Timestamp = t) ∨
       (∃ node ∈ nodes, ∃ pod ∈ node.Pods, ∃ s ∈ pod.Snapshots, s.Timestamp = t)) := by
  unfold EventfulSnapshots at h
  rw [hget] at h
  simp only at h
  rw [views_timestamps store _ views h, mem_goSort, mem_eventTimes]

/-! ## the view at an instant, entity by entity -/

theorem podView_ok (T : Time) (pod : PodMeta) (h : ∃ s ∈ pod.Snapshots, s.Timestamp ≤ T) :
    ∃ podInTime, PodSnapshots.EffectiveAt pod.Snapshots T = some podInTime ∧
      podView T pod = .ok (podEntry pod podInTime) := by
  obtain ⟨s, hs⟩ := (effective_spec (fun s : PodSnapshot => s.Timestamp) pod.Snapshots T).1.2 h
  have hs1 : PodSnapshots.EffectiveAt pod.Snapshots T = some s := hs
  exact ⟨s, hs1, by simp [podView, hs1]⟩

theorem nodeView_ok (T : Time) (node : NodeMeta) (h : ∃ s ∈ node.Snapshots, s.Timestamp ≤ T)
    (hpods : ∀ pod ∈ node.Pods, ∃ s ∈ pod.Snapshots, s.Timestamp ≤ T) :
    ∃ nodeInTime pods, NodeSnapshots.EffectiveAt node.Snapshots T = some nodeInTime ∧
      nodeView T node = .ok (nodeEntry node nodeInTime pods) ∧
      List.Forall₂ (fun pod entry => ∃ podInTime,
        PodSnapshots.EffectiveAt pod.Snapshots T = some podInTime ∧
        entry = podEntry pod podInTime) node.Pods pods := by
  obtain ⟨s, hs⟩ := (effective_spec (fun s : NodeSnapshot => s.Timestamp) node.Snapshots T).1.2 h
  have hs1 : NodeSnapshots.EffectiveAt node.Snapshots T = some s := hs
  obtain ⟨pods, hpv⟩ := forEachM_ok_of_forall (podView T) node.Pods (by
    intro pod hpod
    obtain ⟨p, _, hp⟩ := podView_ok T pod (hpods pod hpod)
    exact ⟨_, hp⟩)
  refine ⟨s, pods, hs1, by simp [nodeView, hs1, hpv], ?_⟩
  rw [forEachM_eq_ok] at hpv
  refine hpv.imp ?_
  intro pod entry he
  unfold podView at he
  cases hp : PodSnapshots.EffectiveAt pod.Snapshots T with
  | none => rw [hp] at he; cases he
  | some p =>
    rw [hp] at he
    cases he
    exact ⟨p, rfl, rfl⟩

/-- When every host and every workload has a snapshot at or before `T`, the
view at `T` is built: its timestamp is `T`, it has one entry per host in the
order of `GetAll`, assembled from the host and its effective node snapshot,
with one entry per workload, in order, assembled from the workload and its
effective pod snapshot. -/
theorem EffectiveAtSnapshot_assembles (store : Store) (nodes : List NodeMeta) (T : Time)
    (hget : store.GetAll = .ok nodes)
    (hnode : ∀ node ∈ nodes, ∃ s ∈ node.Snapshots, s.Timestamp ≤ T)
    (hpod : ∀ node ∈ nodes, ∀ pod ∈ node.Pods, ∃ s ∈ pod.Snapshots, s.Timestamp ≤ T) :
    ∃ view, EffectiveAtSnapshot store T = .ok view ∧ view.Timestamp = T ∧
      List.Forall₂ (fun node entry => ∃ nodeInTime pods,
        NodeSnapshots.EffectiveAt node.Snapshots T = some nodeInTime ∧
        entry = nodeEntry node nodeInTime pods ∧
        List.Forall₂ (fun pod pe => ∃ podInTime,
          PodSnapshots.EffectiveAt pod.Snapshots T = some podInTime ∧
          pe = podEntry pod podInTime) node.Pods pods) nodes view.Nodes := by
  obtain ⟨entries, hv⟩ := forEachM_ok_of_forall (nodeView T) nodes (by
    intro node hn
    obtain ⟨s, pods, _, hk, _⟩ := nodeView_ok T node (hnode node hn) (hpod node hn)
    exact ⟨_, hk⟩)
  refine ⟨⟨T, entries⟩, by simp [EffectiveAtSnapshot, hget, hv], rfl, ?_⟩
  have hall : List.Forall₂ (fun node entry => node ∈ nodes ∧ nodeView T node = .ok entry)
      nodes entries := by
    rw [forEachM_eq_ok] at hv
    have hmem : List.Forall₂ (fun node (_ : model.NodeSnapshot) => node ∈ nodes) nodes entries := by
      rw [List.forall₂_iff_get]
      exact ⟨hv.length_eq, fun i h₁ _ => List.get_mem _ _ _⟩
    rw [List.forall₂_iff_get] at hmem hv ⊢
    exact ⟨hv.1, fun i h₁ h₂ => ⟨hmem.2 i h₁ h₂, hv.2 i h₁ h₂⟩⟩
  refine hall.imp ?_
  intro node entry ⟨hn, he⟩
  obtain ⟨s, pods, hs, hk, hp⟩ := nodeView_ok T node (hnode node hn) (hpod node hn)
  rw [hk] at he
  cases he
  exact ⟨s, pods, hs, rfl, hp⟩

/-- C2, at the failing inputs. A host whose only snapshot is at 20, queried at
5: `EffectiveAtSnapshot` ends in a nil dereference instead of skipping the
host.  Host `H1` with snapshots at 10 and 20 and workload `W1` with its only
snapshot at 12, queried at 10: it ends in a nil dereference instead of
skipping the workload. -/
theorem C2_effectiveAtSnapshot_faults_on_missing_snapshot :
    EffectiveAtSnapshot fleetLateHost 5 = .error Failure.nilDeref ∧
    EffectiveAtSnapshot fleetH1W1 10 = .error Failure.nilDeref := by
  decide

/-- C3, at the failing input. Host `H1` and workload `W1` each have a snapshot
at 10, the workload's with phase Succeeded.  The view at 10 is built and has
the pod entry at timestamp 10, but the entry's phase is Unknown. -/
theorem C3_effectiveAtSnapshot_loses_succeeded_phase :
    (PodSnapshots.EffectiveAt [mkPodSnapshot 10 PodPhaseSucceeded] 10).map
        (fun s => (s.Timestamp, PodPhase.String s.Status)) = some (10, "Succeeded") ∧
    (EffectiveAtSnapshot (fleetSameInstant PodPhaseSucceeded) 10).map
        (fun v => (v.Timestamp, v.Nodes.map (fun n => (n.ID, n.Timestamp,
          n.Pods.map (fun p => (p.ID, p.Timestamp, p.Status.String)))))) =
      .ok (10, [("H1", 10, [("W1", 10, "Unknown")])]) :=
  ⟨rfl, rfl⟩

/-- C5, at the failing input. Host `H1` with snapshots at 10 and 20 and workload
`W1` with one snapshot at 12, queried over the window 0 to 30:
`EventfulSnapshots` returns no views, it ends in a nil dereference (while
building the view at 10, where `W1` has no snapshot yet). -/
theorem C5_eventfulSnapshots_scenario_faults :
    goSort Time.Before (eventTimes 0 30
      [mkNode "H1" [mkNodeSnapshot 10 NodeStateReady, mkNodeSnapshot 20 NodeStateNotReady]
        [mkPod "W1" [mkPodSnapshot 12 PodPhaseRunning]]]) = [10, 12, 20] ∧
    EffectiveAtSnapshot fleetH1W1 10 = .error Failure.nilDeref ∧
    EventfulSnapshots fleetH1W1 0 30 = .error Failure.nilDeref := by
  decide

/-! ## the instants of `IntervalSnapshots` -/

theorem intervalTimes_spec (step : Int) (endAt : Time) :
    ∀ (m fuel : Nat) (t : Time), (∀ i : Nat, i < m → t + i * step ≤ endAt) →
      endAt < t + m * step → m + 1 ≤ fuel →
      intervalTimes fuel t endAt step = some ((List.range m).map (fun i : Nat => t + i * step)) := by
  intro m
  induction m with
  | zero =>
    intro fuel t _ hlt hfuel
    obtain ⟨f, rfl⟩ : ∃ f, fuel = f + 1 := ⟨fuel - 1, by omega⟩
    have hlt1 : endAt < t := by simpa using hlt
    have hc : (Time.Before t endAt || Time.Equal t endAt) = false := by
      simp only [Time.Before, Time.Equal, Bool.or_eq_false_iff, decide_eq_false_iff_not]
      exact ⟨not_lt.2 (le_of_lt hlt1), fun h => by rw [h] at hlt1; exact lt_irrefl _ hlt1⟩
    simp [intervalTimes, hc]
  | succ m ih =>
    intro fuel t hle hlt hfuel
    obtain ⟨f, rfl⟩ : ∃ f, fuel = f + 1 := ⟨fuel - 1, by omega⟩
    have h0 : t ≤ endAt := by simpa using hle 0 (by omega)
    have hc : (Time.Before t endAt || Time.Equal t endAt) = true := by
      simp only [Time.Before, Time.Equal, Bool.or_eq_true, decide_eq_true_eq]
      exact lt_or_eq_of_le h0
    have hrec := ih f (t.Add step)
      (by
        intro i hi
        have := hle (i + 1) (by omega)
        have e : t.Add step + (i : Int) * step = t + ((i + 1 : Nat) : Int) * step := by
          simp only [Time.Add]; push_cast; ring
        rw [e]; exact this)
      (by
        have e : t.Add step + (m : Int) * step = t + ((m + 1 : Nat) : Int) * step := by
          simp only [Time.Add]; push_cast; ring
        rw [e]; exact hlt)
      (by omega)
    simp only [intervalTimes, hc, if_true, hrec]
    rw [List.range_succ_eq_map, List.map_cons, List.map_map]
    congr 1
    congr 1
    · simp
    · apply List.map_congr_left
      intro i _
      simp only [Function.comp, Time.Add]
      push_cast
      ring

theorem intervalStep_eq (k : Int) (hk : 1 ≤ k) (hfit : k * Second < 2 ^ 63) :
    intervalStep k = k * Second := by
  have h0 : 0 ≤ k * Second := by
    have : (0 : Int) ≤ Second := by decide
    exact mul_nonneg (by linarith) this
  unfold intervalStep wrap64
  rw [Int.emod_eq_of_lt (by linarith) (by linarith)]
  ring

/-- C6. For an interval of `k ≥ 1` seconds whose nanosecond value fits in 64
bits: when `beginAt ≤ endAt` and the view at every instant `beginAt + i*k`
seconds, `i = 0 .. n` with `n = floor((endAt - beginAt) / k seconds)`, can be built,
`IntervalSnapshots` (given fuel for `n + 2` loop tests) returns views whose
timestamps are exactly these instants in order: `n + 1` views, the first at
`beginAt`, the last at or before `endAt`, the next instant after the last
beyond `endAt`, and the last at `endAt` when `endAt - beginAt` is a multiple of
the interval.  When `beginAt > endAt` it returns the empty list. -/
theorem C6_intervalSnapshots_arithmetic_sequence (store : Store) (beginAt endAt : Time)
    (k : Int) (fuel : Nat) (hk : 1 ≤ k) (hfit : k * Second < 2 ^ 63) :
    (beginAt ≤ endAt →
      (∀ i : Nat, i ≤ ((endAt - beginAt) / (k * Second)).toNat →
        ∃ v, EffectiveAtSnapshot store (beginAt + i * (k * Second)) = .ok v) →
      ((endAt - beginAt) / (k * Second)).toNat + 2 ≤ fuel →
      ∃ views, IntervalSnapshots fuel store beginAt endAt k = some (.ok views) ∧
        views.map (fun v => v.Timestamp) =
          (List.range (((endAt - beginAt) / (k * Second)).toNat + 1)).map
            (fun i : Nat => beginAt + i * (k * Second)) ∧
        views.length = ((endAt - beginAt) / (k * Second)).toNat + 1 ∧
        beginAt + (((endAt - beginAt) / (k * Second)).toNat : Int) * (k * Second) ≤ endAt ∧
        endAt < beginAt + ((((endAt - beginAt) / (k * Second)).toNat : Int) + 1) * (k * Second) ∧
        ((k * Second) ∣ (endAt - beginAt) →
          beginAt + (((endAt - beginAt) / (k * Second)).toNat : Int) * (k * Second) = endAt)) ∧
    (endAt < beginAt → 1 ≤ fuel →
      IntervalSnapshots fuel store beginAt endAt k = some (.ok [])) := by
  have hstep : 0 < k * Second := by
    have : (0 : Int) < Second := by decide
    exact mul_pos (by linarith) this
  have hse := intervalStep_eq k hk hfit
  constructor
  · intro hbe hcalls hfuel
    have hd : 0 ≤ endAt - beginAt := sub_nonneg.2 hbe
    have hq : 0 ≤ (endAt - beginAt) / (k * Second) := Int.ediv_nonneg hd (le_of_lt hstep)
    have hn : (((endAt - beginAt) / (k * Second)).toNat : Int) = (endAt - beginAt) / (k * Second) :=
      Int.toNat_of_nonneg hq
    have hlow : (endAt - beginAt) / (k * Second) * (k * Second) ≤ endAt - beginAt :=
      Int.ediv_mul_le _ (ne_of_gt hstep)
    have hhigh : endAt - beginAt < ((endAt - beginAt) / (k * Second) + 1) * (k * Second) :=
      Int.lt_ediv_add_one_mul_self _ hstep
    generalize hnn : ((endAt - beginAt) / (k * Second)).toNat = n at *
    have htimes := intervalTimes_spec (k * Second) endAt (n + 1) fuel beginAt
      (by
        intro i hi
        have h1 : (i : Int) ≤ n := by exact_mod_cast Nat.lt_succ_iff.1 hi
        have h2 : (i : Int) * (k * Second) ≤ (n : Int) * (k * Second) :=
          mul_le_mul_of_nonneg_right h1 (le_of_lt hstep)
        rw [hn] at h2
        linarith)
      (by push_cast; rw [hn]; linarith)
      (by omega)
    obtain ⟨views, hviews⟩ := forEachM_ok_of_forall (EffectiveAtSnapshot store)
      ((List.range (n + 1)).map (fun i : Nat => beginAt + i * (k * Second)))
      (by
        intro x hx
        obtain ⟨i, hi, rfl⟩ := List.mem_map.1 hx
        exact hcalls i (Nat.lt_succ_iff.1 (List.mem_range.1 hi)))
    refine ⟨views, ?_, views_timestamps store _ views hviews, ?_, ?_, ?_, ?_⟩
    · unfold IntervalSnapshots
      rw [hse, htimes]
      simp only [hviews]
    · rw [forEachM_length _ _ _ hviews]; simp
    · rw [hn]; linarith
    · rw [hn]; linarith
    · intro hdvd
      rw [hn, Int.ediv_mul_cancel hdvd]
      ring
  · intro hlt hfuel
    have htimes := intervalTimes_spec (k * Second) endAt 0 fuel beginAt
      (by intro i hi; omega) (by simpa using hlt) (by omega)
    unfold IntervalSnapshots
    rw [hse, htimes]
    rfl

/-- C6, witness: a two-second interval over seven seconds gives the four
instants 0, 2, 4 and 6 seconds after `beginAt`; a reversed window gives none. -/
theorem C6_intervalSnapshots_witness :
    (∃ views, IntervalSnapshots 100 (fleetSameInstant PodPhaseRunning) 10 (10 + 7 * Second) 2
        = some (.ok views) ∧
      views.map (fun v => v.Timestamp) = [10, 10 + 2 * Second, 10 + 4 * Second, 10 + 6 * Second]) ∧
    IntervalSnapshots 1 (fleetSameInstant PodPhaseRunning) 30 10 2 = some (.ok []) := by
  have h := C6_intervalSnapshots_arithmetic_sequence (fleetSameInstant PodPhaseRunning) 10
    (10 + 7 * Second) 2 100 (by decide) (by decide)
  have h2 := C6_intervalSnapshots_arithmetic_sequence (fleetSameInstant PodPhaseRunning) 30
    10 2 1 (by decide) (by decide)
  have hn : ((10 + 7 * Second - 10) / (2 * Second)).toNat = 3 := by decide
  refine ⟨?_, h2.2 (by decide) (by decide)⟩
  obtain ⟨views, hv, hts, _⟩ := h.1 (by decide)
    (by
      rw [hn]
      intro i hi
      interval_cases i <;> exact ⟨_, rfl⟩)
    (by rw [hn]; decide)
  refine ⟨views, hv, ?_⟩
  rw [hts, hn]
  decide

/-! ## texts -/

theorem length_eq_zero_iff_empty (s : String) : s.length = 0 ↔ s = "" := by
  constructor
  · intro h
    have hd : s.data = [] := List.length_eq_zero.1 h
    exact String.ext (by simpa using hd)
  · intro h; subst h; rfl

theorem digitChar_value (m : Nat) (hm : m < 10) :
    (Nat.digitChar m).toNat - 48 = m ∧ Nat.digitChar m ≠ '-' := by
  interval_cases m <;> decide

/-- Reading a run of decimal digit characters as a number. -/
theorem toDigitsCore_value (fuel : Nat) :
    ∀ (n : Nat) (ds : List Char), n < fuel →
      ∃ pre, Nat.toDigitsCore 10 fuel n ds = pre ++ ds ∧
        pre.foldl (fun acc c => 10 * acc + (c.toNat - 48)) 0 = n ∧
        (∀ c ∈ pre, c ≠ '-') ∧ pre ≠ [] := by
  induction fuel with
  | zero => intro n ds h; omega
  | succ fuel ih =>
    intro n ds h
    have hd := digitChar_value (n % 10) (Nat.mod_lt _ (by decide))
    unfold Nat.toDigitsCore
    by_cases h0 : n / 10 = 0
    · simp only [h0, if_true]
      refine ⟨[Nat.digitChar (n % 10)], rfl, ?_, ?_, by simp⟩
      · simp only [List.foldl_cons, List.foldl_nil, hd.1]
        omega
      · intro c hc
        rw [List.mem_singleton] at hc
        rw [hc]; exact hd.2
    · simp only [h0, if_false]
      obtain ⟨pre, hpre, hval, hneg, _⟩ := ih (n / 10) (Nat.digitChar (n % 10) :: ds) (by omega)
      refine ⟨pre ++ [Nat.digitChar (n % 10)], by simp [hpre], ?_, ?_, by simp⟩
      · rw [List.foldl_append, hval]
        simp only [List.foldl_cons, List.foldl_nil, hd.1]
        omega
      · intro c hc
        rcases List.mem_append.1 hc with hc | hc
        · exact hneg c hc
        · rw [List.mem_singleton] at hc
          rw [hc]; exact hd.2

theorem toDigits_value (n : Nat) :
    (Nat.toDigits 10 n).foldl (fun acc c => 10 * acc + (c.toNat - 48)) 0 = n ∧
    (∀ c ∈ Nat.toDigits 10 n, c ≠ '-') ∧ Nat.toDigits 10 n ≠ [] := by
  obtain ⟨pre, hpre, hval, hneg, hne⟩ := toDigitsCore_value (n + 1) n [] (by omega)
  have : Nat.toDigits 10 n = pre := by simpa [Nat.toDigits] using hpre
  rw [this]
  exact ⟨hval, hneg, hne⟩

theorem toDigits_injective (m n : Nat) (h : Nat.toDigits 10 m = Nat.toDigits 10 n) : m = n := by
  rw [← (toDigits_value m).1, ← (toDigits_value n).1, h]

/-- Different instants have different texts. -/
theorem Time.String_injective (t u : Time) (h : t.String = u.String) : t = u := by
  cases t with
  | ofNat m =>
    cases u with
    | ofNat n =>
      have h := congrArg String.data h
      simp only [Time.String] at h
      rw [toDigits_injective m n h]
    | negSucc n =>
      have h := congrArg String.data h
      simp only [Time.String] at h
      exfalso
      have hm := (toDigits_value m).2.1 '-'
      rw [h] at hm
      exact hm (by simp) rfl
  | negSucc m =>
    cases u with
    | ofNat n =>
      have h := congrArg String.data h
      simp only [Time.String] at h
      exfalso
      have hn := (toDigits_value n).2.1 '-'
      rw [← h] at hn
      exact hn (by simp) rfl
    | negSucc n =>
      have h := congrArg String.data h
      simp only [Time.String, List.cons.injEq, true_and] at h
      have := toDigits_injective (m + 1) (n + 1) h
      have : m = n := by omega
      rw [this]

theorem append_left_cancel_string (a b c : String) (h : a ++ b = a ++ c) : b = c := by
  have := congrArg String.data h
  simp only [String.data_append] at this
  exact String.ext (List.append_cancel_left this)

theorem ne_append_of_nonempty (a b : String) (hb : b ≠ "") : a ≠ a ++ b := by
  intro h
  have := congrArg String.length h
  simp only [String.length_append] at this
  have hb0 : b.length = 0 := by omega
  exact hb ((length_eq_zero_iff_empty b).1 hb0)

/-- Keys built with `%s_%s` from one owner differ when the instants differ. -/
theorem snapshotID_injective (owner : String) (t u : Time)
    (h : owner ++ "_" ++ t.String = owner ++ "_" ++ u.String) : t = u := by
  rw [String.append_assoc, String.append_assoc] at h
  have h1 := append_left_cancel_string _ _ _ h
  exact Time.String_injective t u (append_left_cancel_string _ _ _ h1)

theorem podPath_injective (nodeID p q : String)
    (h : nodeID ++ "#" ++ p = nodeID ++ "#" ++ q) : p = q := by
  rw [String.append_assoc, String.append_assoc] at h
  exact append_left_cancel_string _ _ _ (append_left_cancel_string _ _ _ h)

theorem ne_podPath (nodeID p : String) : nodeID ≠ nodeID ++ "#" ++ p := by
  rw [String.append_assoc]
  apply ne_append_of_nonempty
  intro h
  have := congrArg String.length h
  simp [String.length_append] at this
  exact absurd this.1 (by decide)

theorem root_ne_podPath (nodeID p : String) : "root" ≠ nodeID ++ "#" ++ p := by
  intro h
  have hd := congrArg String.data h
  simp only [String.data_append] at hd
  have hmem : '#' ∈ ['r', 'o', 'o', 't'] := by
    rw [hd]; simp
  exact absurd hmem (by decide)

theorem ne_snapshotID (owner x : String) : owner ≠ owner ++ "_" ++ x := by
  rw [String.append_assoc]
  apply ne_append_of_nonempty
  intro h
  have := congrArg String.length h
  simp [String.length_append] at this
  exact absurd this.1 (by decide)

/-- An id without `_` is not a snapshot id. -/
theorem ne_snapshotID_of_plain (p owner x : String) (hp : '_' ∉ p.data) :
    p ≠ owner ++ "_" ++ x := by
  intro h
  apply hp
  rw [h]
  simp [String.data_append]

/-- The part in front of the first `_` of `p_x` is `p` when `p` has no `_`. -/
theorem idPart0_snapshotID (p x : String) (hp : '_' ∉ p.data) :
    idPart0 (p ++ "_" ++ x) = p := by
  unfold idPart0
  apply String.ext
  simp only [String.data_append]
  rw [List.append_assoc]
  have : ∀ (l r : List Char), '_' ∉ l →
      List.takeWhile (fun c => c != '_') (l ++ ('_' :: r)) = l := by
    intro l r hl
    induction l with
    | nil => simp [List.takeWhile]
    | cons c cs ih =>
      have hc : c ≠ '_' := fun h => hl (by simp [h])
      have hcs : '_' ∉ cs := fun h => hl (by simp [h])
      have hb : (c != '_') = true := by simpa using hc
      rw [List.cons_append, List.takeWhile_cons, hb]
      simp only [if_true]
      rw [ih hcs]
  exact this p.data x.data hp

/-! ## the map-backed table -/

theorem any_key_iff (rows : List Item) (k : String × String) :
    rows.any (fun r => decide (r.key = k)) = true ↔ k ∈ rows.map Item.key := by
  simp only [List.any_eq_true, decide_eq_true_eq, List.mem_map]

theorem mapPut_of_not_mem (rows : List Item) (item : Item)
    (h : item.key ∉ rows.map Item.key) : mapPut rows item = rows ++ [item] := by
  unfold mapPut
  rw [if_neg]
  rw [any_key_iff]; exact h

theorem mapPut_of_mem (rows : List Item) (item : Item)
    (h : item.key ∈ rows.map Item.key) :
    mapPut rows item = rows.map (fun r => if r.key = item.key then item else r) := by
  unfold mapPut
  rw [if_pos]
  rw [any_key_iff]; exact h

theorem mapPut_keys_of_mem (rows : List Item) (item : Item)
    (h : item.key ∈ rows.map Item.key) : (mapPut rows item).map Item.key = rows.map Item.key := by
  rw [mapPut_of_mem rows item h, List.map_map]
  apply List.map_congr_left
  intro r _
  simp only [Function.comp]
  split
  · next heq => exact heq.symm
  · rfl

theorem mem_keys_mapPut (rows : List Item) (item : Item) (k : String × String) :
    k ∈ (mapPut rows item).map Item.key ↔ k ∈ rows.map Item.key ∨ k = item.key := by
  by_cases h : item.key ∈ rows.map Item.key
  · rw [mapPut_keys_of_mem rows item h]
    constructor
    · intro hk; exact Or.inl hk
    · rintro (hk | hk)
      · exact hk
      · rw [hk]; exact h
  · rw [mapPut_of_not_mem rows item h]
    simp

theorem mem_keys_foldl_mapPut (writes rows : List Item) (k : String × String) :
    k ∈ (writes.foldl mapPut rows).map Item.key ↔
      k ∈ rows.map Item.key ∨ k ∈ writes.map Item.key := by
  induction writes generalizing rows with
  | nil => simp
  | cons w ws ih =>
    rw [List.foldl_cons, ih, mem_keys_mapPut]
    simp only [List.map_cons, List.mem_cons]
    tauto

/-- Writing rows with fresh, pairwise different keys appends them. -/
theorem foldl_mapPut_fresh (writes rows : List Item)
    (hnd : (writes.map Item.key).Nodup)
    (hfresh : ∀ w ∈ writes, w.key ∉ rows.map Item.key) :
    writes.foldl mapPut rows = rows ++ writes := by
  induction writes generalizing rows with
  | nil => simp
  | cons w ws ih =>
    rw [List.map_cons, List.nodup_cons] at hnd
    rw [List.foldl_cons, mapPut_of_not_mem rows w (hfresh w (by simp))]
    rw [ih (rows ++ [w]) hnd.2]
    · simp
    · intro x hx
      rw [List.map_append, List.mem_append]
      rintro (h | h)
      · exact hfresh x (by simp [hx]) h
      · simp only [List.map_cons, List.map_nil, List.mem_singleton] at h
        exact hnd.1 (by rw [← h]; exact List.mem_map_of_mem _ hx)

/-- A change of rows that keeps keys commutes with a put. -/
theorem mapPut_map (g : Item → Item) (hg : ∀ i, (g i).key = i.key) (rows : List Item)
    (item : Item) : (mapPut rows item).map g = mapPut (rows.map g) (g item) := by
  have hkeys : (rows.map g).map Item.key = rows.map Item.key := by
    rw [List.map_map]; apply List.map_congr_left; intro r _; exact hg r
  by_cases h : item.key ∈ rows.map Item.key
  · rw [mapPut_of_mem rows item h, mapPut_of_mem (rows.map g) (g item) (by rw [hkeys, hg]; exact h)]
    rw [List.map_map, List.map_map]
    apply List.map_congr_left
    intro r _
    simp only [Function.comp, hg]
    split <;> rfl
  · rw [mapPut_of_not_mem rows item h,
      mapPut_of_not_mem (rows.map g) (g item) (by rw [hkeys, hg]; exact h)]
    simp

theorem foldl_mapPut_map (g : Item → Item) (hg : ∀ i, (g i).key = i.key)
    (writes rows : List Item) :
    (writes.foldl mapPut rows).map g = (writes.map g).foldl mapPut (rows.map g) := by
  induction writes generalizing rows with
  | nil => rfl
  | cons w ws ih =>
    rw [List.foldl_cons, ih, mapPut_map g hg, List.map_cons, List.foldl_cons]

theorem lastWrite_append_singleton (writes : List Item) (w : Item) (k : String × String) :
    lastWrite (writes ++ [w]) k = if w.key = k then some w else lastWrite writes k := by
  unfold lastWrite
  rw [List.reverse_append]
  simp only [List.reverse_cons, List.reverse_nil, List.nil_append, List.singleton_append,
    List.find?_cons]
  by_cases h : w.key = k <;> simp [h]

theorem lastWrite_cons (w : Item) (writes : List Item) (k : String × String) :
    lastWrite (w :: writes) k =
      match lastWrite writes k with
      | some x => some x
      | none => if w.key = k then some w else none := by
  unfold lastWrite
  rw [List.reverse_cons, List.find?_append]
  cases h : List.find? (fun w => decide (w.key = k)) writes.reverse with
  | some x => simp
  | none =>
    by_cases hk : w.key = k <;> simp [hk]

/-- Rewriting rows whose keys are all present replaces each row by the last
write to its key. -/
theorem foldl_mapPut_present (writes rows : List Item)
    (h : ∀ w ∈ writes, w.key ∈ rows.map Item.key) :
    writes.foldl mapPut rows = rows.map (fun r => (lastWrite writes r.key).getD r) := by
  induction writes generalizing rows with
  | nil => simp [lastWrite]
  | cons w ws ih =>
    have hw := h w (by simp)
    rw [List.foldl_cons, ih]
    · rw [mapPut_of_mem rows w hw, List.map_map]
      apply List.map_congr_left
      intro r _
      simp only [Function.comp]
      rw [lastWrite_cons]
      by_cases hk : r.key = w.key
      · rw [if_pos hk]
        rw [hk]
        cases lastWrite ws w.key with
        | some x => rfl
        | none => simp
      · rw [if_neg hk]
        cases lastWrite ws r.key with
        | some x => rfl
        | none =>
          have : ¬ w.key = r.key := fun e => hk e.symm
          simp [this]
    · intro x hx
      rw [mapPut_keys_of_mem rows w hw]
      exact h x (by simp [hx])

/-- After a sequence of writes, every row whose key was written is the last
write to its key. -/
theorem foldl_mapPut_last (writes rows : List Item) :
    ∀ r ∈ writes.foldl mapPut rows, ∀ x, lastWrite writes r.key = some x → x = r := by
  induction writes using List.reverseRecOn with
  | nil => intro r _ x hx; simp [lastWrite] at hx
  | append_singleton ws w ih =>
    intro r hr x hx
    rw [List.foldl_append, List.foldl_cons, List.foldl_nil] at hr
    rw [lastWrite_append_singleton] at hx
    by_cases hmem : w.key ∈ (ws.foldl mapPut rows).map Item.key
    · rw [mapPut_of_mem _ _ hmem] at hr
      obtain ⟨r0, hr0, hr0eq⟩ := List.mem_map.1 hr
      by_cases hk : r0.key = w.key
      · rw [if_pos hk] at hr0eq
        subst hr0eq
        simpa using hx.symm
      · rw [if_neg hk] at hr0eq
        subst hr0eq
        have : ¬ w.key = r0.key := fun e => hk e.symm
        rw [if_neg this] at hx
        exact ih r0 hr0 x hx
    · rw [mapPut_of_not_mem _ _ hmem, List.mem_append] at hr
      rcases hr with hr | hr
      · have : ¬ w.key = r.key := by
          intro e
          exact hmem (by rw [e]; exact List.mem_map_of_mem _ hr)
        rw [if_neg this] at hx
        exact ih r hr x hx
      · rw [List.mem_singleton] at hr
        subst hr
        simpa using hx.symm

/-- Writing the same rows a second time changes nothing. -/
theorem foldl_mapPut_twice (writes rows : List Item) :
    writes.foldl mapPut (writes.foldl mapPut rows) = writes.foldl mapPut rows := by
  rw [foldl_mapPut_present writes (writes.foldl mapPut rows)
    (fun w hw => (mem_keys_foldl_mapPut writes rows w.key).2
      (Or.inr (List.mem_map_of_mem _ hw)))]
  conv_rhs => rw [← List.map_id (writes.foldl mapPut rows)]
  apply List.map_congr_left
  intro r hr
  cases hl : lastWrite writes r.key with
  | none => rfl
  | some x => simp [foldl_mapPut_last writes rows r hr x hl]

/-! ## `Upsert` on the map-backed table -/

theorem stampNodeSnapshots_ok (clock : Nat → Time) (nodeID : String) (snaps : List NodeSnapshot) :
    ∀ tick, (∀ s ∈ snaps, s.Timestamp ≠ 0) →
      stampNodeSnapshots clock nodeID tick snaps =
        (tick + snaps.length, .ok (keyedNodeSnapshots clock nodeID tick snaps)) := by
  induction snaps with
  | nil => intro tick _; rfl
  | cons s rest ih =>
    intro tick h
    have hs : s.Timestamp.IsZero = false := by
      simpa [Time.IsZero] using h s (by simp)
    have hrest := ih (tick + 1) (fun x hx => h x (by simp [hx]))
    simp only [stampNodeSnapshots, hs, hrest, keyedNodeSnapshots, List.length_cons]
    simp only [Bool.false_eq_true, if_false]
    congr 1
    omega

theorem stampPodSnapshots_ok (clock : Nat → Time) (nodeID podID : String)
    (snaps : List PodSnapshot) :
    ∀ tick, (∀ s ∈ snaps, s.Timestamp ≠ 0) →
      stampPodSnapshots clock nodeID podID tick snaps =
        (tick + snaps.length, .ok (keyedPodSnapshots clock nodeID podID tick snaps)) := by
  induction snaps with
  | nil => intro tick _; rfl
  | cons s rest ih =>
    intro tick h
    have hs : s.Timestamp.IsZero = false := by
      simpa [Time.IsZero] using h s (by simp)
    have hrest := ih (tick + 1) (fun x hx => h x (by simp [hx]))
    simp only [stampPodSnapshots, hs, hrest, keyedPodSnapshots, List.length_cons]
    simp only [Bool.false_eq_true, if_false]
    congr 1
    omega

theorem keyedNodeSnapshots_length (clock : Nat → Time) (nodeID : String)
    (snaps : List NodeSnapshot) :
    ∀ tick, (keyedNodeSnapshots clock nodeID tick snaps).length = snaps.length := by
  induction snaps with
  | nil => intro tick; rfl
  | cons s rest ih => intro tick; simp [keyedNodeSnapshots, ih]

theorem keyedPodSnapshots_length (clock : Nat → Time) (nodeID podID : String)
    (snaps : List PodSnapshot) :
    ∀ tick, (keyedPodSnapshots clock nodeID podID tick snaps).length = snaps.length := by
  induction snaps with
  | nil => intro tick; rfl
  | cons s rest ih => intro tick; simp [keyedPodSnapshots, ih]

theorem UpsertNodeSnapshots_mapTable (clock : Nat → Time) (w : World (List Item))
    (nodeID : String) (snaps : List NodeSnapshot) (h : ∀ s ∈ snaps, s.Timestamp ≠ 0) :
    UpsertNodeSnapshots mapTable clock w nodeID snaps =
      (⟨((keyedNodeSnapshots clock nodeID w.tick snaps).map Item.nodeSnapshot).foldl mapPut w.table,
        w.tick + snaps.length⟩, none) := by
  unfold UpsertNodeSnapshots
  rw [stampNodeSnapshots_ok clock nodeID snaps w.tick h]
  simp only [keyedNodeSnapshots_length]
  by_cases hl : snaps.length > 0
  · simp [hl, mapTable, keyedNodeSnapshots_length]
  · have : snaps = [] := List.length_eq_zero.1 (by omega)
    subst this
    simp [keyedNodeSnapshots]

theorem UpsertPodSnapshots_mapTable (clock : Nat → Time) (w : World (List Item))
    (nodeID podID : String) (snaps : List PodSnapshot) (h : ∀ s ∈ snaps, s.Timestamp ≠ 0) :
    UpsertPodSnapshots mapTable clock w nodeID podID snaps =
      (⟨((keyedPodSnapshots clock nodeID podID w.tick snaps).map Item.podSnapshot).foldl mapPut
          w.table, w.tick + snaps.length⟩, none) := by
  unfold UpsertPodSnapshots
  rw [stampPodSnapshots_ok clock nodeID podID snaps w.tick h]
  simp only [keyedPodSnapshots_length]
  by_cases hl : snaps.length > 0
  · simp [hl, mapTable, keyedPodSnapshots_length]
  · have : snaps = [] := List.length_eq_zero.1 (by omega)
    subst this
    simp [keyedPodSnapshots]

theorem keyedPods_length (clock : Nat → Time) (nodeID : String) (pods : List PodMeta) :
    ∀ tick, (keyedPods clock nodeID tick pods).length = pods.length := by
  induction pods with
  | nil => intro tick; rfl
  | cons p rest ih => intro tick; simp [keyedPods, ih]

theorem upsertPodMetasLoop_mapTable (clock : Nat → Time) (nodeID : String)
    (pods : List PodMeta) :
    ∀ (w : World (List Item)), (∀ p ∈ pods, p.ID ≠ "") →
      (∀ p ∈ pods, ∀ s ∈ p.Snapshots, s.Timestamp ≠ 0) →
      upsertPodMetasLoop mapTable clock nodeID w pods =
        (⟨((podSnapshotWrites clock nodeID w.tick pods).map Item.podSnapshot).foldl mapPut w.table,
          w.tick + podTicks pods⟩, .ok (keyedPods clock nodeID w.tick pods)) := by
  induction pods with
  | nil => intro w _ _; rfl
  | cons p rest ih =>
    intro w hid hts
    have hp : ¬ p.ID.length = 0 := by
      rw [length_eq_zero_iff_empty]; exact hid p (by simp)
    have hsn := UpsertPodSnapshots_mapTable clock ⟨w.table, w.tick + 1⟩ nodeID p.ID p.Snapshots
      (hts p (by simp))
    have hrest := ih
      ⟨((keyedPodSnapshots clock nodeID p.ID (w.tick + 1) p.Snapshots).map Item.podSnapshot).foldl
          mapPut w.table, w.tick + 1 + p.Snapshots.length⟩
      (fun q hq => hid q (by simp [hq])) (fun q hq => hts q (by simp [hq]))
    simp only [upsertPodMetasLoop, hp, if_false, PodMeta.SetDynamoAttributes, hsn, hrest,
      podSnapshotWrites, keyedPods, podTicks, List.map_append, List.foldl_append]
    congr 2
    omega

theorem UpsertPodMetas_mapTable (clock : Nat → Time) (nodeID : String)
    (pods : List PodMeta) (w : World (List Item)) (hid : ∀ p ∈ pods, p.ID ≠ "")
    (hts : ∀ p ∈ pods, ∀ s ∈ p.Snapshots, s.Timestamp ≠ 0) :
    UpsertPodMetas mapTable clock w nodeID pods =
      (⟨((keyedPods clock nodeID w.tick pods).map Item.ofPodMeta).foldl mapPut
          (((podSnapshotWrites clock nodeID w.tick pods).map Item.podSnapshot).foldl mapPut w.table),
        w.tick + podTicks pods⟩, none) := by
  unfold UpsertPodMetas
  rw [upsertPodMetasLoop_mapTable clock nodeID pods w hid hts]
  simp only [keyedPods_length]
  by_cases hl : pods.length > 0
  · simp [hl, mapTable, keyedPods_length]
  · have : pods = [] := List.length_eq_zero.1 (by omega)
    subst this
    simp [keyedPods, podSnapshotWrites, podTicks]

/-- What `Upsert` does to the map-backed table for a valid record: it writes
the rows `treeWrites` in order and reports no error. -/
theorem Upsert_mapTable (clock : Nat → Time) (w : World (List Item)) (h : NodeMeta)
    (hid : h.ID ≠ "") (hts : ∀ s ∈ h.Snapshots, s.Timestamp ≠ 0)
    (hpid : ∀ p ∈ h.Pods, p.ID ≠ "")
    (hpts : ∀ p ∈ h.Pods, ∀ s ∈ p.Snapshots, s.Timestamp ≠ 0) :
    Upsert mapTable clock w h =
      (⟨(treeWrites clock w.tick h).foldl mapPut w.table,
        w.tick + 1 + h.Snapshots.length + podTicks h.Pods⟩, none) := by
  have hne : ¬ h.ID.length = 0 := by
    rw [length_eq_zero_iff_empty]; exact hid
  unfold Upsert
  rw [if_neg hne]
  simp only [NodeMeta.SetDynamoAttributes]
  have hput : ∀ i, mapTable.Put w.table i = (mapPut w.table i, none) := fun _ => rfl
  rw [hput]
  simp only
  rw [UpsertNodeSnapshots_mapTable clock _ h.ID h.Snapshots hts]
  simp only
  rw [UpsertPodMetas_mapTable clock h.ID h.Pods _ hpid hpts]
  simp only [treeWrites, List.foldl_cons, List.foldl_append, NodeMeta.SetDynamoAttributes]

/-! ## rows up to the retention expiry -/

theorem clearExpire_key (i : Item) : i.clearExpire.key = i.key := by
  cases i <;> rfl

theorem keyedNodeSnapshots_clearExpire (c1 c2 : Nat → Time) (nodeID : String)
    (a b : List NodeSnapshot) (hab : a.map NodeSnapshot.content = b.map NodeSnapshot.content) :
    ∀ t1 t2,
      ((keyedNodeSnapshots c1 nodeID t1 a).map Item.nodeSnapshot).map Item.clearExpire =
      ((keyedNodeSnapshots c2 nodeID t2 b).map Item.nodeSnapshot).map Item.clearExpire := by
  induction a generalizing b with
  | nil =>
    intro t1 t2
    cases b with
    | nil => rfl
    | cons y ys => simp at hab
  | cons x xs ih =>
    intro t1 t2
    cases b with
    | nil => simp at hab
    | cons y ys =>
      simp only [List.map_cons, List.cons.injEq] at hab
      have hts : x.Timestamp = y.Timestamp := (congrArg NodeSnapshot.Timestamp hab.1 :)
      have hst : x.State = y.State := (congrArg NodeSnapshot.State hab.1 :)
      simp only [keyedNodeSnapshots, List.map_cons, ih ys hab.2 (t1 + 1) (t2 + 1)]
      congr 1
      simp only [Item.clearExpire, NodeSnapshot.SetDynamoAttributes, hts, hst]

theorem keyedPodSnapshots_clearExpire (c1 c2 : Nat → Time) (nodeID podID : String)
    (a b : List PodSnapshot) (hab : a.map PodSnapshot.content = b.map PodSnapshot.content) :
    ∀ t1 t2,
      ((keyedPodSnapshots c1 nodeID podID t1 a).map Item.podSnapshot).map Item.clearExpire =
      ((keyedPodSnapshots c2 nodeID podID t2 b).map Item.podSnapshot).map Item.clearExpire := by
  induction a generalizing b with
  | nil =>
    intro t1 t2
    cases b with
    | nil => rfl
    | cons y ys => simp at hab
  | cons x xs ih =>
    intro t1 t2
    cases b with
    | nil => simp at hab
    | cons y ys =>
      simp only [List.map_cons, List.cons.injEq] at hab
      have h := hab.1
      simp only [PodSnapshot.content, PodSnapshot.mk.injEq] at h
      simp only [keyedPodSnapshots, List.map_cons, ih ys hab.2 (t1 + 1) (t2 + 1)]
      congr 1
      simp only [Item.clearExpire, PodSnapshot.SetDynamoAttributes, h]

theorem podSnapshotWrites_clearExpire (c1 c2 : Nat → Time) (nodeID : String)
    (a b : List PodMeta) (hab : a.map PodMeta.content = b.map PodMeta.content) :
    ∀ t1 t2,
      ((podSnapshotWrites c1 nodeID t1 a).map Item.podSnapshot).map Item.clearExpire =
      ((podSnapshotWrites c2 nodeID t2 b).map Item.podSnapshot).map Item.clearExpire := by
  induction a generalizing b with
  | nil =>
    intro t1 t2
    cases b with
    | nil => rfl
    | cons y ys => simp at hab
  | cons x xs ih =>
    intro t1 t2
    cases b with
    | nil => simp at hab
    | cons y ys =>
      simp only [List.map_cons, List.cons.injEq] at hab
      have h := hab.1
      simp only [PodMeta.content, PodMeta.mk.injEq] at h
      simp only [podSnapshotWrites, List.map_append]
      rw [ih ys hab.2, h.1]
      rw [keyedPodSnapshots_clearExpire c1 c2 nodeID y.ID x.Snapshots y.Snapshots h.2.2.2.2.2.2.2.2.2.2.2.2]

theorem keyedPods_clearExpire (c1 c2 : Nat → Time) (nodeID : String)
    (a b : List PodMeta) (hab : a.map PodMeta.content = b.map PodMeta.content) :
    ∀ t1 t2,
      ((keyedPods c1 nodeID t1 a).map Item.ofPodMeta).map Item.clearExpire =
      ((keyedPods c2 nodeID t2 b).map Item.ofPodMeta).map Item.clearExpire := by
  induction a generalizing b with
  | nil =>
    intro t1 t2
    cases b with
    | nil => rfl
    | cons y ys => simp at hab
  | cons x xs ih =>
    intro t1 t2
    cases b with
    | nil => simp at hab
    | cons y ys =>
      simp only [List.map_cons, List.cons.injEq] at hab
      have h := hab.1
      simp only [PodMeta.content, PodMeta.mk.injEq] at h
      simp only [keyedPods, List.map_cons,
        ih ys hab.2 (t1 + 1 + x.Snapshots.length) (t2 + 1 + y.Snapshots.length)]
      congr 1
      simp only [Item.clearExpire, Item.ofPodMeta, PodMeta.SetDynamoAttributes, h]

/-- Up to the retention expiry, the rows written depend on the content of the
record only: not on the clock, nor on the expiry and key fields it arrives with. -/
theorem treeWrites_clearExpire (c1 c2 : Nat → Time) (t1 t2 : Nat) (a b : NodeMeta)
    (hab : a.content = b.content) :
    (treeWrites c1 t1 a).map Item.clearExpire = (treeWrites c2 t2 b).map Item.clearExpire := by
  have h := hab
  simp only [NodeMeta.content, NodeMeta.mk.injEq] at h
  obtain ⟨hID, -, -, -, -, hName, hProv, hArch, hCrv, hKv, hKlv, hKpv, hOs, hOp, hMid, hSu, hBoot,
    hRoles, hSn, hPods⟩ := h
  simp only [treeWrites, List.map_cons, List.map_append]
  rw [hID, keyedNodeSnapshots_clearExpire c1 c2 b.ID a.Snapshots b.Snapshots hSn,
    podSnapshotWrites_clearExpire c1 c2 b.ID a.Pods b.Pods hPods,
    keyedPods_clearExpire c1 c2 b.ID a.Pods b.Pods hPods]
  congr 1
  simp only [Item.clearExpire, Item.ofNodeMeta, NodeMeta.SetDynamoAttributes, hID, hName, hProv,
    hArch, hCrv, hKv, hKlv, hKpv, hOs, hOp, hMid, hSu, hBoot, hRoles]

/-- A record with the content of a valid record is valid. -/
theorem valid_of_content_eq (a b : NodeMeta) (hab : b.content = a.content)
    (hid : a.ID ≠ "") (hts : ∀ s ∈ a.Snapshots, s.Timestamp ≠ 0)
    (hpid : ∀ p ∈ a.Pods, p.ID ≠ "")
    (hpts : ∀ p ∈ a.Pods, ∀ s ∈ p.Snapshots, s.Timestamp ≠ 0) :
    b.ID ≠ "" ∧ (∀ s ∈ b.Snapshots, s.Timestamp ≠ 0) ∧ (∀ p ∈ b.Pods, p.ID ≠ "") ∧
    (∀ p ∈ b.Pods, ∀ s ∈ p.Snapshots, s.Timestamp ≠ 0) := by
  have hID : b.ID = a.ID := (congrArg NodeMeta.ID hab :)
  have hSn : b.Snapshots.map NodeSnapshot.content = a.Snapshots.map NodeSnapshot.content :=
    congrArg NodeMeta.Snapshots hab
  have hPods : b.Pods.map PodMeta.content = a.Pods.map PodMeta.content :=
    congrArg NodeMeta.Pods hab
  refine ⟨by rw [hID]; exact hid, ?_, ?_, ?_⟩
  · intro s hs
    have : s.content ∈ a.Snapshots.map NodeSnapshot.content := by
      rw [← hSn]; exact List.mem_map_of_mem _ hs
    obtain ⟨s0, hs0, he⟩ := List.mem_map.1 this
    have : s0.Timestamp = s.Timestamp := (congrArg NodeSnapshot.Timestamp he :)
    rw [← this]; exact hts s0 hs0
  · intro p hp
    have : p.content ∈ a.Pods.map PodMeta.content := by
      rw [← hPods]; exact List.mem_map_of_mem _ hp
    obtain ⟨p0, hp0, he⟩ := List.mem_map.1 this
    have : p0.ID = p.ID := (congrArg PodMeta.ID he :)
    rw [← this]; exact hpid p0 hp0
  · intro p hp s hs
    have : p.content ∈ a.Pods.map PodMeta.content := by
      rw [← hPods]; exact List.mem_map_of_mem _ hp
    obtain ⟨p0, hp0, he⟩ := List.mem_map.1 this
    have hsn : p0.Snapshots.map PodSnapshot.content = p.Snapshots.map PodSnapshot.content := (congrArg PodMeta.Snapshots he :)
    have : s.content ∈ p0.Snapshots.map PodSnapshot.content := by
      rw [hsn]; exact List.mem_map_of_mem _ hs
    obtain ⟨s0, hs0, he0⟩ := List.mem_map.1 this
    have : s0.Timestamp = s.Timestamp := (congrArg PodSnapshot.Timestamp he0 :)
    rw [← this]; exact hpts p0 hp0 s0 hs0

/-- C10. On the map-backed table, for every table state, every clock and
every valid record `h` (non-empty host id, non-empty workload ids, non-zero
snapshot timestamps): `Upsert(h)` succeeds, and a second `Upsert` of a record
`h2` with the same content (`h` itself, or `h` as the first call left it, with
its expiry and key fields set) succeeds and leaves the table with the same
rows as the first up to `ExpireAt`: the same keys in the same places, the same
count, the same contents. -/
theorem C10_upsert_twice_same_rows (clock : Nat → Time) (w : World (List Item))
    (h h2 : NodeMeta) (hsame : h2.content = h.content)
    (hid : h.ID ≠ "") (hts : ∀ s ∈ h.Snapshots, s.Timestamp ≠ 0)
    (hpid : ∀ p ∈ h.Pods, p.ID ≠ "")
    (hpts : ∀ p ∈ h.Pods, ∀ s ∈ p.Snapshots, s.Timestamp ≠ 0) :
    (Upsert mapTable clock w h).2 = none ∧
    (Upsert mapTable clock (Upsert mapTable clock w h).1 h2).2 = none ∧
    (Upsert mapTable clock (Upsert mapTable clock w h).1 h2).1.table.map Item.clearExpire =
      (Upsert mapTable clock w h).1.table.map Item.clearExpire ∧
    (Upsert mapTable clock (Upsert mapTable clock w h).1 h2).1.table.map Item.key =
      (Upsert mapTable clock w h).1.table.map Item.key ∧
    (Upsert mapTable clock (Upsert mapTable clock w h).1 h2).1.table.length =
      (Upsert mapTable clock w h).1.table.length := by
  obtain ⟨hid2, hts2, hpid2, hpts2⟩ := valid_of_content_eq h h2 hsame hid hts hpid hpts
  rw [Upsert_mapTable clock w h hid hts hpid hpts]
  rw [Upsert_mapTable clock _ h2 hid2 hts2 hpid2 hpts2]
  simp only
  have hrows :
      ((treeWrites clock (w.tick + 1 + h.Snapshots.length + podTicks h.Pods) h2).foldl mapPut
          ((treeWrites clock w.tick h).foldl mapPut w.table)).map Item.clearExpire =
        ((treeWrites clock w.tick h).foldl mapPut w.table).map Item.clearExpire := by
    rw [foldl_mapPut_map Item.clearExpire clearExpire_key,
      foldl_mapPut_map Item.clearExpire clearExpire_key,
      treeWrites_clearExpire clock clock _ w.tick h2 h hsame, foldl_mapPut_twice]
  refine ⟨trivial, trivial, hrows, ?_, ?_⟩
  · have hk : Item.key ∘ Item.clearExpire = Item.key := funext clearExpire_key
    have := congrArg (List.map Item.key) hrows
    rw [List.map_map, List.map_map, hk] at this
    exact this
  · have := congrArg List.length hrows
    simpa using this

/-- C10, witness: the record `treePlain` upserted twice into the empty table. -/
theorem C10_upsert_twice_witness :
    (Upsert mapTable sampleClock (Upsert mapTable sampleClock ⟨[], 0⟩ treePlain).1
        treePlain).1.table.map Item.clearExpire =
      (Upsert mapTable sampleClock ⟨[], 0⟩ treePlain).1.table.map Item.clearExpire :=
  (C10_upsert_twice_same_rows sampleClock ⟨[], 0⟩ treePlain treePlain rfl (by decide) (by decide)
    (by decide) (by decide)).2.2.1

/-! ## the rows of one tree -/

theorem mem_keyedNodeSnapshots (clock : Nat → Time) (nodeID : String) (snaps : List NodeSnapshot)
    (k : NodeSnapshot) :
    ∀ tick, k ∈ keyedNodeSnapshots clock nodeID tick snaps →
      ∃ s ∈ snaps, ∃ e, k = ({ s with ExpireAt := e }).SetDynamoAttributes nodeID := by
  induction snaps with
  | nil => intro tick hk; simp [keyedNodeSnapshots] at hk
  | cons x xs ih =>
    intro tick hk
    simp only [keyedNodeSnapshots, List.mem_cons] at hk
    rcases hk with hk | hk
    · exact ⟨x, by simp, _, hk⟩
    · obtain ⟨s, hs, e, he⟩ := ih (tick + 1) hk
      exact ⟨s, by simp [hs], e, he⟩

theorem mem_keyedPodSnapshots (clock : Nat → Time) (nodeID podID : String)
    (snaps : List PodSnapshot) (k : PodSnapshot) :
    ∀ tick, k ∈ keyedPodSnapshots clock nodeID podID tick snaps →
      ∃ s ∈ snaps, ∃ e, k = ({ s with ExpireAt := e }).SetDynamoAttributes nodeID podID := by
  induction snaps with
  | nil => intro tick hk; simp [keyedPodSnapshots] at hk
  | cons x xs ih =>
    intro tick hk
    simp only [keyedPodSnapshots, List.mem_cons] at hk
    rcases hk with hk | hk
    · exact ⟨x, by simp, _, hk⟩
    · obtain ⟨s, hs, e, he⟩ := ih (tick + 1) hk
      exact ⟨s, by simp [hs], e, he⟩

theorem mem_podSnapshotWrites (clock : Nat → Time) (nodeID : String) (pods : List PodMeta)
    (k : PodSnapshot) :
    ∀ tick, k ∈ podSnapshotWrites clock nodeID tick pods →
      ∃ p ∈ pods, ∃ s ∈ p.Snapshots, ∃ e,
        k = ({ s with ExpireAt := e }).SetDynamoAttributes nodeID p.ID := by
  induction pods with
  | nil => intro tick hk; simp [podSnapshotWrites] at hk
  | cons x xs ih =>
    intro tick hk
    simp only [podSnapshotWrites, List.mem_append] at hk
    rcases hk with hk | hk
    · obtain ⟨s, hs, e, he⟩ := mem_keyedPodSnapshots clock nodeID x.ID x.Snapshots k _ hk
      exact ⟨x, by simp, s, hs, e, he⟩
    · obtain ⟨p, hp, s, hs, e, he⟩ := ih _ hk
      exact ⟨p, by simp [hp], s, hs, e, he⟩

theorem mem_keyedPods (clock : Nat → Time) (nodeID : String) (pods : List PodMeta)
    (k : PodMeta) :
    ∀ tick, k ∈ keyedPods clock nodeID tick pods →
      ∃ p ∈ pods, ∃ e, k = ({ p with ExpireAt := e }).SetDynamoAttributes nodeID := by
  induction pods with
  | nil => intro tick hk; simp [keyedPods] at hk
  | cons x xs ih =>
    intro tick hk
    simp only [keyedPods, List.mem_cons] at hk
    rcases hk with hk | hk
    · exact ⟨x, by simp, _, hk⟩
    · obtain ⟨p, hp, e, he⟩ := ih _ hk
      exact ⟨p, by simp [hp], e, he⟩

theorem keyedNodeSnapshots_pairwise (clock : Nat → Time) (nodeID : String)
    (snaps : List NodeSnapshot) (hnd : (snaps.map (fun s => s.Timestamp)).Nodup) :
    ∀ tick, ((keyedNodeSnapshots clock nodeID tick snaps).map Item.nodeSnapshot).Pairwise
      (fun a b => a.key ≠ b.key) := by
  induction snaps with
  | nil => intro tick; simp [keyedNodeSnapshots]
  | cons x xs ih =>
    intro tick
    rw [List.map_cons, List.nodup_cons] at hnd
    simp only [keyedNodeSnapshots, List.map_cons]
    refine List.pairwise_cons.2 ⟨?_, ih hnd.2 _⟩
    intro b hb
    obtain ⟨k, hk, rfl⟩ := List.mem_map.1 hb
    obtain ⟨s, hs, e, rfl⟩ := mem_keyedNodeSnapshots clock nodeID xs k _ hk
    intro hkey
    have hid := congrArg Prod.fst hkey
    simp only [Item.key, Item.ID, NodeSnapshot.SetDynamoAttributes] at hid
    have := snapshotID_injective nodeID _ _ hid
    exact hnd.1 (by rw [this]; exact List.mem_map_of_mem (fun s => s.Timestamp) hs)

theorem keyedPodSnapshots_pairwise (clock : Nat → Time) (nodeID podID : String)
    (snaps : List PodSnapshot) (hnd : (snaps.map (fun s => s.Timestamp)).Nodup) :
    ∀ tick, ((keyedPodSnapshots clock nodeID podID tick snaps).map Item.podSnapshot).Pairwise
      (fun a b => a.key ≠ b.key) := by
  induction snaps with
  | nil => intro tick; simp [keyedPodSnapshots]
  | cons x xs ih =>
    intro tick
    rw [List.map_cons, List.nodup_cons] at hnd
    simp only [keyedPodSnapshots, List.map_cons]
    refine List.pairwise_cons.2 ⟨?_, ih hnd.2 _⟩
    intro b hb
    obtain ⟨k, hk, rfl⟩ := List.mem_map.1 hb
    obtain ⟨s, hs, e, rfl⟩ := mem_keyedPodSnapshots clock nodeID podID xs k _ hk
    intro hkey
    have hid := congrArg Prod.fst hkey
    simp only [Item.key, Item.ID, PodSnapshot.SetDynamoAttributes] at hid
    have := snapshotID_injective podID _ _ hid
    exact hnd.1 (by rw [this]; exact List.mem_map_of_mem (fun s => s.Timestamp) hs)

theorem podSnapshotWrites_pairwise (clock : Nat → Time) (nodeID : String)
    (pods : List PodMeta) (hids : (pods.map (fun p => p.ID)).Nodup)
    (hnd : ∀ p ∈ pods, (p.Snapshots.map (fun s => s.Timestamp)).Nodup) :
    ∀ tick, ((podSnapshotWrites clock nodeID tick pods).map Item.podSnapshot).Pairwise
      (fun a b => a.key ≠ b.key) := by
  induction pods with
  | nil => intro tick; simp [podSnapshotWrites]
  | cons x xs ih =>
    intro tick
    rw [List.map_cons, List.nodup_cons] at hids
    simp only [podSnapshotWrites, List.map_append]
    refine List.pairwise_append.2
      ⟨keyedPodSnapshots_pairwise clock nodeID x.ID x.Snapshots (hnd x (by simp)) _,
       ih hids.2 (fun p hp => hnd p (by simp [hp])) _, ?_⟩
    intro a ha b hb
    obtain ⟨ka, hka, rfl⟩ := List.mem_map.1 ha
    obtain ⟨kb, hkb, rfl⟩ := List.mem_map.1 hb
    obtain ⟨sa, _, ea, rfl⟩ := mem_keyedPodSnapshots clock nodeID x.ID x.Snapshots ka _ hka
    obtain ⟨q, hq, sb, _, eb, rfl⟩ := mem_podSnapshotWrites clock nodeID xs kb _ hkb
    intro hkey
    have hpath := congrArg Prod.snd hkey
    simp only [Item.key, Item.TreePath, PodSnapshot.SetDynamoAttributes] at hpath
    have := podPath_injective nodeID _ _ hpath
    exact hids.1 (by rw [this]; exact List.mem_map_of_mem (fun p => p.ID) hq)

theorem keyedPods_pairwise (clock : Nat → Time) (nodeID : String)
    (pods : List PodMeta) (hids : (pods.map (fun p => p.ID)).Nodup) :
    ∀ tick, ((keyedPods clock nodeID tick pods).map Item.ofPodMeta).Pairwise
      (fun a b => a.key ≠ b.key) := by
  induction pods with
  | nil => intro tick; simp [keyedPods]
  | cons x xs ih =>
    intro tick
    rw [List.map_cons, List.nodup_cons] at hids
    simp only [keyedPods, List.map_cons]
    refine List.pairwise_cons.2 ⟨?_, ih hids.2 _⟩
    intro b hb
    obtain ⟨k, hk, rfl⟩ := List.mem_map.1 hb
    obtain ⟨q, hq, e, rfl⟩ := mem_keyedPods clock nodeID xs k _ hk
    intro hkey
    have hid := congrArg Prod.fst hkey
    simp only [Item.key, Item.ID, Item.ofPodMeta, PodMeta.SetDynamoAttributes] at hid
    exact hids.1 (by rw [hid]; exact List.mem_map_of_mem (fun p => p.ID) hq)

/-- The rows written for one tree have pairwise different keys when ids and
timestamps are what the amended round-trip claim asks for. -/
theorem treeWrites_keys_nodup (clock : Nat → Time) (tick : Nat) (h : NodeMeta)
    (hnd : (h.Snapshots.map (fun s => s.Timestamp)).Nodup)
    (hpnd : ∀ p ∈ h.Pods, (p.Snapshots.map (fun s => s.Timestamp)).Nodup)
    (hpids : (h.Pods.map (fun p => p.ID)).Nodup)
    (hus : ∀ p ∈ h.Pods, '_' ∉ p.ID.data)
    (hroot : ¬ (h.ID = "root" ∧ ∃ p ∈ h.Pods, p.ID = "root")) :
    ((treeWrites clock tick h).map Item.key).Nodup := by
  rw [List.Nodup, List.pairwise_map]
  unfold treeWrites
  refine List.pairwise_cons.2 ⟨?_, List.pairwise_append.2
    ⟨keyedNodeSnapshots_pairwise clock h.ID h.Snapshots hnd _,
     List.pairwise_append.2
      ⟨podSnapshotWrites_pairwise clock h.ID h.Pods hpids hpnd _,
       keyedPods_pairwise clock h.ID h.Pods hpids _, ?_⟩, ?_⟩⟩
  · -- the node meta row against every other row
    intro b hb hkey
    rcases List.mem_append.1 hb with hb | hb
    · obtain ⟨k, hk, rfl⟩ := List.mem_map.1 hb
      obtain ⟨s, _, e, rfl⟩ := mem_keyedNodeSnapshots clock h.ID h.Snapshots k _ hk
      have hid := congrArg Prod.fst hkey
      simp only [Item.key, Item.ID, Item.ofNodeMeta, NodeMeta.SetDynamoAttributes,
        NodeSnapshot.SetDynamoAttributes] at hid
      exact ne_snapshotID _ _ hid
    · rcases List.mem_append.1 hb with hb | hb
      · obtain ⟨k, hk, rfl⟩ := List.mem_map.1 hb
        obtain ⟨p, _, s, _, e, rfl⟩ := mem_podSnapshotWrites clock h.ID h.Pods k _ hk
        have hpath := congrArg Prod.snd hkey
        simp only [Item.key, Item.TreePath, Item.ofNodeMeta, NodeMeta.SetDynamoAttributes,
          PodSnapshot.SetDynamoAttributes] at hpath
        exact root_ne_podPath _ _ hpath
      · obtain ⟨k, hk, rfl⟩ := List.mem_map.1 hb
        obtain ⟨p, hp, e, rfl⟩ := mem_keyedPods clock h.ID h.Pods k _ hk
        have hid := congrArg Prod.fst hkey
        have hpath := congrArg Prod.snd hkey
        simp only [Item.key, Item.ID, Item.TreePath, Item.ofNodeMeta, Item.ofPodMeta,
          NodeMeta.SetDynamoAttributes, PodMeta.SetDynamoAttributes] at hid hpath
        exact hroot ⟨hpath.symm, p, hp, by rw [← hid, ← hpath]⟩
  · -- pod snapshot rows against pod meta rows
    intro a ha b hb hkey
    obtain ⟨ka, hka, rfl⟩ := List.mem_map.1 ha
    obtain ⟨kb, hkb, rfl⟩ := List.mem_map.1 hb
    obtain ⟨p, _, s, _, e, rfl⟩ := mem_podSnapshotWrites clock h.ID h.Pods ka _ hka
    obtain ⟨q, _, e2, rfl⟩ := mem_keyedPods clock h.ID h.Pods kb _ hkb
    have hpath := congrArg Prod.snd hkey
    simp only [Item.key, Item.TreePath, Item.ofPodMeta, PodMeta.SetDynamoAttributes,
      PodSnapshot.SetDynamoAttributes] at hpath
    exact ne_podPath _ _ hpath.symm
  · -- node snapshot rows against pod snapshot and pod meta rows
    intro a ha b hb hkey
    obtain ⟨ka, hka, rfl⟩ := List.mem_map.1 ha
    obtain ⟨s, _, e, rfl⟩ := mem_keyedNodeSnapshots clock h.ID h.Snapshots ka _ hka
    rcases List.mem_append.1 hb with hb | hb
    · obtain ⟨kb, hkb, rfl⟩ := List.mem_map.1 hb
      obtain ⟨p, _, s2, _, e2, rfl⟩ := mem_podSnapshotWrites clock h.ID h.Pods kb _ hkb
      have hpath := congrArg Prod.snd hkey
      simp only [Item.key, Item.TreePath, NodeSnapshot.SetDynamoAttributes,
        PodSnapshot.SetDynamoAttributes] at hpath
      exact ne_podPath _ _ hpath
    · obtain ⟨kb, hkb, rfl⟩ := List.mem_map.1 hb
      obtain ⟨q, hq, e2, rfl⟩ := mem_keyedPods clock h.ID h.Pods kb _ hkb
      have hid := congrArg Prod.fst hkey
      simp only [Item.key, Item.ID, Item.ofPodMeta, PodMeta.SetDynamoAttributes,
        NodeSnapshot.SetDynamoAttributes] at hid
      exact ne_snapshotID_of_plain _ _ _ (hus q hq) hid.symm

/-! ## `Get` on the rows of one tree -/

theorem demux_cons_ok (acc acc1 : Demux) (item : Item) (rest : List Item)
    (h : demuxStep acc item = .ok acc1) : demux acc (item :: rest) = demux acc1 rest := by
  rw [demux, h]

theorem demux_nodeSnapshots (l : List NodeSnapshot) (rest : List Item)
    (hl : ∀ s ∈ l, s.Type_ = "node_snapshot") :
    ∀ acc : Demux, demux acc (l.map Item.nodeSnapshot ++ rest) =
      demux { acc with nodeSnapshots := acc.nodeSnapshots ++ l } rest := by
  induction l with
  | nil => intro acc; simp
  | cons s ss ih =>
    intro acc
    have hs := hl s (by simp)
    have hstep : demuxStep acc (Item.nodeSnapshot s) =
        .ok { acc with nodeSnapshots := acc.nodeSnapshots ++ [s] } := by
      simp [demuxStep, Item.Type_, hs, unmarshalNodeSnapshot]
    rw [List.map_cons, List.cons_append, demux_cons_ok _ _ _ _ hstep,
      ih (fun x hx => hl x (by simp [hx]))]
    simp

theorem demux_podSnapshots (l : List PodSnapshot) (rest : List Item)
    (hl : ∀ s ∈ l, s.Type_ = "pod_snapshot") :
    ∀ acc : Demux, demux acc (l.map Item.podSnapshot ++ rest) =
      demux { acc with podSnapshots := acc.podSnapshots ++ l } rest := by
  induction l with
  | nil => intro acc; simp
  | cons s ss ih =>
    intro acc
    have hs := hl s (by simp)
    have hstep : demuxStep acc (Item.podSnapshot s) =
        .ok { acc with podSnapshots := acc.podSnapshots ++ [s] } := by
      simp [demuxStep, Item.Type_, hs, unmarshalPodSnapshot]
    rw [List.map_cons, List.cons_append, demux_cons_ok _ _ _ _ hstep,
      ih (fun x hx => hl x (by simp [hx]))]
    simp

theorem demux_podMetas (l : List PodMeta) (rest : List Item)
    (hl : ∀ p ∈ l, p.Type_ = "pod_meta") :
    ∀ acc : Demux, demux acc (l.map Item.ofPodMeta ++ rest) =
      demux { acc with podMetas := acc.podMetas ++ l.map (fun p => { p with Snapshots := [] }) }
        rest := by
  induction l with
  | nil => intro acc; simp
  | cons p ps ih =>
    intro acc
    have hp := hl p (by simp)
    have hstep : demuxStep acc (Item.ofPodMeta p) =
        .ok { acc with podMetas := acc.podMetas ++ [{ p with Snapshots := [] }] } := by
      simp [demuxStep, Item.Type_, Item.ofPodMeta, hp, unmarshalPodMeta]
    rw [List.map_cons, List.cons_append, demux_cons_ok _ _ _ _ hstep,
      ih (fun x hx => hl x (by simp [hx]))]
    simp

/-- The second loop of `Get` gives every pod meta the snapshots whose id starts
with the pod's id up to the first `_`, in the order they were read. -/
theorem attach_eq (podSnapshots : List PodSnapshot) :
    ∀ podMetas : List PodMeta, attach podSnapshots podMetas =
      podMetas.map (fun pm =>
        { pm with Snapshots :=
            pm.Snapshots ++ podSnapshots.filter (fun s => idPart0 s.ID = pm.ID) }) := by
  induction podSnapshots with
  | nil =>
    intro podMetas
    simp [attach]
  | cons s ss ih =>
    intro podMetas
    have := ih (attachOne s podMetas)
    unfold attach at this ⊢
    rw [List.foldl_cons, this]
    unfold attachOne
    rw [List.map_map]
    apply List.map_congr_left
    intro pm _
    simp only [Function.comp]
    by_cases hk : idPart0 s.ID = pm.ID
    · simp [hk, List.filter_cons]
    · simp [hk, List.filter_cons]

theorem keyedNodeSnapshots_content (clock : Nat → Time) (nodeID : String)
    (snaps : List NodeSnapshot) :
    ∀ tick, (keyedNodeSnapshots clock nodeID tick snaps).map NodeSnapshot.content =
      snaps.map NodeSnapshot.content := by
  induction snaps with
  | nil => intro tick; rfl
  | cons s ss ih =>
    intro tick
    simp only [keyedNodeSnapshots, List.map_cons, ih]
    rfl

theorem keyedPodSnapshots_content (clock : Nat → Time) (nodeID podID : String)
    (snaps : List PodSnapshot) :
    ∀ tick, (keyedPodSnapshots clock nodeID podID tick snaps).map PodSnapshot.content =
      snaps.map PodSnapshot.content := by
  induction snaps with
  | nil => intro tick; rfl
  | cons s ss ih =>
    intro tick
    simp only [keyedPodSnapshots, List.map_cons, ih]
    rfl

/-- Every pod comes back with its own snapshots. -/
theorem attached_content (clock : Nat → Time) (nodeID : String) (pods : List PodMeta)
    (hus : ∀ p ∈ pods, '_' ∉ p.ID.data) (hids : (pods.map (fun p => p.ID)).Nodup) :
    ∀ (tick : Nat) (before : List PodSnapshot),
      (∀ s ∈ before, ∀ p ∈ pods, idPart0 s.ID ≠ p.ID) →
      (keyedPods clock nodeID tick pods).map (fun kp =>
        PodMeta.content { kp with Snapshots :=
          ((before ++ podSnapshotWrites clock nodeID tick pods).filter
            (fun s => idPart0 s.ID = kp.ID)) }) = pods.map PodMeta.content := by
  induction pods with
  | nil => intro tick before _; rfl
  | cons p ps ih =>
    intro tick before hbefore
    rw [List.map_cons, List.nodup_cons] at hids
    have hp := hus p (by simp)
    have hown : ∀ s ∈ keyedPodSnapshots clock nodeID p.ID (tick + 1) p.Snapshots,
        idPart0 s.ID = p.ID := by
      intro s hs
      obtain ⟨s0, _, e, rfl⟩ := mem_keyedPodSnapshots clock nodeID p.ID p.Snapshots s _ hs
      exact idPart0_snapshotID _ _ hp
    have hothers : ∀ s ∈ podSnapshotWrites clock nodeID (tick + 1 + p.Snapshots.length) ps,
        idPart0 s.ID ≠ p.ID := by
      intro s hs
      obtain ⟨q, hq, s0, _, e, rfl⟩ := mem_podSnapshotWrites clock nodeID ps s _ hs
      have : idPart0 (({ s0 with ExpireAt := e }).SetDynamoAttributes nodeID q.ID).ID = q.ID :=
        idPart0_snapshotID _ _ (hus q (by simp [hq]))
      rw [this]
      intro hqp
      exact hids.1 (by rw [← hqp]; exact List.mem_map_of_mem (fun p => p.ID) hq)
    simp only [keyedPods, podSnapshotWrites, List.map_cons]
    congr 1
    · have h1 : before.filter (fun s => idPart0 s.ID = p.ID) = [] := by
        rw [List.filter_eq_nil_iff]
        intro s hs
        simpa using hbefore s hs p (by simp)
      have h2 : (keyedPodSnapshots clock nodeID p.ID (tick + 1) p.Snapshots).filter
          (fun s => idPart0 s.ID = p.ID) =
          keyedPodSnapshots clock nodeID p.ID (tick + 1) p.Snapshots := by
        rw [List.filter_eq_self]
        intro s hs
        simpa using hown s hs
      have h3 : (podSnapshotWrites clock nodeID (tick + 1 + p.Snapshots.length) ps).filter
          (fun s => idPart0 s.ID = p.ID) = [] := by
        rw [List.filter_eq_nil_iff]
        intro s hs
        simpa using hothers s hs
      simp only [PodMeta.SetDynamoAttributes, List.filter_append, h1, h2, h3, List.nil_append,
        List.append_nil, PodMeta.content, keyedPodSnapshots_content]
    · have := ih (fun q hq => hus q (by simp [hq])) hids.2 (tick + 1 + p.Snapshots.length)
        (before ++ keyedPodSnapshots clock nodeID p.ID (tick + 1) p.Snapshots)
        (by
          intro s hs q hq
          rcases List.mem_append.1 hs with hs | hs
          · exact hbefore s hs q (by simp [hq])
          · rw [hown s hs]
            intro hpq
            exact hids.1 (by rw [hpq]; exact List.mem_map_of_mem (fun p => p.ID) hq))
      rw [List.append_assoc] at this
      exact this

theorem treeWrites_treeID (clock : Nat → Time) (tick : Nat) (h : NodeMeta) :
    ∀ r ∈ treeWrites clock tick h, r.TreeID = h.ID := by
  intro r hr
  unfold treeWrites at hr
  rcases List.mem_cons.1 hr with hr | hr
  · subst hr; rfl
  · rcases List.mem_append.1 hr with hr | hr
    · obtain ⟨k, hk, rfl⟩ := List.mem_map.1 hr
      obtain ⟨s, _, e, rfl⟩ := mem_keyedNodeSnapshots clock h.ID h.Snapshots k _ hk
      rfl
    · rcases List.mem_append.1 hr with hr | hr
      · obtain ⟨k, hk, rfl⟩ := List.mem_map.1 hr
        obtain ⟨p, _, s, _, e, rfl⟩ := mem_podSnapshotWrites clock h.ID h.Pods k _ hk
        rfl
      · obtain ⟨k, hk, rfl⟩ := List.mem_map.1 hr
        obtain ⟨p, _, e, rfl⟩ := mem_keyedPods clock h.ID h.Pods k _ hk
        rfl

/-- Reading back the rows of one tree. -/
theorem Get_treeWrites (clock : Nat → Time) (tick tick2 : Nat) (h : NodeMeta)
    (hpids : (h.Pods.map (fun p => p.ID)).Nodup)
    (hus : ∀ p ∈ h.Pods, '_' ∉ p.ID.data) :
    ∃ r, Get mapTable ⟨treeWrites clock tick h, tick2⟩ h.ID = .ok r ∧ r.content = h.content := by
  have hq : mapTable.Query (treeWrites clock tick h) h.ID = .ok (treeWrites clock tick h) := by
    show Except.ok (List.filter _ _) = _
    congr 1
    rw [List.filter_eq_self]
    intro r hr
    simpa using treeWrites_treeID clock tick h r hr
  have hstep : demuxStep ⟨none, [], [], []⟩
      (Item.ofNodeMeta (({ h with ExpireAt := (clock tick).Add ttl }).SetDynamoAttributes)) =
      .ok ⟨some { ({ h with ExpireAt := (clock tick).Add ttl }).SetDynamoAttributes with
              Snapshots := [], Pods := [] }, [], [], []⟩ := by
    simp [demuxStep, Item.Type_, Item.ofNodeMeta, NodeMeta.SetDynamoAttributes,
      unmarshalNodeMeta]
  have hpm := demux_podMetas (keyedPods clock h.ID (tick + 1 + h.Snapshots.length) h.Pods) []
    (by
      intro p hp
      obtain ⟨p0, _, e, rfl⟩ := mem_keyedPods clock h.ID h.Pods p _ hp
      rfl)
  rw [List.append_nil] at hpm
  have hdm : demux ⟨none, [], [], []⟩ (treeWrites clock tick h) =
      .ok ⟨some { ({ h with ExpireAt := (clock tick).Add ttl }).SetDynamoAttributes with
              Snapshots := [], Pods := [] },
        keyedNodeSnapshots clock h.ID (tick + 1) h.Snapshots,
        (keyedPods clock h.ID (tick + 1 + h.Snapshots.length) h.Pods).map
          (fun p => { p with Snapshots := [] }),
        podSnapshotWrites clock h.ID (tick + 1 + h.Snapshots.length) h.Pods⟩ := by
    unfold treeWrites
    rw [demux_cons_ok _ _ _ _ hstep,
      demux_nodeSnapshots _ _ (by
        intro s hs
        obtain ⟨s0, _, e, rfl⟩ := mem_keyedNodeSnapshots clock h.ID h.Snapshots s _ hs
        rfl),
      demux_podSnapshots _ _ (by
        intro s hs
        obtain ⟨p, _, s0, _, e, rfl⟩ := mem_podSnapshotWrites clock h.ID h.Pods s _ hs
        rfl),
      hpm]
    simp [demux]
  unfold Get
  simp only [hq, hdm]
  refine ⟨_, rfl, ?_⟩
  have hpods := attached_content clock h.ID h.Pods hus hpids (tick + 1 + h.Snapshots.length) []
    (by intro s hs; simp at hs)
  simp only [NodeMeta.content, NodeMeta.SetDynamoAttributes, keyedNodeSnapshots_content,
    attach_eq, List.map_map, List.nil_append] at hpods ⊢
  simp only [NodeMeta.mk.injEq, true_and]
  exact hpods

/-- C7, amended. On the map-backed table started empty, for every clock and
every host record `h` with a non-empty id, non-empty workload ids, non-zero
snapshot timestamps, and moreover: pairwise different timestamps within the
node history and within each pod history, pairwise different workload ids, no
`_` in a workload id, and not both the host id and a workload id equal to
`root`: `Upsert(h)` succeeds and `Get(h.ID)` then returns a record with the
content of `h`, that is, equal to `h` in every field but `ExpireAt` and the
derived key fields, with the same node snapshots, the same workloads and for
each workload the same pod snapshots. -/
theorem C7_upsert_get_roundtrip (clock : Nat → Time) (tick : Nat) (h : NodeMeta)
    (hid : h.ID ≠ "") (hts : ∀ s ∈ h.Snapshots, s.Timestamp ≠ 0)
    (hpid : ∀ p ∈ h.Pods, p.ID ≠ "")
    (hpts : ∀ p ∈ h.Pods, ∀ s ∈ p.Snapshots, s.Timestamp ≠ 0)
    (hnd : (h.Snapshots.map (fun s => s.Timestamp)).Nodup)
    (hpnd : ∀ p ∈ h.Pods, (p.Snapshots.map (fun s => s.Timestamp)).Nodup)
    (hpids : (h.Pods.map (fun p => p.ID)).Nodup)
    (hus : ∀ p ∈ h.Pods, '_' ∉ p.ID.data)
    (hroot : ¬ (h.ID = "root" ∧ ∃ p ∈ h.Pods, p.ID = "root")) :
    ∃ w r, Upsert mapTable clock ⟨[], tick⟩ h = (w, none) ∧
      Get mapTable w h.ID = .ok r ∧ r.content = h.content := by
  have hup := Upsert_mapTable clock ⟨[], tick⟩ h hid hts hpid hpts
  have hrows : (treeWrites clock tick h).foldl mapPut [] = treeWrites clock tick h := by
    rw [foldl_mapPut_fresh _ [] (treeWrites_keys_nodup clock tick h hnd hpnd hpids hus hroot)
      (by intro w _; simp)]
    simp
  simp only [hrows] at hup
  obtain ⟨r, hr, hc⟩ := Get_treeWrites clock tick
    (tick + 1 + h.Snapshots.length + podTicks h.Pods) h hpids hus
  exact ⟨_, r, hup, hr, hc⟩

/-- C7, witness: the record `treePlain`. -/
theorem C7_upsert_get_roundtrip_witness :
    ∃ w r, Upsert mapTable sampleClock ⟨[], 0⟩ treePlain = (w, none) ∧
      Get mapTable w treePlain.ID = .ok r ∧ r.content = treePlain.content :=
  C7_upsert_get_roundtrip sampleClock 0 treePlain (by decide) (by decide) (by decide) (by decide)
    (by decide) (by decide) (by decide) (by decide) (by decide)

/-- C7, counterexample. Each record below has a non-empty id, non-empty workload
ids and non-zero timestamps, `Upsert` succeeds, and `Get` does not give the
record back: (1) a workload id with `_` loses its snapshot; (2) of two node
snapshots with one timestamp only the later written survives; (3) so for two
pod snapshots; (4) two workloads with one id come back as one; (5) for host
`root` with workload `root` the pod meta row replaces the node meta row and
`Get` fails. -/
theorem C7_counterexample_roundtrip :
    (∃ w r, Upsert mapTable sampleClock ⟨[], 0⟩
        (mkNode "n1" [] [mkPod "a_b" [mkPodSnapshot 12 PodPhaseRunning]]) = (w, none) ∧
      Get mapTable w "n1" = .ok r ∧ r.Pods.map (fun p => p.Snapshots.length) = [0]) ∧
    (∃ w r, Upsert mapTable sampleClock ⟨[], 0⟩
        (mkNode "n1" [mkNodeSnapshot 10 NodeStateReady, mkNodeSnapshot 10 NodeStateNotReady] [])
          = (w, none) ∧
      Get mapTable w "n1" = .ok r ∧
      r.Snapshots.map NodeSnapshot.content = [(mkNodeSnapshot 10 NodeStateNotReady).content]) ∧
    (∃ w r, Upsert mapTable sampleClock ⟨[], 0⟩
        (mkNode "n1" [] [mkPod "a" [mkPodSnapshot 10 PodPhasePending,
          mkPodSnapshot 10 PodPhaseRunning]]) = (w, none) ∧
      Get mapTable w "n1" = .ok r ∧
      r.Pods.map PodMeta.content = [(mkPod "a" [mkPodSnapshot 10 PodPhaseRunning]).content]) ∧
    (∃ w r, Upsert mapTable sampleClock ⟨[], 0⟩
        (mkNode "n1" [] [mkPod "a" [mkPodSnapshot 10 PodPhasePending],
          mkPod "a" [mkPodSnapshot 12 PodPhaseRunning]]) = (w, none) ∧
      Get mapTable w "n1" = .ok r ∧
      r.Pods.map PodMeta.content =
        [(mkPod "a" [mkPodSnapshot 10 PodPhasePending, mkPodSnapshot 12 PodPhaseRunning]).content]) ∧
    (∃ w e, Upsert mapTable sampleClock ⟨[], 0⟩ (mkNode "root" [] [mkPod "root" []]) = (w, none) ∧
      Get mapTable w "root" = .error e) :=
  ⟨⟨_, _, rfl, rfl, by decide⟩, ⟨_, _, rfl, rfl, by decide⟩, ⟨_, _, rfl, rfl, by decide⟩,
   ⟨_, _, rfl, rfl, by decide⟩, ⟨_, _, rfl, rfl⟩⟩

/-- C8, at the failing input. Host `n1` with the workloads `a` (snapshot at 10)
and `a_b` (snapshot at 12) is upserted into the empty table.  `Get` attaches
the snapshot written under `a_b` (path `n1#a_b`) to the workload `a`, and
leaves the workload `a_b` without snapshots. -/
theorem C8_get_misattaches_underscore_id :
    (Upsert mapTable sampleClock ⟨[], 0⟩ treeUnderscore).2 = none ∧
    (Get mapTable (Upsert mapTable sampleClock ⟨[], 0⟩ treeUnderscore).1 "n1").map
      (fun n => n.Pods.map (fun p => (p.ID, p.Snapshots.map (fun s => (s.ID, s.TreePath))))) =
      .ok [("a", [("a_10", "n1#a"), ("a_b_12", "n1#a_b")]), ("a_b", [])] := by
  decide

/-- C9. For every table, clock and state, and for non-empty lists of snapshots
with non-zero timestamps: `UpsertNodeSnapshots` and `UpsertPodSnapshots` return
nil exactly when the batch write of the stamped rows reports no error and a
persisted count equal to the number of snapshots submitted; so when the
batch write reports no error but another count, they return an error. -/
theorem C9_short_count_is_an_error {σ : Type} (t : Table σ) (clock : Nat → Time)
    (w : World σ) (nodeID podID : String) (ns : List NodeSnapshot) (ps : List PodSnapshot)
    (hns : ns ≠ []) (hps : ps ≠ []) (hnts : ∀ s ∈ ns, s.Timestamp ≠ 0)
    (hpts : ∀ s ∈ ps, s.Timestamp ≠ 0) :
    (((UpsertNodeSnapshots t clock w nodeID ns).2 = none ↔
        (t.BatchPut w.table ((keyedNodeSnapshots clock nodeID w.tick ns).map Item.nodeSnapshot)).2
          = ((ns.length : Int), none)) ∧
     (∀ table wc,
        t.BatchPut w.table ((keyedNodeSnapshots clock nodeID w.tick ns).map Item.nodeSnapshot)
          = (table, wc, none) →
        wc ≠ (ns.length : Int) → ∃ e, (UpsertNodeSnapshots t clock w nodeID ns).2 = some e)) ∧
    (((UpsertPodSnapshots t clock w nodeID podID ps).2 = none ↔
        (t.BatchPut w.table
          ((keyedPodSnapshots clock nodeID podID w.tick ps).map Item.podSnapshot)).2
          = ((ps.length : Int), none)) ∧
     (∀ table wc,
        t.BatchPut w.table ((keyedPodSnapshots clock nodeID podID w.tick ps).map Item.podSnapshot)
          = (table, wc, none) →
        wc ≠ (ps.length : Int) → ∃ e, (UpsertPodSnapshots t clock w nodeID podID ps).2 = some e)) := by
  have hnl : (keyedNodeSnapshots clock nodeID w.tick ns).length > 0 := by
    rw [keyedNodeSnapshots_length]
    exact List.length_pos.2 hns
  have hpl : (keyedPodSnapshots clock nodeID podID w.tick ps).length > 0 := by
    rw [keyedPodSnapshots_length]
    exact List.length_pos.2 hps
  have hn : (UpsertNodeSnapshots t clock w nodeID ns).2 = none ↔
      (t.BatchPut w.table ((keyedNodeSnapshots clock nodeID w.tick ns).map Item.nodeSnapshot)).2
        = ((ns.length : Int), none) := by
    unfold UpsertNodeSnapshots
    rw [stampNodeSnapshots_ok clock nodeID ns w.tick hnts]
    simp only [hnl, if_true]
    rcases hb : t.BatchPut w.table
      ((keyedNodeSnapshots clock nodeID w.tick ns).map Item.nodeSnapshot) with ⟨table, wc, err⟩
    cases err with
    | some e => simp
    | none =>
      by_cases hwc : wc = (ns.length : Int)
      · simp [hwc]
      · simp [hwc]
  have hp : (UpsertPodSnapshots t clock w nodeID podID ps).2 = none ↔
      (t.BatchPut w.table ((keyedPodSnapshots clock nodeID podID w.tick ps).map Item.podSnapshot)).2
        = ((ps.length : Int), none) := by
    unfold UpsertPodSnapshots
    rw [stampPodSnapshots_ok clock nodeID podID ps w.tick hpts]
    simp only [hpl, if_true]
    rcases hb : t.BatchPut w.table
      ((keyedPodSnapshots clock nodeID podID w.tick ps).map Item.podSnapshot) with ⟨table, wc, err⟩
    cases err with
    | some e => simp
    | none =>
      by_cases hwc : wc = (ps.length : Int)
      · simp [hwc]
      · simp [hwc]
  refine ⟨⟨hn, ?_⟩, ⟨hp, ?_⟩⟩
  · intro table wc hb hwc
    cases hr : (UpsertNodeSnapshots t clock w nodeID ns).2 with
    | some e => exact ⟨e, rfl⟩
    | none =>
      have := hn.1 hr
      rw [hb] at this
      simp only [Prod.mk.injEq, and_true] at this
      exact absurd this hwc
  · intro table wc hb hwc
    cases hr : (UpsertPodSnapshots t clock w nodeID podID ps).2 with
    | some e => exact ⟨e, rfl⟩
    | none =>
      have := hp.1 hr
      rw [hb] at this
      simp only [Prod.mk.injEq, and_true] at this
      exact absurd this hwc

/-- C9, witness: a table whose batches report one row fewer than submitted
makes both operations return an error. -/
theorem C9_short_count_witness :
    (∃ e, (UpsertNodeSnapshots shortCountTable sampleClock ⟨[], 0⟩ "n1"
        [mkNodeSnapshot 10 NodeStateReady, mkNodeSnapshot 20 NodeStateReady]).2 = some e) ∧
    (∃ e, (UpsertPodSnapshots shortCountTable sampleClock ⟨[], 0⟩ "n1" "a"
        [mkPodSnapshot 10 PodPhaseRunning]).2 = some e) := by
  have h := C9_short_count_is_an_error shortCountTable sampleClock ⟨[], 0⟩ "n1" "a"
    [mkNodeSnapshot 10 NodeStateReady, mkNodeSnapshot 20 NodeStateReady]
    [mkPodSnapshot 10 PodPhaseRunning] (by decide) (by decide) (by decide) (by decide)
  exact ⟨h.1.2 _ 1 rfl (by decide), h.2.2 _ 0 rfl (by decide)⟩

/-! ## the effective snapshot does not depend on the order of the history -/

theorem effective_perm {α : Type} (key : α → Time) (H H2 : List α) (T : Time)
    (hnd : (H.map key).Nodup) (hperm : H2.Perm H) :
    firstThat (fun s => (key s).Before T || (key s).Equal T)
        (goSort (fun a b => (key b).Before (key a)) H2) =
      firstThat (fun s => (key s).Before T || (key s).Equal T)
        (goSort (fun a b => (key b).Before (key a)) H) := by
  have h1 := effective_spec key H T
  have h2 := effective_spec key H2 T
  simp only at h1 h2
  generalize firstThat (fun s => (key s).Before T || (key s).Equal T)
    (goSort (fun a b => (key b).Before (key a)) H) = r at h1
  generalize firstThat (fun s => (key s).Before T || (key s).Equal T)
    (goSort (fun a b => (key b).Before (key a)) H2) = r2 at h2
  cases r with
  | none =>
    cases r2 with
    | none => rfl
    | some s2 =>
      exfalso
      obtain ⟨hm, hle, _⟩ := h2.2.1 s2 rfl
      have hmH : s2 ∈ H := hperm.mem_iff.1 hm
      rcases h1.2.2.1.1 rfl with h | h
      · rw [h] at hmH; simp at hmH
      · exact absurd hle (not_le.2 (h s2 hmH))
  | some s =>
    obtain ⟨hm, hle, hmax⟩ := h1.2.1 s rfl
    cases r2 with
    | none =>
      exfalso
      have hmH2 : s ∈ H2 := hperm.mem_iff.2 hm
      rcases h2.2.2.1.1 rfl with h | h
      · rw [h] at hmH2; simp at hmH2
      · exact absurd hle (not_le.2 (h s hmH2))
    | some s2 =>
      obtain ⟨hm2, hle2, hmax2⟩ := h2.2.1 s2 rfl
      have hmH : s2 ∈ H := hperm.mem_iff.1 hm2
      have hmH2 : s ∈ H2 := hperm.mem_iff.2 hm
      have ha : key s2 ≤ key s := not_lt.1 (fun h => hmax s2 hmH ⟨h, hle2⟩)
      have hb : key s ≤ key s2 := not_lt.1 (fun h => hmax2 s hmH2 ⟨h, hle⟩)
      have heq : key s2 = key s := le_antisymm ha hb
      rw [List.inj_on_of_nodup_map hnd hmH hm heq]

/-- C14. For node and for pod histories whose timestamps are pairwise
different, every rearrangement of the history and every query time: `EffectiveAt`
on the rearranged history and on the history are both nil or return the same
snapshot. -/
theorem C14_effectiveAt_order_independent (Hn Hn2 : List NodeSnapshot)
    (Hp Hp2 : List PodSnapshot) (T : Time)
    (hn : (Hn.map (fun s => s.Timestamp)).Nodup) (hnperm : Hn2.Perm Hn)
    (hp : (Hp.map (fun s => s.Timestamp)).Nodup) (hpperm : Hp2.Perm Hp) :
    NodeSnapshots.EffectiveAt Hn2 T = NodeSnapshots.EffectiveAt Hn T ∧
    PodSnapshots.EffectiveAt Hp2 T = PodSnapshots.EffectiveAt Hp T :=
  ⟨effective_perm (fun s : NodeSnapshot => s.Timestamp) Hn Hn2 T hn hnperm,
   effective_perm (fun s : PodSnapshot => s.Timestamp) Hp Hp2 T hp hpperm⟩

/-- C14, witness: the history with snapshots at 10 and 20 and the same history
in reverse, queried at 15. -/
theorem C14_effectiveAt_order_independent_witness :
    NodeSnapshots.EffectiveAt [mkNodeSnapshot 20 NodeStateNotReady, mkNodeSnapshot 10 NodeStateReady]
        15 =
      NodeSnapshots.EffectiveAt [mkNodeSnapshot 10 NodeStateReady, mkNodeSnapshot 20 NodeStateNotReady]
        15 ∧
    PodSnapshots.EffectiveAt [mkPodSnapshot 12 PodPhaseRunning, mkPodSnapshot 10 PodPhasePending] 15 =
      PodSnapshots.EffectiveAt [mkPodSnapshot 10 PodPhasePending, mkPodSnapshot 12 PodPhaseRunning]
        15 :=
  C14_effectiveAt_order_independent _ _ _ _ 15 (by decide) (List.Perm.swap _ _ _) (by decide)
    (List.Perm.swap _ _ _)

/-! ## sorting a sorted history -/

theorem sortInsert_last {α : Type} (less : α → α → Bool) (x : α) (acc : List α)
    (h : ∀ y ∈ acc, less x y = false) : sortInsert less x acc = acc ++ [x] := by
  induction acc with
  | nil => rfl
  | cons y ys ih =>
    have hy : less x y = false := h y (by simp)
    simp only [sortInsert, hy, Bool.false_eq_true, if_false, List.cons_append]
    rw [ih (fun z hz => h z (by simp [hz]))]

theorem foldl_sortInsert_ordered {α : Type} (less : α → α → Bool) (l : List α) :
    ∀ acc : List α, Ordered less (acc ++ l) →
      l.foldl (fun acc x => sortInsert less x acc) acc = acc ++ l := by
  induction l with
  | nil => intro acc _; simp
  | cons x xs ih =>
    intro acc h
    have hx : ∀ y ∈ acc, less x y = false := by
      intro y hy
      unfold Ordered at h
      rw [List.pairwise_append] at h
      exact h.2.2 y hy x (by simp)
    rw [List.foldl_cons, sortInsert_last less x acc hx, ih]
    · simp
    · simpa using h

/-- Sorting a slice that is already in order leaves it as it is. -/
theorem goSort_of_ordered {α : Type} (less : α → α → Bool) (l : List α)
    (h : Ordered less l) : goSort less l = l := by
  have := foldl_sortInsert_ordered less l [] (by simpa using h)
  simpa [goSort] using this

theorem reverse_ordered {α : Type} (key : α → Time) (l : List α) :
    Ordered (fun a b => (key b).Before (key a)) (goSort (fun a b => (key b).Before (key a)) l) :=
  goSort_ordered (fun a b : α => (key b).Before (key a))
    (by intro a b; simp only [Time.Before, decide_eq_true_eq, decide_eq_false_iff_not]
        intro h; exact lt_asymm h)
    (by intro a b c; simp only [Time.Before, decide_eq_false_iff_not]
        intro h1 h2; exact fun h3 => h1 (lt_of_lt_of_le h3 (not_lt.1 h2))) l

/-- C15. The key derivations: a node meta row gets its own id as `TreeID`, the
path `root` and the kind `node_meta`; for host id `n` and workload id `p`, a
node snapshot row gets `TreeID` `n`, path `n` and kind `node_snapshot`, a pod
meta row `TreeID` `n`, path `n` and kind `pod_meta`, a pod snapshot row
`TreeID` `n`, path `n#p` and kind `pod_snapshot`; the fields that are not key
fields (`ID` is one for snapshots, derived as owner id, `_`, timestamp) keep
their values. -/
theorem C15_setDynamoAttributes_keys (nm : NodeMeta) (ns : NodeSnapshot) (pm : PodMeta)
    (ps : PodSnapshot) (n p : String) :
    (nm.SetDynamoAttributes.TreeID = nm.ID ∧ nm.SetDynamoAttributes.TreePath = "root" ∧
      nm.SetDynamoAttributes.Type_ = "node_meta" ∧
      nm.SetDynamoAttributes =
        { nm with TreeID := nm.ID, TreePath := "root", Type_ := "node_meta" }) ∧
    ((ns.SetDynamoAttributes n).TreeID = n ∧ (ns.SetDynamoAttributes n).TreePath = n ∧
      (ns.SetDynamoAttributes n).Type_ = "node_snapshot" ∧
      (ns.SetDynamoAttributes n).ID = n ++ "_" ++ ns.Timestamp.String ∧
      (ns.SetDynamoAttributes n).ExpireAt = ns.ExpireAt ∧
      (ns.SetDynamoAttributes n).Timestamp = ns.Timestamp ∧
      (ns.SetDynamoAttributes n).State = ns.State ∧
      ns.SetDynamoAttributes n =
        { ns with ID := n ++ "_" ++ ns.Timestamp.String, TreeID := n, TreePath := n,
                  Type_ := "node_snapshot" }) ∧
    ((pm.SetDynamoAttributes n).TreeID = n ∧ (pm.SetDynamoAttributes n).TreePath = n ∧
      (pm.SetDynamoAttributes n).Type_ = "pod_meta" ∧
      pm.SetDynamoAttributes n = { pm with TreeID := n, TreePath := n, Type_ := "pod_meta" }) ∧
    ((ps.SetDynamoAttributes n p).TreeID = n ∧
      (ps.SetDynamoAttributes n p).TreePath = n ++ "#" ++ p ∧
      (ps.SetDynamoAttributes n p).Type_ = "pod_snapshot" ∧
      (ps.SetDynamoAttributes n p).ID = p ++ "_" ++ ps.Timestamp.String ∧
      (ps.SetDynamoAttributes n p).ExpireAt = ps.ExpireAt ∧
      (ps.SetDynamoAttributes n p).Timestamp = ps.Timestamp ∧
      (ps.SetDynamoAttributes n p).Status = ps.Status ∧
      (ps.SetDynamoAttributes n p).InitContainers = ps.InitContainers ∧
      (ps.SetDynamoAttributes n p).EphemeralContainers = ps.EphemeralContainers ∧
      (ps.SetDynamoAttributes n p).Containers = ps.Containers ∧
      ps.SetDynamoAttributes n p =
        { ps with ID := p ++ "_" ++ ps.Timestamp.String, TreeID := n,
                  TreePath := n ++ "#" ++ p, Type_ := "pod_snapshot" }) :=
  ⟨⟨rfl, rfl, rfl, rfl⟩, ⟨rfl, rfl, rfl, rfl, rfl, rfl, rfl, rfl⟩, ⟨rfl, rfl, rfl, rfl⟩,
   ⟨rfl, rfl, rfl, rfl, rfl, rfl, rfl, rfl, rfl, rfl, rfl⟩⟩

/-- C19, at the failing input. `TransformToModelPodPhase` turns the phase named
Succeeded into the model phase named Unknown.  The other four phases, every
condition (defined or not) and every QoS class (defined or not) keep their names. -/
theorem C19_succeeded_becomes_unknown :
    (PodPhase.String PodPhaseSucceeded = "Succeeded" ∧
      TransformToModelPodPhase PodPhaseSucceeded = model.PodPhase.Unknown ∧
      (TransformToModelPodPhase PodPhaseSucceeded).String = "Unknown") ∧
    ((TransformToModelPodPhase PodPhasePending).String = PodPhase.String PodPhasePending ∧
      (TransformToModelPodPhase PodPhaseRunning).String = PodPhase.String PodPhaseRunning ∧
      (TransformToModelPodPhase PodPhaseFailed).String = PodPhase.String PodPhaseFailed ∧
      (TransformToModelPodPhase PodPhaseUnknown).String = PodPhase.String PodPhaseUnknown) ∧
    ((TransformToModelNodeCondition NodeStateReady).String = NodeCondition.String NodeStateReady ∧
      (TransformToModelNodeCondition NodeStateNotReady).String =
        NodeCondition.String NodeStateNotReady ∧
      (TransformToModelNodeCondition NodeStateUnknown).String =
        NodeCondition.String NodeStateUnknown) ∧
    ((TransformToModelPodQOSClass PodQOSClassBestEffort).String =
        PodQOSClass.String PodQOSClassBestEffort ∧
      (TransformToModelPodQOSClass PodQOSClassBurstable).String =
        PodQOSClass.String PodQOSClassBurstable ∧
      (TransformToModelPodQOSClass PodQOSClassGuaranteed).String =
        PodQOSClass.String PodQOSClassGuaranteed ∧
      (TransformToModelPodQOSClass PodQOSClassUnknown).String =
        PodQOSClass.String PodQOSClassUnknown) := by
  decide

/-! ## `EffectiveAt` as a call on its receiver -/

/-- The scan of any slice that is a rearrangement of `H` in descending order of
`key`, with the test `key ≤ T`. -/
theorem scan_ordered_spec {α : Type} (key : α → Time) (H S : List α) (T : Time)
    (hperm : S.Perm H) (hord : Ordered (fun a b => (key b).Before (key a)) S) :
    (∀ s, firstThat (fun s => (key s).Before T || (key s).Equal T) S = some s →
      s ∈ H ∧ key s ≤ T ∧ ∀ x ∈ H, ¬ (key s < key x ∧ key x ≤ T)) ∧
    (firstThat (fun s => (key s).Before T || (key s).Equal T) S = none →
      ∀ x ∈ H, T < key x) := by
  have hp : ∀ s : α, ((key s).Before T || (key s).Equal T) = true ↔ key s ≤ T := by
    intro s
    simp [Time.Before, Time.Equal, le_iff_lt_or_eq]
  constructor
  · intro s hs
    obtain ⟨hps, pre, post, hl, hpre⟩ := firstThat_eq_some _ _ _ hs
    have hmem : ∀ x, x ∈ H ↔ x ∈ pre ++ s :: post := by
      intro x; rw [← hl]; exact hperm.mem_iff.symm
    refine ⟨(hmem s).2 (by simp), (hp s).1 hps, ?_⟩
    rintro x hx ⟨h1, h2⟩
    rcases List.mem_append.1 ((hmem x).1 hx) with hx | hx
    · have := hpre x hx
      have h3 : ¬ key x ≤ T := by rw [← hp]; simp [this]
      exact h3 h2
    · rcases List.mem_cons.1 hx with rfl | hx
      · exact lt_irrefl _ h1
      · unfold Ordered at hord
        rw [hl, List.pairwise_append] at hord
        have := (List.pairwise_cons.1 hord.2.1).1 x hx
        simp only [Time.Before, decide_eq_false_iff_not] at this
        exact this h1
  · intro h x hx
    rw [firstThat_eq_none] at h
    have := h x (hperm.mem_iff.2 hx)
    have h2 : ¬ key x ≤ T := by
      rw [← hp]; simp [this]
    exact not_le.1 h2

/-- With pairwise different timestamps, the scan finds the same element in
every descending rearrangement of the history. -/
theorem scan_ordered_unique {α : Type} (key : α → Time) (H S1 S2 : List α) (T : Time)
    (hnd : (H.map key).Nodup)
    (hperm1 : S1.Perm H) (hord1 : Ordered (fun a b => (key b).Before (key a)) S1)
    (hperm2 : S2.Perm H) (hord2 : Ordered (fun a b => (key b).Before (key a)) S2) :
    firstThat (fun s => (key s).Before T || (key s).Equal T) S1 =
      firstThat (fun s => (key s).Before T || (key s).Equal T) S2 := by
  obtain ⟨h1s, h1n⟩ := scan_ordered_spec key H S1 T hperm1 hord1
  obtain ⟨h2s, h2n⟩ := scan_ordered_spec key H S2 T hperm2 hord2
  generalize firstThat (fun s => (key s).Before T || (key s).Equal T) S1 = r1 at h1s h1n
  generalize firstThat (fun s => (key s).Before T || (key s).Equal T) S2 = r2 at h2s h2n
  cases r1 with
  | none =>
    cases r2 with
    | none => rfl
    | some s2 =>
      exfalso
      obtain ⟨hm, hle, _⟩ := h2s s2 rfl
      exact absurd hle (not_le.2 (h1n rfl s2 hm))
  | some s1 =>
    obtain ⟨hm1, hle1, hmax1⟩ := h1s s1 rfl
    cases r2 with
    | none =>
      exfalso
      exact absurd hle1 (not_le.2 (h2n rfl s1 hm1))
    | some s2 =>
      obtain ⟨hm2, hle2, hmax2⟩ := h2s s2 rfl
      have ha : key s2 ≤ key s1 := not_lt.1 (fun h => hmax1 s2 hm2 ⟨h, hle2⟩)
      have hb : key s1 ≤ key s2 := not_lt.1 (fun h => hmax2 s1 hm1 ⟨h, hle1⟩)
      rw [List.inj_on_of_nodup_map hnd hm1 hm2 (le_antisymm hb ha)]

/-- What a sort that meets the contract leaves behind, and what a second scan
finds in it. -/
theorem sorted_twice {α : Type} (key : α → Time) (sort : List α → List α)
    (hsort : IsSortReverse key sort) (H : List α) (T : Time) :
    (sort H).Perm H ∧
    (sort H).Pairwise (fun a b => key b ≤ key a) ∧
    ((H.map key).Nodup →
      firstThat (fun s => (key s).Before T || (key s).Equal T) (sort (sort H)) =
        firstThat (fun s => (key s).Before T || (key s).Equal T) (sort H)) ∧
    (FixesOrdered key sort →
      firstThat (fun s => (key s).Before T || (key s).Equal T) (sort (sort H)) =
        firstThat (fun s => (key s).Before T || (key s).Equal T) (sort H)) := by
  refine ⟨(hsort H).1, ?_, ?_, ?_⟩
  · have h := (hsort H).2
    unfold Ordered at h
    refine h.imp ?_
    intro a b hab
    simp only [Time.Before, decide_eq_false_iff_not] at hab
    exact not_lt.1 hab
  · intro hnd
    exact scan_ordered_unique key H _ _ T hnd (((hsort (sort H)).1).trans (hsort H).1)
      (hsort (sort H)).2 (hsort H).1 (hsort H).2
  · intro hfix
    rw [hfix (sort H) (hsort H).2]

/-- The insertion sort of the embedding meets the contract of the library sort,
and leaves an ordered slice as it is. -/
theorem goSort_isSortReverse {α : Type} (key : α → Time) :
    IsSortReverse key (goSort (fun a b => (key b).Before (key a))) ∧
    FixesOrdered key (goSort (fun a b => (key b).Before (key a))) :=
  ⟨fun l => ⟨goSort_perm _ l, reverse_ordered key l⟩, fun l hl => goSort_of_ordered _ l hl⟩

/-- C18. For every function that meets the documented contract of the library
sort, every node history, every pod history and all query times `T`, `T2`:
the slice a call of `EffectiveAt` with `T` leaves in its receiver is a
rearrangement of the history (the same snapshots, unchanged, as often) in
non-increasing timestamp order; and a second call, with `T2`, on the receiver
so left returns what a call with `T2` on the history returns, when the
timestamps of the history are pairwise different, and also for a history with
equal timestamps when the library sort leaves a slice that is already in order
as it is. -/
theorem C18_effectiveAt_reorders_only
    (sortN : List NodeSnapshot → List NodeSnapshot) (sortP : List PodSnapshot → List PodSnapshot)
    (hN : IsSortReverse (fun s : NodeSnapshot => s.Timestamp) sortN)
    (hP : IsSortReverse (fun s : PodSnapshot => s.Timestamp) sortP)
    (Hn : List NodeSnapshot) (Hp : List PodSnapshot) (T T2 : Time) :
    ((NodeSnapshots.EffectiveAtInPlace sortN Hn T).1.Perm Hn ∧
     (NodeSnapshots.EffectiveAtInPlace sortN Hn T).1.Pairwise
       (fun a b => b.Timestamp ≤ a.Timestamp) ∧
     ((Hn.map (fun s => s.Timestamp)).Nodup →
       (NodeSnapshots.EffectiveAtInPlace sortN (NodeSnapshots.EffectiveAtInPlace sortN Hn T).1 T2).2 =
         (NodeSnapshots.EffectiveAtInPlace sortN Hn T2).2) ∧
     (FixesOrdered (fun s : NodeSnapshot => s.Timestamp) sortN →
       (NodeSnapshots.EffectiveAtInPlace sortN (NodeSnapshots.EffectiveAtInPlace sortN Hn T).1 T2).2 =
         (NodeSnapshots.EffectiveAtInPlace sortN Hn T2).2)) ∧
    ((PodSnapshots.EffectiveAtInPlace sortP Hp T).1.Perm Hp ∧
     (PodSnapshots.EffectiveAtInPlace sortP Hp T).1.Pairwise
       (fun a b => b.Timestamp ≤ a.Timestamp) ∧
     ((Hp.map (fun s => s.Timestamp)).Nodup →
       (PodSnapshots.EffectiveAtInPlace sortP (PodSnapshots.EffectiveAtInPlace sortP Hp T).1 T2).2 =
         (PodSnapshots.EffectiveAtInPlace sortP Hp T2).2) ∧
     (FixesOrdered (fun s : PodSnapshot => s.Timestamp) sortP →
       (PodSnapshots.EffectiveAtInPlace sortP (PodSnapshots.EffectiveAtInPlace sortP Hp T).1 T2).2 =
         (PodSnapshots.EffectiveAtInPlace sortP Hp T2).2)) :=
  ⟨sorted_twice (fun s : NodeSnapshot => s.Timestamp) sortN hN Hn T2,
   sorted_twice (fun s : PodSnapshot => s.Timestamp) sortP hP Hp T2⟩

/-- C18, witness: the insertion sort that the library runs on a short slice, on
histories in which two snapshots share the timestamp 10.  The call with 25
leaves the snapshot at 20 in front of the two at 10, and a second call, with
15, returns the first of the two, as a call with 15 on the history does.  With
this sort `EffectiveAtInPlace` returns what `EffectiveAt` returns. -/
theorem C18_effectiveAt_reorders_only_witness :
    (IsSortReverse (fun s : NodeSnapshot => s.Timestamp) NodeSnapshots.sortReverse ∧
     IsSortReverse (fun s : PodSnapshot => s.Timestamp) PodSnapshots.sortReverse) ∧
    ((NodeSnapshots.EffectiveAtInPlace NodeSnapshots.sortReverse tiedNodeHistory 25).1 =
        [mkNodeSnapshot 20 NodeStateReady, mkNodeSnapshot 10 NodeStateReady,
         mkNodeSnapshot 10 NodeStateNotReady] ∧
      (NodeSnapshots.EffectiveAtInPlace NodeSnapshots.sortReverse tiedNodeHistory 15).2 =
        some (mkNodeSnapshot 10 NodeStateReady) ∧
      (NodeSnapshots.EffectiveAtInPlace NodeSnapshots.sortReverse tiedNodeHistory 15).2 =
        NodeSnapshots.EffectiveAt tiedNodeHistory 15) ∧
    ((NodeSnapshots.EffectiveAtInPlace NodeSnapshots.sortReverse
        (NodeSnapshots.EffectiveAtInPlace NodeSnapshots.sortReverse tiedNodeHistory 25).1 15).2 =
        (NodeSnapshots.EffectiveAtInPlace NodeSnapshots.sortReverse tiedNodeHistory 15).2 ∧
     (PodSnapshots.EffectiveAtInPlace PodSnapshots.sortReverse
        (PodSnapshots.EffectiveAtInPlace PodSnapshots.sortReverse tiedPodHistory 25).1 15).2 =
        (PodSnapshots.EffectiveAtInPlace PodSnapshots.sortReverse tiedPodHistory 15).2) :=
  have hN := goSort_isSortReverse (fun s : NodeSnapshot => s.Timestamp)
  have hP := goSort_isSortReverse (fun s : PodSnapshot => s.Timestamp)
  have h := C18_effectiveAt_reorders_only NodeSnapshots.sortReverse PodSnapshots.sortReverse
    hN.1 hP.1 tiedNodeHistory tiedPodHistory 25 15
  ⟨⟨hN.1, hP.1⟩, ⟨rfl, rfl, rfl⟩, ⟨h.1.2.2.2 hN.2, h.2.2.2.2 hP.2⟩⟩

/-! ## the loop of `IntervalSnapshots` with any step -/

theorem intervalTimes_stuck (endAt : Time) (step : Int) (hstep : step ≤ 0) :
    ∀ (fuel : Nat) (t : Time), t ≤ endAt → intervalTimes fuel t endAt step = none := by
  intro fuel
  induction fuel with
  | zero => intro t _; rfl
  | succ f ih =>
    intro t ht
    have hc : (Time.Before t endAt || Time.Equal t endAt) = true := by
      simp only [Time.Before, Time.Equal, Bool.or_eq_true, decide_eq_true_eq]
      exact lt_or_eq_of_le ht
    have hnext : t.Add step ≤ endAt := by
      simp only [Time.Add]
      linarith
    simp only [intervalTimes, hc, if_true, ih (t.Add step) hnext]

theorem intervalTimes_empty (beginAt endAt : Time) (step : Int) (h : endAt < beginAt)
    (fuel : Nat) (hfuel : 1 ≤ fuel) : intervalTimes fuel beginAt endAt step = some [] := by
  have := intervalTimes_spec step endAt 0 fuel beginAt (by intro i hi; omega)
    (by simpa using h) (by omega)
  simpa using this

theorem intervalTimes_positive (beginAt endAt : Time) (step : Int) (hstep : 0 < step)
    (hbe : beginAt ≤ endAt) (fuel : Nat)
    (hfuel : ((endAt - beginAt) / step).toNat + 2 ≤ fuel) :
    intervalTimes fuel beginAt endAt step =
      some ((List.range (((endAt - beginAt) / step).toNat + 1)).map
        (fun i : Nat => beginAt + i * step)) := by
  have hd : 0 ≤ endAt - beginAt := sub_nonneg.2 hbe
  have hq : 0 ≤ (endAt - beginAt) / step := Int.ediv_nonneg hd (le_of_lt hstep)
  have hn : (((endAt - beginAt) / step).toNat : Int) = (endAt - beginAt) / step :=
    Int.toNat_of_nonneg hq
  have hlow : (endAt - beginAt) / step * step ≤ endAt - beginAt :=
    Int.ediv_mul_le _ (ne_of_gt hstep)
  have hhigh : endAt - beginAt < ((endAt - beginAt) / step + 1) * step :=
    Int.lt_ediv_add_one_mul_self _ hstep
  generalize hnn : ((endAt - beginAt) / step).toNat = n at *
  exact intervalTimes_spec step endAt (n + 1) fuel beginAt
    (by
      intro i hi
      have h1 : (i : Int) ≤ n := by exact_mod_cast Nat.lt_succ_iff.1 hi
      have h2 : (i : Int) * step ≤ (n : Int) * step :=
        mul_le_mul_of_nonneg_right h1 (le_of_lt hstep)
      rw [hn] at h2
      linarith)
    (by push_cast; rw [hn]; linarith)
    (by omega)

/-- C20, amended. The instant-generating loop of `IntervalSnapshots`, with the
step `intervalInSec * 10^9` wrapped to 64 bits: when `beginAt > endAt` it ends
after one test of its condition without an iteration, whatever the interval;
when `beginAt ≤ endAt` and the wrapped step is positive it ends after
`floor((endAt - beginAt) / step) + 1` iterations; the wrapped step is positive,
and equal to `intervalInSec * 10^9`, for every `intervalInSec ≥ 1` whose
product with `10^9` is below `2^63`; and when `beginAt ≤ endAt` and the wrapped
step is zero or negative the loop is still running after any number of tests. -/
theorem C20_interval_loop_termination (beginAt endAt : Time) (intervalInSec : Int) :
    (endAt < beginAt → ∀ fuel, 1 ≤ fuel →
      intervalTimes fuel beginAt endAt (intervalStep intervalInSec) = some []) ∧
    (beginAt ≤ endAt → 0 < intervalStep intervalInSec → ∀ fuel,
      ((endAt - beginAt) / intervalStep intervalInSec).toNat + 2 ≤ fuel →
      ∃ times, intervalTimes fuel beginAt endAt (intervalStep intervalInSec) = some times ∧
        times.length = ((endAt - beginAt) / intervalStep intervalInSec).toNat + 1) ∧
    (1 ≤ intervalInSec → intervalInSec * Second < 2 ^ 63 →
      intervalStep intervalInSec = intervalInSec * Second ∧ 0 < intervalStep intervalInSec) ∧
    (beginAt ≤ endAt → intervalStep intervalInSec ≤ 0 → ∀ fuel,
      intervalTimes fuel beginAt endAt (intervalStep intervalInSec) = none) := by
  refine ⟨fun h fuel hfuel => intervalTimes_empty beginAt endAt _ h fuel hfuel, ?_, ?_, ?_⟩
  · intro hbe hstep fuel hfuel
    refine ⟨_, intervalTimes_positive beginAt endAt _ hstep hbe fuel hfuel, ?_⟩
    simp
  · intro hk hfit
    have he := intervalStep_eq intervalInSec hk hfit
    refine ⟨he, ?_⟩
    rw [he]
    have : (0 : Int) < Second := by decide
    exact mul_pos (by linarith) this
  · intro hbe hstep fuel
    exact intervalTimes_stuck endAt _ hstep fuel beginAt hbe

/-- C20, witness: a two-second interval over the window from 10 to 10 plus seven
seconds ends after four iterations; over a reversed window, after none. -/
theorem C20_interval_loop_termination_witness :
    (∃ times, intervalTimes 100 10 (10 + 7 * Second) (intervalStep 2) = some times ∧
      times.length = 4) ∧
    intervalTimes 1 30 10 (intervalStep 2) = some [] := by
  have h := C20_interval_loop_termination 10 (10 + 7 * Second) 2
  have h2 := C20_interval_loop_termination 30 10 2
  refine ⟨?_, h2.1 (by decide) 1 (by decide)⟩
  obtain ⟨times, ht, hl⟩ := h.2.1 (by decide) (by decide) 100 (by decide)
  exact ⟨times, ht, by rw [hl]; decide⟩

/-- C20, counterexample. For `intervalInSec = 2^55`, a 64-bit value that is at
least 1, the wrapped step is 0, and for `intervalInSec = 9223372037` it is
negative; with `beginAt = endAt = 0` the loop is then still running after any
number of tests of its condition. -/
theorem C20_counterexample_wrapped_step :
    ((1 : Int) ≤ 2 ^ 55 ∧ (2 : Int) ^ 55 < 2 ^ 63 ∧ intervalStep (2 ^ 55) = 0 ∧
      ¬ ∃ fuel times, intervalTimes fuel 0 0 (intervalStep (2 ^ 55)) = some times) ∧
    ((1 : Int) ≤ 9223372037 ∧ (9223372037 : Int) < 2 ^ 63 ∧ intervalStep 9223372037 < 0 ∧
      ¬ ∃ fuel times, intervalTimes fuel 0 0 (intervalStep 9223372037) = some times) := by
  refine ⟨⟨by decide, by decide, by decide, ?_⟩, ⟨by decide, by decide, by decide, ?_⟩⟩
  · rintro ⟨fuel, times, h⟩
    rw [intervalTimes_stuck 0 _ (by decide) fuel 0 (le_refl _)] at h
    cases h
  · rintro ⟨fuel, times, h⟩
    rw [intervalTimes_stuck 0 _ (by decide) fuel 0 (le_refl _)] at h
    cases h

/-! ## validation failures of the stamping loops -/

theorem stampNodeSnapshots_error (clock : Nat → Time) (nodeID : String)
    (snaps : List NodeSnapshot) :
    ∀ tick, (∃ s ∈ snaps, s.Timestamp = 0) →
      ∃ tick1 e, stampNodeSnapshots clock nodeID tick snaps = (tick1, .error e) ∧
        tick ≤ tick1 := by
  induction snaps with
  | nil => intro tick h; obtain ⟨s, hs, _⟩ := h; simp at hs
  | cons x xs ih =>
    intro tick h
    by_cases hx : x.Timestamp = 0
    · exact ⟨tick, "unable to upsert NodeSnapshot vertex since timestamp is zero",
        by simp [stampNodeSnapshots, Time.IsZero, hx], le_refl _⟩
    · have hrest : ∃ s ∈ xs, s.Timestamp = 0 := by
        obtain ⟨s, hs, hz⟩ := h
        rcases List.mem_cons.1 hs with rfl | hs
        · exact absurd hz hx
        · exact ⟨s, hs, hz⟩
      obtain ⟨tick1, e, he, hle⟩ := ih (tick + 1) hrest
      exact ⟨tick1, e, by simp [stampNodeSnapshots, Time.IsZero, hx, he], by omega⟩

theorem stampPodSnapshots_error (clock : Nat → Time) (nodeID podID : String)
    (snaps : List PodSnapshot) :
    ∀ tick, (∃ s ∈ snaps, s.Timestamp = 0) →
      ∃ tick1 e, stampPodSnapshots clock nodeID podID tick snaps = (tick1, .error e) ∧
        tick ≤ tick1 := by
  induction snaps with
  | nil => intro tick h; obtain ⟨s, hs, _⟩ := h; simp at hs
  | cons x xs ih =>
    intro tick h
    by_cases hx : x.Timestamp = 0
    · exact ⟨tick, "unable to upsert PodSnapshot vertex since timestamp is zero",
        by simp [stampPodSnapshots, Time.IsZero, hx], le_refl _⟩
    · have hrest : ∃ s ∈ xs, s.Timestamp = 0 := by
        obtain ⟨s, hs, hz⟩ := h
        rcases List.mem_cons.1 hs with rfl | hs
        · exact absurd hz hx
        · exact ⟨s, hs, hz⟩
      obtain ⟨tick1, e, he, hle⟩ := ih (tick + 1) hrest
      exact ⟨tick1, e, by simp [stampPodSnapshots, Time.IsZero, hx, he], by omega⟩

/-- A zero timestamp anywhere in the list: an error, and the table as it was. -/
theorem UpsertNodeSnapshots_zero {σ : Type} (t : Table σ) (clock : Nat → Time) (w : World σ)
    (nodeID : String) (snaps : List NodeSnapshot) (h : ∃ s ∈ snaps, s.Timestamp = 0) :
    (∃ e, (UpsertNodeSnapshots t clock w nodeID snaps).2 = some e) ∧
    (UpsertNodeSnapshots t clock w nodeID snaps).1.table = w.table ∧
    w.tick ≤ (UpsertNodeSnapshots t clock w nodeID snaps).1.tick := by
  obtain ⟨tick1, e, he, hle⟩ := stampNodeSnapshots_error clock nodeID snaps w.tick h
  unfold UpsertNodeSnapshots
  rw [he]
  exact ⟨⟨e, rfl⟩, rfl, hle⟩

theorem UpsertPodSnapshots_zero {σ : Type} (t : Table σ) (clock : Nat → Time) (w : World σ)
    (nodeID podID : String) (snaps : List PodSnapshot) (h : ∃ s ∈ snaps, s.Timestamp = 0) :
    (∃ e, (UpsertPodSnapshots t clock w nodeID podID snaps).2 = some e) ∧
    (UpsertPodSnapshots t clock w nodeID podID snaps).1.table = w.table ∧
    w.tick ≤ (UpsertPodSnapshots t clock w nodeID podID snaps).1.tick := by
  obtain ⟨tick1, e, he, hle⟩ := stampPodSnapshots_error clock nodeID podID snaps w.tick h
  unfold UpsertPodSnapshots
  rw [he]
  exact ⟨⟨e, rfl⟩, rfl, hle⟩

/-- C12. For every table `t`, run with a log of the rows submitted, every clock,
state and owner ids: when some snapshot of the list has a zero timestamp,
`UpsertNodeSnapshots` and `UpsertPodSnapshots` return an error and leave both
the table and the log of submitted rows as they were: no batch write is issued. -/
theorem C12_zero_timestamp_no_batch {σ : Type} (t : Table σ) (clock : Nat → Time)
    (w : World (σ × List Item)) (nodeID podID : String) (ns : List NodeSnapshot)
    (ps : List PodSnapshot) (hn : ∃ s ∈ ns, s.Timestamp = 0)
    (hp : ∃ s ∈ ps, s.Timestamp = 0) :
    ((∃ e, (UpsertNodeSnapshots (logged t) clock w nodeID ns).2 = some e) ∧
      (UpsertNodeSnapshots (logged t) clock w nodeID ns).1.table.1 = w.table.1 ∧
      (UpsertNodeSnapshots (logged t) clock w nodeID ns).1.table.2 = w.table.2) ∧
    ((∃ e, (UpsertPodSnapshots (logged t) clock w nodeID podID ps).2 = some e) ∧
      (UpsertPodSnapshots (logged t) clock w nodeID podID ps).1.table.1 = w.table.1 ∧
      (UpsertPodSnapshots (logged t) clock w nodeID podID ps).1.table.2 = w.table.2) := by
  obtain ⟨h1, h2, _⟩ := UpsertNodeSnapshots_zero (logged t) clock w nodeID ns hn
  obtain ⟨h3, h4, _⟩ := UpsertPodSnapshots_zero (logged t) clock w nodeID podID ps hp
  exact ⟨⟨h1, by rw [h2], by rw [h2]⟩, ⟨h3, by rw [h4], by rw [h4]⟩⟩

/-- C12, witness: the zero timestamp in last place, after a valid snapshot. -/
theorem C12_zero_timestamp_no_batch_witness :
    ((∃ e, (UpsertNodeSnapshots (logged mapTable) sampleClock ⟨([], []), 0⟩ "n1"
        [mkNodeSnapshot 10 NodeStateReady, mkNodeSnapshot 0 NodeStateReady]).2 = some e) ∧
      (UpsertNodeSnapshots (logged mapTable) sampleClock ⟨([], []), 0⟩ "n1"
        [mkNodeSnapshot 10 NodeStateReady, mkNodeSnapshot 0 NodeStateReady]).1.table.2 = []) ∧
    ((∃ e, (UpsertPodSnapshots (logged mapTable) sampleClock ⟨([], []), 0⟩ "n1" "a"
        [mkPodSnapshot 10 PodPhaseRunning, mkPodSnapshot 0 PodPhaseRunning]).2 = some e) ∧
      (UpsertPodSnapshots (logged mapTable) sampleClock ⟨([], []), 0⟩ "n1" "a"
        [mkPodSnapshot 10 PodPhaseRunning, mkPodSnapshot 0 PodPhaseRunning]).1.table.2 = []) := by
  have h := C12_zero_timestamp_no_batch mapTable sampleClock ⟨([], []), 0⟩ "n1" "a"
    [mkNodeSnapshot 10 NodeStateReady, mkNodeSnapshot 0 NodeStateReady]
    [mkPodSnapshot 10 PodPhaseRunning, mkPodSnapshot 0 PodPhaseRunning]
    ⟨mkNodeSnapshot 0 NodeStateReady, by decide, rfl⟩
    ⟨mkPodSnapshot 0 PodPhaseRunning, by decide, rfl⟩
  exact ⟨⟨h.1.1, h.1.2.2⟩, ⟨h.2.1, h.2.2.2⟩⟩

/-! ## the rows the store submits -/

theorem mem_keyedNodeSnapshots_tick (clock : Nat → Time) (nodeID : String)
    (snaps : List NodeSnapshot) (x : NodeSnapshot) :
    ∀ tick, x ∈ keyedNodeSnapshots clock nodeID tick snaps →
      ∃ s ∈ snaps, ∃ k, tick ≤ k ∧ k < tick + snaps.length ∧
        x = ({ s with ExpireAt := (clock k).Add ttl }).SetDynamoAttributes nodeID := by
  induction snaps with
  | nil => intro tick hx; simp [keyedNodeSnapshots] at hx
  | cons y ys ih =>
    intro tick hx
    simp only [keyedNodeSnapshots, List.mem_cons] at hx
    rcases hx with hx | hx
    · exact ⟨y, by simp, tick, le_refl _, by simp, hx⟩
    · obtain ⟨s, hs, k, h1, h2, he⟩ := ih (tick + 1) hx
      exact ⟨s, by simp [hs], k, by omega, by simp only [List.length_cons]; omega, he⟩

theorem mem_keyedPodSnapshots_tick (clock : Nat → Time) (nodeID podID : String)
    (snaps : List PodSnapshot) (x : PodSnapshot) :
    ∀ tick, x ∈ keyedPodSnapshots clock nodeID podID tick snaps →
      ∃ s ∈ snaps, ∃ k, tick ≤ k ∧ k < tick + snaps.length ∧
        x = ({ s with ExpireAt := (clock k).Add ttl }).SetDynamoAttributes nodeID podID := by
  induction snaps with
  | nil => intro tick hx; simp [keyedPodSnapshots] at hx
  | cons y ys ih =>
    intro tick hx
    simp only [keyedPodSnapshots, List.mem_cons] at hx
    rcases hx with hx | hx
    · exact ⟨y, by simp, tick, le_refl _, by simp, hx⟩
    · obtain ⟨s, hs, k, h1, h2, he⟩ := ih (tick + 1) hx
      exact ⟨s, by simp [hs], k, by omega, by simp only [List.length_cons]; omega, he⟩

theorem IsSnapshotRowOf_mono {clock : Nat → Time} {nodeID podID : String}
    {snaps : List PodSnapshot} {lo hi lo2 hi2 : Nat} {i : Item}
    (h : IsSnapshotRowOf clock nodeID podID snaps lo hi i) (hlo : lo2 ≤ lo) (hhi : hi ≤ hi2) :
    IsSnapshotRowOf clock nodeID podID snaps lo2 hi2 i := by
  obtain ⟨s, hs, k, h1, h2, he⟩ := h
  exact ⟨s, hs, k, by omega, by omega, he⟩

theorem IsNodeSnapshotRow_mono {clock : Nat → Time} {nodeID : String}
    {snaps : List NodeSnapshot} {lo hi lo2 hi2 : Nat} {i : Item}
    (h : IsNodeSnapshotRow clock nodeID snaps lo hi i) (hlo : lo2 ≤ lo) (hhi : hi ≤ hi2) :
    IsNodeSnapshotRow clock nodeID snaps lo2 hi2 i := by
  obtain ⟨s, hs, k, h1, h2, he⟩ := h
  exact ⟨s, hs, k, by omega, by omega, he⟩

theorem IsPodSnapshotRow_mono {clock : Nat → Time} {nodeID : String}
    {pods : List PodMeta} {lo hi lo2 hi2 : Nat} {i : Item}
    (h : IsPodSnapshotRow clock nodeID pods lo hi i) (hlo : lo2 ≤ lo) (hhi : hi ≤ hi2) :
    IsPodSnapshotRow clock nodeID pods lo2 hi2 i := by
  obtain ⟨p, hp, hid, hrow⟩ := h
  exact ⟨p, hp, hid, IsSnapshotRowOf_mono hrow hlo hhi⟩

theorem IsPodMetaRow_mono {clock : Nat → Time} {nodeID : String}
    {pods : List PodMeta} {lo hi lo2 hi2 : Nat} {i : Item}
    (h : IsPodMetaRow clock nodeID pods lo hi i) (hlo : lo2 ≤ lo) (hhi : hi ≤ hi2) :
    IsPodMetaRow clock nodeID pods lo2 hi2 i := by
  obtain ⟨hall, p, hp, k, h1, h2, he⟩ := h
  exact ⟨hall, p, hp, k, by omega, by omega, he⟩

/-- What `UpsertNodeSnapshots` submits: nothing, or the stamped and keyed batch. -/
theorem UpsertNodeSnapshots_rows {σ : Type} (t : Table σ) (clock : Nat → Time)
    (w : World (σ × List Item)) (nodeID : String) (snaps : List NodeSnapshot) :
    w.tick ≤ (UpsertNodeSnapshots (logged t) clock w nodeID snaps).1.tick ∧
    ∃ added, (UpsertNodeSnapshots (logged t) clock w nodeID snaps).1.table.2 = w.table.2 ++ added ∧
      ∀ i ∈ added, IsNodeSnapshotRow clock nodeID snaps w.tick
        (UpsertNodeSnapshots (logged t) clock w nodeID snaps).1.tick i := by
  by_cases hz : ∃ s ∈ snaps, s.Timestamp = 0
  · obtain ⟨_, h2, h3⟩ := UpsertNodeSnapshots_zero (logged t) clock w nodeID snaps hz
    exact ⟨h3, [], by rw [h2]; simp, by intro i hi; simp at hi⟩
  · have hnz : ∀ s ∈ snaps, s.Timestamp ≠ 0 := fun s hs h0 => hz ⟨s, hs, h0⟩
    have hres : ∃ s1 e, UpsertNodeSnapshots (logged t) clock w nodeID snaps =
        (⟨(s1, w.table.2 ++ (keyedNodeSnapshots clock nodeID w.tick snaps).map Item.nodeSnapshot),
          w.tick + snaps.length⟩, e) := by
      unfold UpsertNodeSnapshots
      rw [stampNodeSnapshots_ok clock nodeID snaps w.tick hnz]
      simp only [keyedNodeSnapshots_length]
      by_cases hl : snaps.length > 0
      · simp only [hl, if_true]
        rcases hb : t.BatchPut w.table.1
          ((keyedNodeSnapshots clock nodeID w.tick snaps).map Item.nodeSnapshot) with ⟨s1, wc, err⟩
        have hlog : (logged t).BatchPut w.table
            ((keyedNodeSnapshots clock nodeID w.tick snaps).map Item.nodeSnapshot) =
            ((s1, w.table.2 ++ (keyedNodeSnapshots clock nodeID w.tick snaps).map
              Item.nodeSnapshot), wc, err) := by
          simp [logged, hb]
        rw [hlog]
        cases err with
        | some e => exact ⟨s1, _, rfl⟩
        | none =>
          by_cases hwc : wc = (snaps.length : Int)
          · simp only [hwc, ne_eq, not_true_eq_false, if_false]
            exact ⟨s1, _, rfl⟩
          · simp only [ne_eq, hwc, not_false_eq_true, if_true]
            exact ⟨s1, _, rfl⟩
      · have : snaps = [] := List.length_eq_zero.1 (by omega)
        subst this
        simp only [List.length_nil, gt_iff_lt, lt_self_iff_false, if_false, keyedNodeSnapshots,
          List.map_nil, List.append_nil, Nat.add_zero]
        exact ⟨w.table.1, none, rfl⟩
    obtain ⟨s1, e, he⟩ := hres
    rw [he]
    refine ⟨by simp, _, rfl, ?_⟩
    intro i hi
    obtain ⟨x, hx, rfl⟩ := List.mem_map.1 hi
    obtain ⟨s, hs, k, h1, h2, rfl⟩ := mem_keyedNodeSnapshots_tick clock nodeID snaps x _ hx
    exact ⟨s, hs, k, h1, h2, rfl⟩

/-- What `UpsertPodSnapshots` submits: nothing, or the stamped and keyed batch. -/
theorem UpsertPodSnapshots_rows {σ : Type} (t : Table σ) (clock : Nat → Time)
    (w : World (σ × List Item)) (nodeID podID : String) (snaps : List PodSnapshot) :
    w.tick ≤ (UpsertPodSnapshots (logged t) clock w nodeID podID snaps).1.tick ∧
    ∃ added, (UpsertPodSnapshots (logged t) clock w nodeID podID snaps).1.table.2 =
        w.table.2 ++ added ∧
      ∀ i ∈ added, IsSnapshotRowOf clock nodeID podID snaps w.tick
        (UpsertPodSnapshots (logged t) clock w nodeID podID snaps).1.tick i := by
  by_cases hz : ∃ s ∈ snaps, s.Timestamp = 0
  · obtain ⟨_, h2, h3⟩ := UpsertPodSnapshots_zero (logged t) clock w nodeID podID snaps hz
    exact ⟨h3, [], by rw [h2]; simp, by intro i hi; simp at hi⟩
  · have hnz : ∀ s ∈ snaps, s.Timestamp ≠ 0 := fun s hs h0 => hz ⟨s, hs, h0⟩
    have hres : ∃ s1 e, UpsertPodSnapshots (logged t) clock w nodeID podID snaps =
        (⟨(s1, w.table.2 ++
            (keyedPodSnapshots clock nodeID podID w.tick snaps).map Item.podSnapshot),
          w.tick + snaps.length⟩, e) := by
      unfold UpsertPodSnapshots
      rw [stampPodSnapshots_ok clock nodeID podID snaps w.tick hnz]
      simp only [keyedPodSnapshots_length]
      by_cases hl : snaps.length > 0
      · simp only [hl, if_true]
        rcases hb : t.BatchPut w.table.1
          ((keyedPodSnapshots clock nodeID podID w.tick snaps).map Item.podSnapshot)
          with ⟨s1, wc, err⟩
        have hlog : (logged t).BatchPut w.table
            ((keyedPodSnapshots clock nodeID podID w.tick snaps).map Item.podSnapshot) =
            ((s1, w.table.2 ++ (keyedPodSnapshots clock nodeID podID w.tick snaps).map
              Item.podSnapshot), wc, err) := by
          simp [logged, hb]
        rw [hlog]
        cases err with
        | some e => exact ⟨s1, _, rfl⟩
        | none =>
          by_cases hwc : wc = (snaps.length : Int)
          · simp only [hwc, ne_eq, not_true_eq_false, if_false]
            exact ⟨s1, _, rfl⟩
          · simp only [ne_eq, hwc, not_false_eq_true, if_true]
            exact ⟨s1, _, rfl⟩
      · have : snaps = [] := List.length_eq_zero.1 (by omega)
        subst this
        simp only [List.length_nil, gt_iff_lt, lt_self_iff_false, if_false, keyedPodSnapshots,
          List.map_nil, List.append_nil, Nat.add_zero]
        exact ⟨w.table.1, none, rfl⟩
    obtain ⟨s1, e, he⟩ := hres
    rw [he]
    refine ⟨by simp, _, rfl, ?_⟩
    intro i hi
    obtain ⟨x, hx, rfl⟩ := List.mem_map.1 hi
    obtain ⟨s, hs, k, h1, h2, rfl⟩ := mem_keyedPodSnapshots_tick clock nodeID podID snaps x _ hx
    exact ⟨s, hs, k, h1, h2, rfl⟩

theorem upsertPodMetasLoop_cons_empty {σ : Type} (t : Table σ) (clock : Nat → Time)
    (nodeID : String) (w : World σ) (p : PodMeta) (rest : List PodMeta) (hp : p.ID.length = 0) :
    upsertPodMetasLoop t clock nodeID w (p :: rest) =
      (w, .error "unable to upsert PodMetas vertex since pod meta ID is empty") := by
  simp [upsertPodMetasLoop, hp]

theorem upsertPodMetasLoop_cons {σ : Type} (t : Table σ) (clock : Nat → Time)
    (nodeID : String) (w : World σ) (p : PodMeta) (rest : List PodMeta) (hp : ¬ p.ID.length = 0) :
    upsertPodMetasLoop t clock nodeID w (p :: rest) =
      match UpsertPodSnapshots t clock ⟨w.table, w.tick + 1⟩ nodeID p.ID p.Snapshots with
      | (w1, some err) => (w1, .error err)
      | (w1, none) =>
        match upsertPodMetasLoop t clock nodeID w1 rest with
        | (w2, .ok items) =>
          (w2, .ok (({ p with ExpireAt := (clock w.tick).Add ttl }).SetDynamoAttributes nodeID
            :: items))
        | (w2, .error e) => (w2, .error e) := by
  simp only [upsertPodMetasLoop, hp, if_false, PodMeta.SetDynamoAttributes]
  try rfl

/-- What the loop of `UpsertPodMetas` submits and returns. -/
theorem upsertPodMetasLoop_rows {σ : Type} (t : Table σ) (clock : Nat → Time)
    (nodeID : String) (pods : List PodMeta) :
    ∀ w : World (σ × List Item),
      w.tick ≤ (upsertPodMetasLoop (logged t) clock nodeID w pods).1.tick ∧
      (∃ added, (upsertPodMetasLoop (logged t) clock nodeID w pods).1.table.2 =
          w.table.2 ++ added ∧
        ∀ i ∈ added, IsPodSnapshotRow clock nodeID pods w.tick
          (upsertPodMetasLoop (logged t) clock nodeID w pods).1.tick i) ∧
      (∀ items, (upsertPodMetasLoop (logged t) clock nodeID w pods).2 = .ok items →
        (∀ p ∈ pods, p.ID ≠ "") ∧
        ∀ x ∈ items, ∃ p ∈ pods, ∃ k, w.tick ≤ k ∧
          k < (upsertPodMetasLoop (logged t) clock nodeID w pods).1.tick ∧
          x = ({ p with ExpireAt := (clock k).Add ttl }).SetDynamoAttributes nodeID) := by
  induction pods with
  | nil =>
    intro w
    refine ⟨le_refl _, ⟨[], by simp [upsertPodMetasLoop], by intro i hi; simp at hi⟩, ?_⟩
    intro items hi
    simp only [upsertPodMetasLoop] at hi
    cases hi
    exact ⟨by intro p hp; simp at hp, by intro x hx; simp at hx⟩
  | cons p rest ih =>
    intro w
    by_cases hp : p.ID.length = 0
    · rw [upsertPodMetasLoop_cons_empty (logged t) clock nodeID w p rest hp]
      refine ⟨le_refl _, ⟨[], by simp, by intro i hi; simp at hi⟩, ?_⟩
      intro items hi
      cases hi
    · have hpid : p.ID ≠ "" := fun h => hp ((length_eq_zero_iff_empty p.ID).2 h)
      rw [upsertPodMetasLoop_cons (logged t) clock nodeID w p rest hp]
      obtain ⟨hU1, addedU, hU2, hU3⟩ := UpsertPodSnapshots_rows t clock ⟨w.table, w.tick + 1⟩
        nodeID p.ID p.Snapshots
      rcases hU : UpsertPodSnapshots (logged t) clock ⟨w.table, w.tick + 1⟩ nodeID p.ID
        p.Snapshots with ⟨w1, err⟩
      rw [hU] at hU1 hU2 hU3
      simp only at hU1 hU2 hU3
      have hheadrows : ∀ hi2, w1.tick ≤ hi2 → ∀ i ∈ addedU,
          IsPodSnapshotRow clock nodeID (p :: rest) w.tick hi2 i := by
        intro hi2 hle i hi
        exact ⟨p, by simp, hpid, IsSnapshotRowOf_mono (hU3 i hi) (by omega) hle⟩
      cases err with
      | some e =>
        simp only
        refine ⟨by omega, ⟨addedU, hU2, hheadrows _ (le_refl _)⟩, ?_⟩
        intro items hi
        cases hi
      | none =>
        simp only
        obtain ⟨hL1, ⟨addedL, hL2, hL3⟩, hL4⟩ := ih w1
        rcases hL : upsertPodMetasLoop (logged t) clock nodeID w1 rest with ⟨w2, res⟩
        rw [hL] at hL1 hL2 hL3 hL4
        simp only at hL1 hL2 hL3 hL4
        have hrows : ∃ added, w2.table.2 = w.table.2 ++ added ∧
            ∀ i ∈ added, IsPodSnapshotRow clock nodeID (p :: rest) w.tick w2.tick i := by
          refine ⟨addedU ++ addedL, by rw [hL2, hU2, List.append_assoc], ?_⟩
          intro i hi
          rcases List.mem_append.1 hi with hi | hi
          · exact hheadrows _ hL1 i hi
          · obtain ⟨q, hq, hqid, hrow⟩ := hL3 i hi
            exact ⟨q, by simp [hq], hqid, IsSnapshotRowOf_mono hrow (by omega) (le_refl _)⟩
        cases res with
        | error e =>
          simp only
          refine ⟨by omega, hrows, ?_⟩
          intro items hi
          cases hi
        | ok items0 =>
          simp only
          refine ⟨by omega, hrows, ?_⟩
          intro items hi
          cases hi
          obtain ⟨hall, hitems⟩ := hL4 items0 rfl
          refine ⟨?_, ?_⟩
          · intro q hq
            rcases List.mem_cons.1 hq with rfl | hq
            · exact hpid
            · exact hall q hq
          · intro x hx
            rcases List.mem_cons.1 hx with rfl | hx
            · exact ⟨p, by simp, w.tick, le_refl _, by omega, rfl⟩
            · obtain ⟨q, hq, k, h1, h2, he⟩ := hitems x hx
              exact ⟨q, by simp [hq], k, by omega, h2, he⟩

/-- What `UpsertPodMetas` submits: pod snapshot rows of pods that have an id,
and, only when every pod has an id, pod meta rows. -/
theorem UpsertPodMetas_rows {σ : Type} (t : Table σ) (clock : Nat → Time)
    (w : World (σ × List Item)) (nodeID : String) (pods : List PodMeta) :
    w.tick ≤ (UpsertPodMetas (logged t) clock w nodeID pods).1.tick ∧
    (∃ added, (UpsertPodMetas (logged t) clock w nodeID pods).1.table.2 = w.table.2 ++ added ∧
      ∀ i ∈ added,
        IsPodSnapshotRow clock nodeID pods w.tick
          (UpsertPodMetas (logged t) clock w nodeID pods).1.tick i ∨
        IsPodMetaRow clock nodeID pods w.tick
          (UpsertPodMetas (logged t) clock w nodeID pods).1.tick i) ∧
    ((∃ p ∈ pods, p.ID = "") → ∃ e, (UpsertPodMetas (logged t) clock w nodeID pods).2 = some e) := by
  obtain ⟨hL1, ⟨addedL, hL2, hL3⟩, hL4⟩ := upsertPodMetasLoop_rows t clock nodeID pods w
  unfold UpsertPodMetas
  rcases hL : upsertPodMetasLoop (logged t) clock nodeID w pods with ⟨w1, res⟩
  rw [hL] at hL1 hL2 hL3 hL4
  simp only at hL1 hL2 hL3 hL4
  cases res with
  | error e =>
    simp only
    exact ⟨hL1, ⟨addedL, hL2, fun i hi => Or.inl (hL3 i hi)⟩, fun _ => ⟨e, rfl⟩⟩
  | ok items =>
    simp only
    obtain ⟨hall, hitems⟩ := hL4 items rfl
    have hno : ¬ ∃ p ∈ pods, p.ID = "" := fun ⟨p, hp, h0⟩ => hall p hp h0
    by_cases hl : items.length > 0
    · simp only [hl, if_true]
      rcases hb : t.BatchPut w1.table.1 (items.map Item.ofPodMeta) with ⟨s1, wc, err⟩
      have hlog : (logged t).BatchPut w1.table (items.map Item.ofPodMeta) =
          ((s1, w1.table.2 ++ items.map Item.ofPodMeta), wc, err) := by
        simp [logged, hb]
      rw [hlog]
      have hrows : ∃ added, w1.table.2 ++ items.map Item.ofPodMeta = w.table.2 ++ added ∧
          ∀ i ∈ added, IsPodSnapshotRow clock nodeID pods w.tick w1.tick i ∨
            IsPodMetaRow clock nodeID pods w.tick w1.tick i := by
        refine ⟨addedL ++ items.map Item.ofPodMeta, by rw [hL2, List.append_assoc], ?_⟩
        intro i hi
        rcases List.mem_append.1 hi with hi | hi
        · exact Or.inl (hL3 i hi)
        · obtain ⟨x, hx, rfl⟩ := List.mem_map.1 hi
          obtain ⟨q, hq, k, h1, h2, rfl⟩ := hitems x hx
          exact Or.inr ⟨hall, q, hq, k, h1, h2, rfl⟩
      cases err with
      | some e => exact ⟨hL1, hrows, fun h => absurd h hno⟩
      | none =>
        by_cases hwc : wc = (pods.length : Int)
        · simp only [hwc, ne_eq, not_true_eq_false, if_false]
          exact ⟨hL1, hrows, fun h => absurd h hno⟩
        · simp only [ne_eq, hwc, not_false_eq_true, if_true]
          exact ⟨hL1, hrows, fun h => absurd h hno⟩
    · simp only [hl, if_false]
      exact ⟨hL1, ⟨addedL, hL2, fun i hi => Or.inl (hL3 i hi)⟩, fun h => absurd h hno⟩

/-- What `Upsert` submits. -/
theorem Upsert_rows {σ : Type} (t : Table σ) (clock : Nat → Time)
    (w : World (σ × List Item)) (h : NodeMeta) :
    w.tick ≤ (Upsert (logged t) clock w h).1.tick ∧
    ∃ added, (Upsert (logged t) clock w h).1.table.2 = w.table.2 ++ added ∧
      ∀ i ∈ added, IsTreeRow clock h w.tick (Upsert (logged t) clock w h).1.tick i := by
  by_cases hid : h.ID.length = 0
  · have : Upsert (logged t) clock w h =
        (w, some "unable to upsert NodeMeta vertex since node ID is empty") := by
      simp [Upsert, hid]
    rw [this]
    exact ⟨le_refl _, [], by simp, by intro i hi; simp at hi⟩
  · have hne : h.ID ≠ "" := fun h0 => hid ((length_eq_zero_iff_empty h.ID).2 h0)
    unfold Upsert
    rw [if_neg hid]
    simp only [NodeMeta.SetDynamoAttributes]
    have hmeta : ∀ hi2, w.tick + 1 ≤ hi2 → IsTreeRow clock h w.tick hi2 (Item.ofNodeMeta
        { h with ExpireAt := (clock w.tick).Add ttl, TreeID := h.ID, TreePath := "root",
                 Type_ := "node_meta" }) :=
      fun hi2 hle => Or.inl ⟨hne, w.tick, le_refl _, by omega, rfl⟩
    generalize Item.ofNodeMeta
        { h with ExpireAt := (clock w.tick).Add ttl, TreeID := h.ID, TreePath := "root",
                 Type_ := "node_meta" } = row at hmeta ⊢
    rcases hb : t.Put w.table.1 row with ⟨s1, err⟩
    have hlog : (logged t).Put w.table row = ((s1, w.table.2 ++ [row]), err) := by
      simp [logged, hb]
    rw [hlog]
    cases err with
    | some e =>
      simp only
      refine ⟨by omega, [row], rfl, ?_⟩
      intro i hi
      rw [List.mem_singleton] at hi
      rw [hi]
      exact hmeta _ (le_refl _)
    | none =>
      simp only
      obtain ⟨hN1, addedN, hN2, hN3⟩ := UpsertNodeSnapshots_rows t clock
        ⟨(s1, w.table.2 ++ [row]), w.tick + 1⟩ h.ID h.Snapshots
      rcases hN : UpsertNodeSnapshots (logged t) clock
        ⟨(s1, w.table.2 ++ [row]), w.tick + 1⟩ h.ID h.Snapshots with ⟨w1, errN⟩
      rw [hN] at hN1 hN2 hN3
      simp only at hN1 hN2 hN3
      cases errN with
      | some e =>
        simp only
        refine ⟨by omega, row :: addedN, by rw [hN2]; simp, ?_⟩
        intro i hi
        rcases List.mem_cons.1 hi with rfl | hi
        · exact hmeta _ hN1
        · exact Or.inr (Or.inl (IsNodeSnapshotRow_mono (hN3 i hi) (by omega) (le_refl _)))
      | none =>
        simp only
        obtain ⟨hP1, ⟨addedP, hP2, hP3⟩, _⟩ := UpsertPodMetas_rows t clock w1 h.ID h.Pods
        refine ⟨by omega, row :: (addedN ++ addedP), by rw [hP2, hN2]; simp, ?_⟩
        intro i hi
        rcases List.mem_cons.1 hi with rfl | hi
        · exact hmeta _ (by omega)
        · rcases List.mem_append.1 hi with hi | hi
          · exact Or.inr (Or.inl (IsNodeSnapshotRow_mono (hN3 i hi) (by omega) hP1))
          · rcases hP3 i hi with hrow | hrow
            · exact Or.inr (Or.inr (Or.inl (IsPodSnapshotRow_mono hrow (by omega) (le_refl _))))
            · exact Or.inr (Or.inr (Or.inr (IsPodMetaRow_mono hrow (by omega) (le_refl _))))

theorem IsSnapshotRowOf_facts {clock : Nat → Time} {nodeID podID : String}
    {snaps : List PodSnapshot} {lo hi : Nat} {i : Item}
    (h : IsSnapshotRowOf clock nodeID podID snaps lo hi i) :
    IsStamped clock lo hi i.ExpireAt ∧
    ∃ s, i = Item.podSnapshot s ∧ s.Type_ = "pod_snapshot" ∧
      s.TreePath = nodeID ++ "#" ++ podID := by
  obtain ⟨s, _, k, h1, h2, rfl⟩ := h
  exact ⟨⟨k, h1, h2, rfl⟩, _, rfl, rfl, rfl⟩

theorem IsNodeSnapshotRow_facts {clock : Nat → Time} {nodeID : String}
    {snaps : List NodeSnapshot} {lo hi : Nat} {i : Item}
    (h : IsNodeSnapshotRow clock nodeID snaps lo hi i) :
    IsStamped clock lo hi i.ExpireAt ∧ i.Type_ = "node_snapshot" := by
  obtain ⟨s, _, k, h1, h2, rfl⟩ := h
  exact ⟨⟨k, h1, h2, rfl⟩, rfl⟩

theorem IsPodMetaRow_facts {clock : Nat → Time} {nodeID : String}
    {pods : List PodMeta} {lo hi : Nat} {i : Item}
    (h : IsPodMetaRow clock nodeID pods lo hi i) :
    IsStamped clock lo hi i.ExpireAt ∧ i.ID ≠ "" := by
  obtain ⟨hall, p, hp, k, h1, h2, rfl⟩ := h
  exact ⟨⟨k, h1, h2, rfl⟩, hall p hp⟩

theorem IsNodeMetaRow_facts {clock : Nat → Time} {h : NodeMeta} {lo hi : Nat} {i : Item}
    (hrow : IsNodeMetaRow clock h lo hi i) :
    IsStamped clock lo hi i.ExpireAt ∧ i.ID ≠ "" := by
  obtain ⟨hid, k, h1, h2, rfl⟩ := hrow
  exact ⟨⟨k, h1, h2, rfl⟩, hid⟩

theorem IsTreeRow_stamped {clock : Nat → Time} {h : NodeMeta} {lo hi : Nat} {i : Item}
    (hrow : IsTreeRow clock h lo hi i) : IsStamped clock lo hi i.ExpireAt := by
  rcases hrow with hrow | hrow | hrow | hrow
  · exact (IsNodeMetaRow_facts hrow).1
  · exact (IsNodeSnapshotRow_facts hrow).1
  · obtain ⟨p, _, _, hp⟩ := hrow
    exact (IsSnapshotRowOf_facts hp).1
  · exact (IsPodMetaRow_facts hrow).1

theorem IsPodSnapshotRow_not_meta {clock : Nat → Time} {nodeID : String}
    {pods : List PodMeta} {lo hi : Nat} {i : Item}
    (h : IsPodSnapshotRow clock nodeID pods lo hi i) :
    ¬ (i.Type_ = "node_meta" ∨ i.Type_ = "pod_meta") := by
  obtain ⟨p, _, _, hp⟩ := h
  obtain ⟨_, s, rfl, hty, _⟩ := IsSnapshotRowOf_facts hp
  simp only [Item.Type_, hty]
  decide

theorem IsTreeRow_meta_has_id {clock : Nat → Time} {h : NodeMeta} {lo hi : Nat} {i : Item}
    (hrow : IsTreeRow clock h lo hi i) (hty : i.Type_ = "node_meta" ∨ i.Type_ = "pod_meta") :
    i.ID ≠ "" := by
  rcases hrow with hrow | hrow | hrow | hrow
  · exact (IsNodeMetaRow_facts hrow).2
  · exfalso
    rw [(IsNodeSnapshotRow_facts hrow).2] at hty
    revert hty
    decide
  · exact absurd hty (IsPodSnapshotRow_not_meta hrow)
  · exact (IsPodMetaRow_facts hrow).2

/-- C11. For every table `t`, run with a log of the rows submitted, every clock
and state: (1) `Upsert` of a record with an empty host id returns an error and
leaves table, log and clock as they were; (2) `UpsertPodMetas` of a list in
which some workload has an empty id returns an error, and every row it has
submitted is a pod snapshot row of a workload of the list that has an id: no
pod meta row, no snapshot row of a workload without id; (3) whatever the
record `h2` and the list `pods2`, every row of kind `node_meta` or `pod_meta`
that `Upsert(h2)` or `UpsertPodMetas(pods2)` submits has a non-empty `ID`. -/
theorem C11_no_meta_row_without_id {σ : Type} (t : Table σ) (clock : Nat → Time)
    (w : World (σ × List Item)) (h : NodeMeta) (nodeID : String) (pods : List PodMeta)
    (hh : h.ID = "") (hp : ∃ p ∈ pods, p.ID = "") (h2 : NodeMeta) (pods2 : List PodMeta) :
    ((∃ e, (Upsert (logged t) clock w h).2 = some e) ∧ (Upsert (logged t) clock w h).1 = w) ∧
    ((∃ e, (UpsertPodMetas (logged t) clock w nodeID pods).2 = some e) ∧
      ∃ added, (UpsertPodMetas (logged t) clock w nodeID pods).1.table.2 = w.table.2 ++ added ∧
        ∀ i ∈ added, ∃ p ∈ pods, p.ID ≠ "" ∧ ∃ s, i = Item.podSnapshot s ∧
          s.Type_ = "pod_snapshot" ∧ s.TreePath = nodeID ++ "#" ++ p.ID) ∧
    ((∃ added, (Upsert (logged t) clock w h2).1.table.2 = w.table.2 ++ added ∧
        ∀ i ∈ added, (i.Type_ = "node_meta" ∨ i.Type_ = "pod_meta") → i.ID ≠ "") ∧
     (∃ added, (UpsertPodMetas (logged t) clock w nodeID pods2).1.table.2 = w.table.2 ++ added ∧
        ∀ i ∈ added, (i.Type_ = "node_meta" ∨ i.Type_ = "pod_meta") → i.ID ≠ "")) := by
  refine ⟨?_, ?_, ?_, ?_⟩
  · have : Upsert (logged t) clock w h =
        (w, some "unable to upsert NodeMeta vertex since node ID is empty") := by
      simp [Upsert, hh]
    rw [this]
    exact ⟨⟨_, rfl⟩, rfl⟩
  · obtain ⟨_, ⟨added, hlog, hrows⟩, herr⟩ := UpsertPodMetas_rows t clock w nodeID pods
    refine ⟨herr hp, added, hlog, ?_⟩
    intro i hi
    rcases hrows i hi with hrow | hrow
    · obtain ⟨p, hpm, hpid, hs⟩ := hrow
      obtain ⟨_, s, hs1, hs2, hs3⟩ := IsSnapshotRowOf_facts hs
      exact ⟨p, hpm, hpid, s, hs1, hs2, hs3⟩
    · obtain ⟨q, hq, h0⟩ := hp
      exact absurd h0 (hrow.1 q hq)
  · obtain ⟨_, added, hlog, hrows⟩ := Upsert_rows t clock w h2
    exact ⟨added, hlog, fun i hi hty => IsTreeRow_meta_has_id (hrows i hi) hty⟩
  · obtain ⟨_, ⟨added, hlog, hrows⟩, _⟩ := UpsertPodMetas_rows t clock w nodeID pods2
    refine ⟨added, hlog, ?_⟩
    intro i hi hty
    rcases hrows i hi with hrow | hrow
    · exact absurd hty (IsPodSnapshotRow_not_meta hrow)
    · exact (IsPodMetaRow_facts hrow).2

/-- C11, witness: a record without host id, and a list whose second workload has
no id, against the map-backed table: in the second case the only row submitted
is the snapshot row of the first workload. -/
theorem C11_no_meta_row_without_id_witness :
    (Upsert (logged mapTable) sampleClock ⟨([], []), 0⟩ (mkNode "" [] [])).1 = ⟨([], []), 0⟩ ∧
    (∃ e, (UpsertPodMetas (logged mapTable) sampleClock ⟨([], []), 0⟩ "n1"
      [mkPod "a" [mkPodSnapshot 10 PodPhaseRunning],
       mkPod "" [mkPodSnapshot 12 PodPhaseRunning]]).2 = some e) ∧
    ((UpsertPodMetas (logged mapTable) sampleClock ⟨([], []), 0⟩ "n1"
      [mkPod "a" [mkPodSnapshot 10 PodPhaseRunning],
       mkPod "" [mkPodSnapshot 12 PodPhaseRunning]]).1.table.2.map
        (fun i => (i.Type_, i.ID, i.TreePath))) = [("pod_snapshot", "a_10", "n1#a")] := by
  have h := C11_no_meta_row_without_id mapTable sampleClock ⟨([], []), 0⟩ (mkNode "" [] []) "n1"
    [mkPod "a" [mkPodSnapshot 10 PodPhaseRunning], mkPod "" [mkPodSnapshot 12 PodPhaseRunning]]
    rfl ⟨mkPod "" [mkPodSnapshot 12 PodPhaseRunning], by decide, rfl⟩ (mkNode "" [] []) []
  exact ⟨h.1.2, h.2.1.1, by decide⟩

/-- C17. `ttl` is 90 times 24 hours, that is 7,776,000 seconds; and for every
table `t`, run with a log of the rows submitted, every clock, state and
input, whatever `ExpireAt` the input carries: every row that `Upsert`,
`UpsertNodeSnapshots`, `UpsertPodMetas` or `UpsertPodSnapshots` submits has
`ExpireAt` equal to a clock reading taken during the call plus `ttl`. -/
theorem C17_rows_expire_after_ttl {σ : Type} (t : Table σ) (clock : Nat → Time)
    (w : World (σ × List Item)) (h : NodeMeta) (nodeID podID : String)
    (ns : List NodeSnapshot) (pods : List PodMeta) (ps : List PodSnapshot) :
    (ttl = 90 * (24 * Hour) ∧ ttl = 7776000 * Second) ∧
    (∃ added, (Upsert (logged t) clock w h).1.table.2 = w.table.2 ++ added ∧
      ∀ i ∈ added, IsStamped clock w.tick (Upsert (logged t) clock w h).1.tick i.ExpireAt) ∧
    (∃ added, (UpsertNodeSnapshots (logged t) clock w nodeID ns).1.table.2 = w.table.2 ++ added ∧
      ∀ i ∈ added, IsStamped clock w.tick
        (UpsertNodeSnapshots (logged t) clock w nodeID ns).1.tick i.ExpireAt) ∧
    (∃ added, (UpsertPodMetas (logged t) clock w nodeID pods).1.table.2 = w.table.2 ++ added ∧
      ∀ i ∈ added, IsStamped clock w.tick
        (UpsertPodMetas (logged t) clock w nodeID pods).1.tick i.ExpireAt) ∧
    (∃ added, (UpsertPodSnapshots (logged t) clock w nodeID podID ps).1.table.2 =
        w.table.2 ++ added ∧
      ∀ i ∈ added, IsStamped clock w.tick
        (UpsertPodSnapshots (logged t) clock w nodeID podID ps).1.tick i.ExpireAt) := by
  refine ⟨⟨by decide, by decide⟩, ?_, ?_, ?_, ?_⟩
  · obtain ⟨_, added, hlog, hrows⟩ := Upsert_rows t clock w h
    exact ⟨added, hlog, fun i hi => IsTreeRow_stamped (hrows i hi)⟩
  · obtain ⟨_, added, hlog, hrows⟩ := UpsertNodeSnapshots_rows t clock w nodeID ns
    exact ⟨added, hlog, fun i hi => (IsNodeSnapshotRow_facts (hrows i hi)).1⟩
  · obtain ⟨_, ⟨added, hlog, hrows⟩, _⟩ := UpsertPodMetas_rows t clock w nodeID pods
    refine ⟨added, hlog, ?_⟩
    intro i hi
    rcases hrows i hi with hrow | hrow
    · obtain ⟨p, _, _, hp⟩ := hrow
      exact (IsSnapshotRowOf_facts hp).1
    · exact (IsPodMetaRow_facts hrow).1
  · obtain ⟨_, added, hlog, hrows⟩ := UpsertPodSnapshots_rows t clock w nodeID podID ps
    exact ⟨added, hlog, fun i hi => (IsSnapshotRowOf_facts (hrows i hi)).1⟩

/-! ## the first loop of `Get`, row by row -/

theorem demuxStep_other (acc acc1 : Demux) (item : Item) (hty : item.Type_ ≠ "node_meta")
    (h : demuxStep acc item = .ok acc1) : acc1.nodeMeta = acc.nodeMeta := by
  unfold demuxStep at h
  rw [if_neg hty] at h
  split_ifs at h
  · cases hu : unmarshalNodeSnapshot item with
    | error e => rw [hu] at h; cases h
    | ok s => rw [hu] at h; cases h; rfl
  · cases hu : unmarshalPodMeta item with
    | error e => rw [hu] at h; cases h
    | ok s => rw [hu] at h; cases h; rfl
  · cases hu : unmarshalPodSnapshot item with
    | error e => rw [hu] at h; cases h
    | ok s => rw [hu] at h; cases h; rfl
  · cases h; rfl

theorem demuxStep_nodeMeta (acc acc1 : Demux) (item : Item) (hty : item.Type_ = "node_meta")
    (h : demuxStep acc item = .ok acc1) : acc1.nodeMeta.isSome = true := by
  unfold demuxStep at h
  rw [if_pos hty] at h
  cases hu : unmarshalNodeMeta item with
  | error e => rw [hu] at h; cases h
  | ok n => rw [hu] at h; cases h; rfl

theorem demuxStep_keeps (acc acc1 : Demux) (item : Item) (hacc : acc.nodeMeta.isSome = true)
    (h : demuxStep acc item = .ok acc1) : acc1.nodeMeta.isSome = true := by
  by_cases hty : item.Type_ = "node_meta"
  · exact demuxStep_nodeMeta acc acc1 item hty h
  · rw [demuxStep_other acc acc1 item hty h]; exact hacc

/-- Whether a row passes its turn does not depend on what was read before. -/
theorem demuxStep_ok_of_decodes (acc : Demux) (item : Item) (h : item.decodes = true) :
    ∃ acc1, demuxStep acc item = .ok acc1 := by
  unfold Item.decodes at h
  unfold demuxStep at h ⊢
  split_ifs at h ⊢
  · cases hu : unmarshalNodeMeta item with
    | error e => rw [hu] at h; simp at h
    | ok n => exact ⟨_, rfl⟩
  · cases hu : unmarshalNodeSnapshot item with
    | error e => rw [hu] at h; simp at h
    | ok n => exact ⟨_, rfl⟩
  · cases hu : unmarshalPodMeta item with
    | error e => rw [hu] at h; simp at h
    | ok n => exact ⟨_, rfl⟩
  · cases hu : unmarshalPodSnapshot item with
    | error e => rw [hu] at h; simp at h
    | ok n => exact ⟨_, rfl⟩
  · exact ⟨_, rfl⟩

theorem demux_without_nodeMeta (items : List Item) (hty : ∀ i ∈ items, i.Type_ ≠ "node_meta") :
    ∀ acc acc1 : Demux, demux acc items = .ok acc1 → acc1.nodeMeta = acc.nodeMeta := by
  induction items with
  | nil => intro acc acc1 h; simp only [demux] at h; cases h; rfl
  | cons x xs ih =>
    intro acc acc1 h
    rw [demux] at h
    cases hs : demuxStep acc x with
    | error e => rw [hs] at h; cases h
    | ok a =>
      rw [hs] at h
      simp only at h
      rw [ih (fun i hi => hty i (by simp [hi])) a acc1 h,
        demuxStep_other acc a x (hty x (by simp)) hs]

theorem demux_ok_of_decodes (items : List Item) (hdec : ∀ i ∈ items, i.decodes = true) :
    ∀ acc : Demux, ∃ acc1, demux acc items = .ok acc1 := by
  induction items with
  | nil => intro acc; exact ⟨acc, rfl⟩
  | cons x xs ih =>
    intro acc
    obtain ⟨a, ha⟩ := demuxStep_ok_of_decodes acc x (hdec x (by simp))
    obtain ⟨a1, ha1⟩ := ih (fun i hi => hdec i (by simp [hi])) a
    exact ⟨a1, by rw [demux, ha]; exact ha1⟩

theorem demux_keeps (items : List Item) :
    ∀ acc acc1 : Demux, acc.nodeMeta.isSome = true → demux acc items = .ok acc1 →
      acc1.nodeMeta.isSome = true := by
  induction items with
  | nil => intro acc acc1 hacc h; simp only [demux] at h; cases h; exact hacc
  | cons x xs ih =>
    intro acc acc1 hacc h
    rw [demux] at h
    cases hs : demuxStep acc x with
    | error e => rw [hs] at h; cases h
    | ok a =>
      rw [hs] at h
      exact ih a acc1 (demuxStep_keeps acc a x hacc hs) h

theorem demux_with_nodeMeta (items : List Item) (hex : ∃ i ∈ items, i.Type_ = "node_meta") :
    ∀ acc acc1 : Demux, demux acc items = .ok acc1 → acc1.nodeMeta.isSome = true := by
  induction items with
  | nil => obtain ⟨i, hi, _⟩ := hex; simp at hi
  | cons x xs ih =>
    intro acc acc1 h
    rw [demux] at h
    cases hs : demuxStep acc x with
    | error e => rw [hs] at h; cases h
    | ok a =>
      rw [hs] at h
      simp only at h
      by_cases hx : x.Type_ = "node_meta"
      · exact demux_keeps xs a acc1 (demuxStep_nodeMeta acc a x hx hs) h
      · obtain ⟨i, hi, hity⟩ := hex
        rcases List.mem_cons.1 hi with rfl | hi
        · exact absurd hity hx
        · exact ih ⟨i, hi, hity⟩ a acc1 h

/-- C13. For every table, state and host id, when the owner index answers the
query with the rows `items`: if no row is of kind `node_meta`, `Get` returns
an error, whatever other rows there are; if a row of kind `node_meta` is
among them and every row decodes, `Get` returns a record; so, when every row
decodes, `Get` returns an error exactly when no row of kind `node_meta` is
among them. -/
theorem C13_get_fails_without_node_meta {σ : Type} (t : Table σ) (w : World σ)
    (nodeID : String) (items : List Item) (hq : t.Query w.table nodeID = .ok items) :
    ((∀ i ∈ items, i.Type_ ≠ "node_meta") → ∃ e, Get t w nodeID = .error e) ∧
    ((∀ i ∈ items, i.decodes = true) → (∃ i ∈ items, i.Type_ = "node_meta") →
      ∃ r, Get t w nodeID = .ok r) ∧
    ((∀ i ∈ items, i.decodes = true) →
      ((∃ e, Get t w nodeID = .error e) ↔ ∀ i ∈ items, i.Type_ ≠ "node_meta")) := by
  have hnone : (∀ i ∈ items, i.Type_ ≠ "node_meta") → ∃ e, Get t w nodeID = .error e := by
    intro hty
    unfold Get
    rw [hq]
    simp only
    cases hd : demux ⟨none, [], [], []⟩ items with
    | error e => exact ⟨e, rfl⟩
    | ok acc =>
      have := demux_without_nodeMeta items hty _ acc hd
      simp only at this
      simp only [this]
      exact ⟨_, rfl⟩
  have hsome : (∀ i ∈ items, i.decodes = true) → (∃ i ∈ items, i.Type_ = "node_meta") →
      ∃ r, Get t w nodeID = .ok r := by
    intro hdec hex
    obtain ⟨acc, hd⟩ := demux_ok_of_decodes items hdec ⟨none, [], [], []⟩
    have hm := demux_with_nodeMeta items hex _ acc hd
    unfold Get
    rw [hq]
    simp only [hd]
    cases hn : acc.nodeMeta with
    | none => rw [hn] at hm; cases hm
    | some n => exact ⟨_, rfl⟩
  refine ⟨hnone, hsome, ?_⟩
  intro hdec
  constructor
  · rintro ⟨e, he⟩ i hi hity
    obtain ⟨r, hr⟩ := hsome hdec ⟨i, hi, hity⟩
    rw [hr] at he
    cases he
  · exact hnone

/-- C13, witness: the index returns no rows; it returns a node snapshot row and
a pod meta row but no node meta row; it returns the rows of `treePlain`. -/
theorem C13_get_fails_without_node_meta_witness :
    (∃ e, Get mapTable ⟨[], 0⟩ "n1" = .error e) ∧
    (∃ e, Get mapTable
      ⟨[Item.nodeSnapshot ((mkNodeSnapshot 10 NodeStateReady).SetDynamoAttributes "n1"),
        Item.ofPodMeta ((mkPod "a" []).SetDynamoAttributes "n1")], 0⟩ "n1" = .error e) ∧
    (∃ r, Get mapTable ⟨treeWrites sampleClock 0 treePlain, 0⟩ "n1" = .ok r) :=
  ⟨(C13_get_fails_without_node_meta mapTable ⟨[], 0⟩ "n1" [] rfl).1 (by decide),
   (C13_get_fails_without_node_meta mapTable
      ⟨[Item.nodeSnapshot ((mkNodeSnapshot 10 NodeStateReady).SetDynamoAttributes "n1"),
        Item.ofPodMeta ((mkPod "a" []).SetDynamoAttributes "n1")], 0⟩ "n1" _ rfl).1 (by decide),
   (C13_get_fails_without_node_meta mapTable ⟨treeWrites sampleClock 0 treePlain, 0⟩ "n1"
      _ rfl).2.1 (by decide) (by decide)⟩

/-! ## the recorder: from the input to the entity model -/

theorem deref_ok {α : Type} (o : Option α) (h : o.isSome = true) : ∃ a, deref o = .ok a := by
  cases o with
  | none => cases h
  | some a => exact ⟨a, rfl⟩

theorem transformToDataResource_ok (r : model.ContainerResourceInput)
    (h1 : r.CPU.isSome = true) (h2 : r.Memory.isSome = true)
    (h3 : r.EphemeralStorage.isSome = true) : ∃ y, transformToDataResource r = .ok y := by
  obtain ⟨a, ha⟩ := deref_ok _ h1
  obtain ⟨b, hb⟩ := deref_ok _ h2
  obtain ⟨c, hc⟩ := deref_ok _ h3
  simp only [transformToDataResource, ha, hb, hc]
  exact ⟨_, rfl⟩

theorem transformToDataState_ok (s : model.ContainerStateInput)
    (h1 : s.ExitCode.isSome = true) (h2 : s.FinishedAt.isSome = true)
    (h3 : s.Reason.isSome = true) : ∃ y, transformToDataState s = .ok y := by
  obtain ⟨a, ha⟩ := deref_ok _ h1
  obtain ⟨b, hb⟩ := deref_ok _ h2
  obtain ⟨c, hc⟩ := deref_ok _ h3
  simp only [transformToDataState, ha, hb, hc]
  exact ⟨_, rfl⟩

theorem transformToDataContainer_ok (c : model.ContainerSnapshotInput)
    (h : c.complete = true) : ∃ y, transformToDataContainer c = .ok y := by
  simp only [model.ContainerSnapshotInput.complete, Bool.and_eq_true] at h
  obtain ⟨⟨⟨⟨⟨⟨⟨⟨⟨⟨⟨⟨h1, h2⟩, h3⟩, h4⟩, h5⟩, h6⟩, h7⟩, h8⟩, h9⟩, h10⟩, h11⟩, h12⟩, h13⟩ := h
  obtain ⟨a, ha⟩ := deref_ok _ h1
  obtain ⟨b, hb⟩ := transformToDataResource_ok _ h2 h3 h4
  obtain ⟨c1, hc⟩ := transformToDataResource_ok _ h5 h6 h7
  obtain ⟨d, hd⟩ := transformToDataState_ok _ h8 h9 h10
  obtain ⟨e, he⟩ := transformToDataState_ok _ h11 h12 h13
  simp only [transformToDataContainer, ha, hb, hc, hd, he]
  exact ⟨_, rfl⟩

theorem transformToDataContainers_ok (l : List model.ContainerSnapshotInput)
    (h : l.all (fun c => c.complete) = true) : ∃ y, transformToDataContainers l = .ok y :=
  forEachM_ok_of_forall _ l
    (fun c hc => transformToDataContainer_ok c (List.all_eq_true.1 h c hc))

theorem transformToDataPod_ok (p : model.PodSnapshotInput) (h : p.complete = true) :
    ∃ y, transformToDataPod p = .ok y := by
  simp only [model.PodSnapshotInput.complete, Bool.and_eq_true] at h
  obtain ⟨⟨⟨⟨⟨⟨h1, h2⟩, h3⟩, h4⟩, h5⟩, h6⟩, h7⟩ := h
  obtain ⟨a, ha⟩ := deref_ok _ h1
  obtain ⟨b, hb⟩ := deref_ok _ h2
  obtain ⟨c, hc⟩ := deref_ok _ h3
  obtain ⟨d, hd⟩ := deref_ok _ h4
  obtain ⟨e, he⟩ := transformToDataContainers_ok _ h5
  obtain ⟨f, hf⟩ := transformToDataContainers_ok _ h6
  obtain ⟨g, hg⟩ := transformToDataContainers_ok _ h7
  simp only [transformToDataPod, ha, hb, hc, hd, he, hf, hg]
  exact ⟨_, rfl⟩

theorem TransformToDataPods_ok (l : List model.PodSnapshotInput)
    (h : ∀ x ∈ l, x.complete = true) : ∃ y, TransformToDataPods l = .ok y :=
  forEachM_ok_of_forall _ l (fun x hx => transformToDataPod_ok x (h x hx))

/-! ## the recorder: the map from owner id to snapshots -/

theorem mapGet_of_not_mem (m : List (String × List model.PodSnapshotInput)) (k : String)
    (h : k ∉ m.map Prod.fst) : mapGet m k = [] := by
  induction m with
  | nil => rfl
  | cons e rest ih =>
    simp only [List.map_cons, List.mem_cons, not_or] at h
    rw [mapGet, if_neg (fun hh => h.1 hh.symm)]
    exact ih h.2

theorem mapGet_mem (m : List (String × List model.PodSnapshotInput)) (k : String)
    (h : k ∈ m.map Prod.fst) : (k, mapGet m k) ∈ m := by
  induction m with
  | nil => simp at h
  | cons e rest ih =>
    rw [mapGet]
    by_cases he : e.1 = k
    · rw [if_pos he]
      subst he
      exact List.mem_cons_self _ _
    · rw [if_neg he]
      simp only [List.map_cons, List.mem_cons] at h
      rcases h with h | h
      · exact absurd h.symm he
      · exact List.mem_cons_of_mem _ (ih h)

theorem mapSet_of_not_mem (m : List (String × List model.PodSnapshotInput)) (k : String)
    (v : List model.PodSnapshotInput) (h : k ∉ m.map Prod.fst) :
    mapSet m k v = m ++ [(k, v)] := by
  induction m with
  | nil => rfl
  | cons e rest ih =>
    simp only [List.map_cons, List.mem_cons, not_or] at h
    rw [mapSet, if_neg (fun hh => h.1 hh.symm), ih h.2]
    rfl

theorem mapSet_keys_of_mem (m : List (String × List model.PodSnapshotInput)) (k : String)
    (v : List model.PodSnapshotInput) (h : k ∈ m.map Prod.fst) :
    (mapSet m k v).map Prod.fst = m.map Prod.fst := by
  induction m with
  | nil => simp at h
  | cons e rest ih =>
    rw [mapSet]
    by_cases he : e.1 = k
    · rw [if_pos he]
      simp only [List.map_cons, he]
    · rw [if_neg he]
      simp only [List.map_cons, List.mem_cons] at h
      rcases h with h | h
      · exact absurd h.symm he
      · simp only [List.map_cons, ih h]

theorem mem_mapSet (m : List (String × List model.PodSnapshotInput)) (k : String)
    (v : List model.PodSnapshotInput) (hnd : (m.map Prod.fst).Nodup)
    (e : String × List model.PodSnapshotInput) (he : e ∈ mapSet m k v) :
    e = (k, v) ∨ (e ∈ m ∧ e.1 ≠ k) := by
  induction m with
  | nil =>
    simp only [mapSet, List.mem_singleton] at he
    exact Or.inl he
  | cons e0 rest ih =>
    simp only [List.map_cons, List.nodup_cons] at hnd
    rw [mapSet] at he
    by_cases h0 : e0.1 = k
    · rw [if_pos h0] at he
      rcases List.mem_cons.1 he with he | he
      · exact Or.inl he
      · refine Or.inr ⟨List.mem_cons_of_mem _ he, fun hk => hnd.1 ?_⟩
        rw [h0, ← hk]
        exact List.mem_map_of_mem _ he
    · rw [if_neg h0] at he
      rcases List.mem_cons.1 he with he | he
      · subst he
        exact Or.inr ⟨List.mem_cons_self _ _, h0⟩
      · rcases ih hnd.2 he with h | ⟨h1, h2⟩
        · exact Or.inl h
        · exact Or.inr ⟨List.mem_cons_of_mem _ h1, h2⟩

theorem filter_owner_snoc (xs : List model.PodSnapshotInput) (x : model.PodSnapshotInput)
    (k : String) :
    (xs ++ [x]).filter (fun y => y.NodeID = k) =
      xs.filter (fun y => y.NodeID = k) ++ (if x.NodeID = k then [x] else []) := by
  by_cases hk : x.NodeID = k <;> simp [List.filter_append, List.filter_cons, hk]

theorem IsGrouping_step (m : List (String × List model.PodSnapshotInput))
    (xs : List model.PodSnapshotInput) (x : model.PodSnapshotInput) (h : IsGrouping m xs) :
    IsGrouping
      (if (mapGet m x.NodeID).length = 0 then mapSet m x.NodeID [x]
       else mapSet m x.NodeID (mapGet m x.NodeID ++ [x])) (xs ++ [x]) := by
  obtain ⟨hnd, hval, hcov⟩ := h
  by_cases hk : x.NodeID ∈ m.map Prod.fst
  · have hmem := mapGet_mem m x.NodeID hk
    have hv := hval _ hmem
    simp only at hv
    have hlen : ¬ (mapGet m x.NodeID).length = 0 := fun h0 => hv.2 (List.length_eq_zero.1 h0)
    rw [if_neg hlen]
    refine ⟨?_, ?_, ?_⟩
    · rw [mapSet_keys_of_mem m _ _ hk]; exact hnd
    · intro e he
      rcases mem_mapSet m _ _ hnd e he with rfl | ⟨h1, h2⟩
      · refine ⟨?_, by simp⟩
        rw [filter_owner_snoc, if_pos rfl, ← hv.1]
      · refine ⟨?_, (hval e h1).2⟩
        have hne : ¬ x.NodeID = e.1 := fun hh => h2 hh.symm
        rw [filter_owner_snoc, if_neg hne, List.append_nil]
        exact (hval e h1).1
    · intro y hy
      rw [mapSet_keys_of_mem m _ _ hk]
      rcases List.mem_append.1 hy with hy | hy
      · exact hcov y hy
      · rw [List.mem_singleton.1 hy]; exact hk
  · have hget : mapGet m x.NodeID = [] := mapGet_of_not_mem m _ hk
    rw [hget, if_pos List.length_nil, mapSet_of_not_mem m _ _ hk]
    have hnone : xs.filter (fun y => y.NodeID = x.NodeID) = [] := by
      rw [List.filter_eq_nil_iff]
      intro y hy hyk
      exact hk (by rw [← of_decide_eq_true hyk]; exact hcov y hy)
    refine ⟨?_, ?_, ?_⟩
    · rw [List.map_append, List.map_singleton]
      refine List.Nodup.append hnd (List.nodup_singleton _) ?_
      intro a ha hb
      rw [List.mem_singleton.1 hb] at ha
      exact hk ha
    · intro e he
      rcases List.mem_append.1 he with he | he
      · refine ⟨?_, (hval e he).2⟩
        have hne : ¬ x.NodeID = e.1 := fun hh => hk (by rw [hh]; exact List.mem_map_of_mem _ he)
        rw [filter_owner_snoc, if_neg hne, List.append_nil]
        exact (hval e he).1
      · rw [List.mem_singleton.1 he]
        refine ⟨?_, by simp⟩
        rw [filter_owner_snoc, if_pos rfl, hnone, List.nil_append]
    · intro y hy
      rw [List.map_append, List.map_singleton]
      rcases List.mem_append.1 hy with hy | hy
      · exact List.mem_append_left _ (hcov y hy)
      · rw [List.mem_singleton.1 hy]; simp

theorem IsGrouping_foldl (ys : List model.PodSnapshotInput) :
    ∀ (m : List (String × List model.PodSnapshotInput)) (xs : List model.PodSnapshotInput),
      IsGrouping m xs →
      IsGrouping (ys.foldl (fun m snapshot =>
        if (mapGet m snapshot.NodeID).length = 0 then mapSet m snapshot.NodeID [snapshot]
        else mapSet m snapshot.NodeID (mapGet m snapshot.NodeID ++ [snapshot])) m) (xs ++ ys) := by
  induction ys with
  | nil => intro m xs h; simpa using h
  | cons y ys ih =>
    intro m xs h
    have := ih _ _ (IsGrouping_step m xs y h)
    simpa [List.append_assoc] using this

theorem nodesPodsMap_grouping (snapshots : List model.PodSnapshotInput) :
    IsGrouping (nodesPodsMap snapshots) snapshots := by
  have := IsGrouping_foldl snapshots [] [] ⟨by simp, by simp, by simp⟩
  simpa [nodesPodsMap] using this

/-- With no key twice and a key for the owner of every snapshot, the groups
together are as long as the list. -/
theorem sum_group_lengths (xs : List model.PodSnapshotInput) (keys : List String)
    (hnd : keys.Nodup) (hcov : ∀ x ∈ xs, x.NodeID ∈ keys) :
    (keys.map (fun k => (xs.filter (fun x => x.NodeID = k)).length)).sum = xs.length := by
  induction xs with
  | nil => simp
  | cons x xs ih =>
    have hx : x.NodeID ∈ keys := hcov x (by simp)
    have hone : (keys.map (fun k => if x.NodeID = k then 1 else 0)).sum = 1 := by
      clear ih hcov
      induction keys with
      | nil => simp at hx
      | cons k ks ihk =>
        simp only [List.nodup_cons] at hnd
        rw [List.map_cons, List.sum_cons]
        by_cases hk : x.NodeID = k
        · have hz : (ks.map (fun k => if x.NodeID = k then 1 else 0)).sum = 0 := by
            apply List.sum_eq_zero
            intro n hn
            obtain ⟨k1, hk1, rfl⟩ := List.mem_map.1 hn
            rw [if_neg]
            intro hh
            exact hnd.1 (by rw [← hk, hh]; exact hk1)
          rw [if_pos hk, hz]
        · rw [if_neg hk, zero_add]
          rcases List.mem_cons.1 hx with h | h
          · exact absurd h hk
          · exact ihk hnd.2 h
    have hsplit : ∀ k, ((x :: xs).filter (fun y => y.NodeID = k)).length =
        (if x.NodeID = k then 1 else 0) + (xs.filter (fun y => y.NodeID = k)).length := by
      intro k
      by_cases hk : x.NodeID = k
      · simp [List.filter_cons, hk, Nat.add_comm]
      · simp [List.filter_cons, hk]
    simp only [hsplit, List.sum_map_add, hone, ih (fun y hy => hcov y (by simp [hy]))]
    simp [Nat.add_comm]

/-! ## the recorder: the calls to the store -/

theorem recordLoop_recorded {σ : Type} (store : PodStore σ)
    (gs : List (String × List model.PodSnapshotInput)) :
    ∀ (s : σ) (log : List (String × List PodMeta)),
      (∀ g ∈ gs, ∃ p, TransformToDataPods g.2 = .ok p) →
      ∃ s1 calls r, recordLoop (recorded store) (s, log) gs = ((s1, log ++ calls), r) ∧
        (r = .ok () →
          List.Forall₂ (fun g c => c.1 = g.1 ∧ TransformToDataPods g.2 = .ok c.2) gs calls) ∧
        ((∀ s0 n p, (store.UpsertPodMetas s0 n p).2 = none) → r = .ok ()) ∧
        r ≠ .error Failure.nilDeref := by
  induction gs with
  | nil =>
    intro s log _
    exact ⟨s, [], .ok (), by simp [recordLoop], fun _ => List.Forall₂.nil, fun _ => rfl,
      by simp⟩
  | cons g gs ih =>
    intro s log hok
    obtain ⟨k, v⟩ := g
    obtain ⟨p, hp⟩ := hok (k, v) (by simp)
    simp only at hp
    cases hu : (store.UpsertPodMetas s k p).2 with
    | some err =>
      refine ⟨(store.UpsertPodMetas s k p).1, [(k, p)], .error (Failure.error err), ?_, ?_, ?_, ?_⟩
      · simp only [recordLoop, hp, recorded, hu]
      · intro h; cases h
      · intro h; rw [h] at hu; cases hu
      · intro h; cases h
    | none =>
      obtain ⟨s1, calls, r, h1, h2, h3, h4⟩ :=
        ih (store.UpsertPodMetas s k p).1 (log ++ [(k, p)]) (fun g hg => hok g (by simp [hg]))
      have hrec : (recorded store).UpsertPodMetas (s, log) k p =
          (((store.UpsertPodMetas s k p).1, log ++ [(k, p)]), none) := by
        simp only [recorded, hu]
      refine ⟨s1, (k, p) :: calls, r, ?_, ?_, h3, h4⟩
      · simp only [recordLoop, hp, hrec]
        rw [h1]
        simp
      · intro hr
        exact List.Forall₂.cons ⟨rfl, hp⟩ (h2 hr)

theorem calls_keys (gs : List (String × List model.PodSnapshotInput))
    (calls : List (String × List PodMeta))
    (h : List.Forall₂ (fun g c => c.1 = g.1 ∧ TransformToDataPods g.2 = .ok c.2) gs calls) :
    calls.map Prod.fst = gs.map Prod.fst ∧
    (∀ c ∈ calls, ∃ g ∈ gs, c.1 = g.1 ∧ TransformToDataPods g.2 = .ok c.2) ∧
    (calls.map (fun c => c.2.length)) = gs.map (fun g => g.2.length) := by
  induction h with
  | nil => simp
  | cons hab _ ih =>
    obtain ⟨ih1, ih2, ih3⟩ := ih
    refine ⟨by simp [hab.1, ih1], ?_, ?_⟩
    · intro c hc
      rcases List.mem_cons.1 hc with rfl | hc
      · exact ⟨_, List.mem_cons_self _ _, hab⟩
      · obtain ⟨g, hg, hh⟩ := ih2 c hc
        exact ⟨g, List.mem_cons_of_mem _ hg, hh⟩
    · simp only [List.map_cons, ih3]
      rw [forEachM_length _ _ _ hab.2]

/-! ## the recorder: a nil pointer in the input -/

theorem deref_sound {α : Type} (o : Option α) :
    (∀ a, deref o = .ok a → o.isSome = true) ∧
    (∀ f, deref o = .error f → f = Failure.nilDeref) := by
  cases o with
  | none => exact ⟨fun a h => (by cases h), fun f h => (by cases h; rfl)⟩
  | some b => exact ⟨fun a _ => rfl, fun f h => (by cases h)⟩

theorem transformToDataResource_sound (r : model.ContainerResourceInput) :
    (∀ y, transformToDataResource r = .ok y →
      r.CPU.isSome = true ∧ r.Memory.isSome = true ∧ r.EphemeralStorage.isSome = true) ∧
    (∀ f, transformToDataResource r = .error f → f = Failure.nilDeref) := by
  unfold transformToDataResource
  cases h1 : deref r.CPU with
  | error e =>
    exact ⟨fun y h => (by cases h), fun f h => (by cases h; exact (deref_sound _).2 _ h1)⟩
  | ok a =>
    cases h2 : deref r.Memory with
    | error e =>
      exact ⟨fun y h => (by cases h), fun f h => (by cases h; exact (deref_sound _).2 _ h2)⟩
    | ok b =>
      cases h3 : deref r.EphemeralStorage with
      | error e =>
        exact ⟨fun y h => (by cases h), fun f h => (by cases h; exact (deref_sound _).2 _ h3)⟩
      | ok c =>
        exact ⟨fun y _ => ⟨(deref_sound _).1 _ h1, (deref_sound _).1 _ h2,
          (deref_sound _).1 _ h3⟩, fun f h => (by cases h)⟩

theorem transformToDataState_sound (s : model.ContainerStateInput) :
    (∀ y, transformToDataState s = .ok y →
      s.ExitCode.isSome = true ∧ s.FinishedAt.isSome = true ∧ s.Reason.isSome = true) ∧
    (∀ f, transformToDataState s = .error f → f = Failure.nilDeref) := by
  unfold transformToDataState
  cases h1 : deref s.ExitCode with
  | error e =>
    exact ⟨fun y h => (by cases h), fun f h => (by cases h; exact (deref_sound _).2 _ h1)⟩
  | ok a =>
    cases h2 : deref s.FinishedAt with
    | error e =>
      exact ⟨fun y h => (by cases h), fun f h => (by cases h; exact (deref_sound _).2 _ h2)⟩
    | ok b =>
      cases h3 : deref s.Reason with
      | error e =>
        exact ⟨fun y h => (by cases h), fun f h => (by cases h; exact (deref_sound _).2 _ h3)⟩
      | ok c =>
        exact ⟨fun y _ => ⟨(deref_sound _).1 _ h1, (deref_sound _).1 _ h2,
          (deref_sound _).1 _ h3⟩, fun f h => (by cases h)⟩

theorem transformToDataContainer_sound (c : model.ContainerSnapshotInput) :
    (∀ y, transformToDataContainer c = .ok y → c.complete = true) ∧
    (∀ f, transformToDataContainer c = .error f → f = Failure.nilDeref) := by
  unfold transformToDataContainer
  cases h1 : deref c.RestartCount with
  | error e =>
    exact ⟨fun y h => (by cases h), fun f h => (by cases h; exact (deref_sound _).2 _ h1)⟩
  | ok a =>
    cases h2 : transformToDataResource c.Resources.Requests with
    | error e =>
      exact ⟨fun y h => (by cases h),
        fun f h => (by cases h; exact (transformToDataResource_sound _).2 _ h2)⟩
    | ok b =>
      cases h3 : transformToDataResource c.Resources.Limits with
      | error e =>
        exact ⟨fun y h => (by cases h),
          fun f h => (by cases h; exact (transformToDataResource_sound _).2 _ h3)⟩
      | ok d =>
        cases h4 : transformToDataState c.State with
        | error e =>
          exact ⟨fun y h => (by cases h),
            fun f h => (by cases h; exact (transformToDataState_sound _).2 _ h4)⟩
        | ok e1 =>
          cases h5 : transformToDataState c.LastState with
          | error e =>
            exact ⟨fun y h => (by cases h),
              fun f h => (by cases h; exact (transformToDataState_sound _).2 _ h5)⟩
          | ok e2 =>
            refine ⟨fun y _ => ?_, fun f h => (by cases h)⟩
            have k1 := (deref_sound _).1 _ h1
            obtain ⟨k2, k3, k4⟩ := (transformToDataResource_sound _).1 _ h2
            obtain ⟨k5, k6, k7⟩ := (transformToDataResource_sound _).1 _ h3
            obtain ⟨k8, k9, k10⟩ := (transformToDataState_sound _).1 _ h4
            obtain ⟨k11, k12, k13⟩ := (transformToDataState_sound _).1 _ h5
            simp only [model.ContainerSnapshotInput.complete, k1, k2, k3, k4, k5, k6, k7, k8, k9,
              k10, k11, k12, k13, Bool.and_self]

theorem forEachM_error {α β ε : Type} (f : α → Except ε β) (l : List α) (e : ε)
    (h : forEachM f l = .error e) : ∃ x ∈ l, f x = .error e := by
  induction l with
  | nil => cases h
  | cons x xs ih =>
    unfold forEachM at h
    cases hx : f x with
    | error e1 =>
      rw [hx] at h
      cases h
      exact ⟨x, by simp, hx⟩
    | ok y =>
      rw [hx] at h
      cases hxs : forEachM f xs with
      | error e2 =>
        rw [hxs] at h
        cases h
        obtain ⟨z, hz, hfz⟩ := ih hxs
        exact ⟨z, by simp [hz], hfz⟩
      | ok ys =>
        rw [hxs] at h
        cases h

theorem forEachM_ok_all {α β ε : Type} (f : α → Except ε β) (l : List α) (ys : List β)
    (h : forEachM f l = .ok ys) : ∀ x ∈ l, ∃ y, f x = .ok y := by
  rw [forEachM_eq_ok] at h
  induction h with
  | nil => intro x hx; simp at hx
  | cons h1 _ ih =>
    intro x hx
    rcases List.mem_cons.1 hx with rfl | hx
    · exact ⟨_, h1⟩
    · exact ih x hx

theorem transformToDataContainers_sound (l : List model.ContainerSnapshotInput) :
    (∀ ys, transformToDataContainers l = .ok ys → l.all (fun c => c.complete) = true) ∧
    (∀ f, transformToDataContainers l = .error f → f = Failure.nilDeref) := by
  constructor
  · intro ys h
    rw [List.all_eq_true]
    intro c hc
    obtain ⟨y, hy⟩ := forEachM_ok_all _ _ _ h c hc
    exact (transformToDataContainer_sound c).1 y hy
  · intro f h
    obtain ⟨c, _, hc⟩ := forEachM_error _ _ _ h
    exact (transformToDataContainer_sound c).2 f hc

theorem transformToDataPod_sound (p : model.PodSnapshotInput) :
    (∀ y, transformToDataPod p = .ok y → p.complete = true) ∧
    (∀ f, transformToDataPod p = .error f → f = Failure.nilDeref) := by
  unfold transformToDataPod
  cases h1 : deref p.Namespace with
  | error e =>
    exact ⟨fun y h => (by cases h), fun f h => (by cases h; exact (deref_sound _).2 _ h1)⟩
  | ok a =>
    cases h2 : deref p.DeletedAt with
    | error e =>
      exact ⟨fun y h => (by cases h), fun f h => (by cases h; exact (deref_sound _).2 _ h2)⟩
    | ok b =>
      cases h3 : deref p.FinishedAt with
      | error e =>
        exact ⟨fun y h => (by cases h), fun f h => (by cases h; exact (deref_sound _).2 _ h3)⟩
      | ok c =>
        cases h4 : deref p.DeletedBy with
        | error e =>
          exact ⟨fun y h => (by cases h), fun f h => (by cases h; exact (deref_sound _).2 _ h4)⟩
        | ok d =>
          cases h5 : transformToDataContainers p.InitContainers with
          | error e =>
            exact ⟨fun y h => (by cases h),
              fun f h => (by cases h; exact (transformToDataContainers_sound _).2 _ h5)⟩
          | ok e1 =>
            cases h6 : transformToDataContainers p.EphemeralContainers with
            | error e =>
              exact ⟨fun y h => (by cases h),
                fun f h => (by cases h; exact (transformToDataContainers_sound _).2 _ h6)⟩
            | ok e2 =>
              cases h7 : transformToDataContainers p.Containers with
              | error e =>
                exact ⟨fun y h => (by cases h),
                  fun f h => (by cases h; exact (transformToDataContainers_sound _).2 _ h7)⟩
              | ok e3 =>
                refine ⟨fun y _ => ?_, fun f h => (by cases h)⟩
                have k1 := (deref_sound _).1 _ h1
                have k2 := (deref_sound _).1 _ h2
                have k3 := (deref_sound _).1 _ h3
                have k4 := (deref_sound _).1 _ h4
                have k5 := (transformToDataContainers_sound _).1 _ h5
                have k6 := (transformToDataContainers_sound _).1 _ h6
                have k7 := (transformToDataContainers_sound _).1 _ h7
                simp only [model.PodSnapshotInput.complete, k1, k2, k3, k4, k5, k6, k7,
                  Bool.and_self]

/-- `TransformToDataPods` returns exactly when no pointer it reads through is
nil; when one is, it ends in a nil dereference. -/
theorem TransformToDataPods_sound (l : List model.PodSnapshotInput) :
    (∀ ys, TransformToDataPods l = .ok ys → ∀ x ∈ l, x.complete = true) ∧
    (∀ f, TransformToDataPods l = .error f → f = Failure.nilDeref) ∧
    ((∃ x ∈ l, x.complete = false) → TransformToDataPods l = .error Failure.nilDeref) := by
  have hok : ∀ ys, TransformToDataPods l = .ok ys → ∀ x ∈ l, x.complete = true := by
    intro ys h x hx
    obtain ⟨y, hy⟩ := forEachM_ok_all _ _ _ h x hx
    exact (transformToDataPod_sound x).1 y hy
  have herr : ∀ f, TransformToDataPods l = .error f → f = Failure.nilDeref := by
    intro f h
    obtain ⟨x, _, hx⟩ := forEachM_error _ _ _ h
    exact (transformToDataPod_sound x).2 f hx
  refine ⟨hok, herr, ?_⟩
  rintro ⟨x, hx, hxc⟩
  cases h : TransformToDataPods l with
  | error f => rw [herr f h]
  | ok ys =>
    have := hok ys h x hx
    rw [hxc] at this
    cases this

/-- The second loop over a store none of whose calls fails, when some group
holds an input with a nil pointer: the groups in front of the first such group
are handed to the store, and at that group the loop ends in a nil dereference. -/
theorem recordLoop_panics {σ : Type} (store : PodStore σ)
    (hstore : ∀ s0 n p, (store.UpsertPodMetas s0 n p).2 = none)
    (gs : List (String × List model.PodSnapshotInput)) :
    ∀ (s : σ) (log : List (String × List PodMeta)),
      (∃ g ∈ gs, ∃ x ∈ g.2, x.complete = false) →
      ∃ s1 pre g post calls, gs = pre ++ g :: post ∧ (∃ x ∈ g.2, x.complete = false) ∧
        recordLoop (recorded store) (s, log) gs =
          ((s1, log ++ calls), .error Failure.nilDeref) ∧
        List.Forall₂ (fun g c => c.1 = g.1 ∧ TransformToDataPods g.2 = .ok c.2) pre calls := by
  induction gs with
  | nil => intro s log h; obtain ⟨g, hg, _⟩ := h; simp at hg
  | cons g0 gs ih =>
    intro s log hbad
    obtain ⟨k, v⟩ := g0
    cases hp : TransformToDataPods v with
    | error f =>
      have hf := (TransformToDataPods_sound v).2.1 f hp
      subst hf
      have hx : ∃ x ∈ v, x.complete = false := by
        by_contra hno
        obtain ⟨p, hpok⟩ := TransformToDataPods_ok v (by
          intro x hx
          cases hc : x.complete with
          | true => rfl
          | false => exact absurd ⟨x, hx, hc⟩ hno)
        rw [hpok] at hp
        cases hp
      refine ⟨s, [], (k, v), gs, [], rfl, hx, ?_, List.Forall₂.nil⟩
      simp only [recordLoop, hp, List.append_nil]
    | ok p =>
      have hall := (TransformToDataPods_sound v).1 p hp
      have hrest : ∃ g ∈ gs, ∃ x ∈ g.2, x.complete = false := by
        obtain ⟨g, hg, x, hx, hxc⟩ := hbad
        rcases List.mem_cons.1 hg with rfl | hg
        · have := hall x hx
          rw [hxc] at this
          cases this
        · exact ⟨g, hg, x, hx, hxc⟩
      obtain ⟨s1, pre, g, post, calls, hsplit, hg, hrun, hcalls⟩ :=
        ih (store.UpsertPodMetas s k p).1 (log ++ [(k, p)]) hrest
      have hrec : (recorded store).UpsertPodMetas (s, log) k p =
          (((store.UpsertPodMetas s k p).1, log ++ [(k, p)]), none) := by
        simp only [recorded, hstore]
      refine ⟨s1, (k, v) :: pre, g, post, (k, p) :: calls, by rw [hsplit]; rfl, hg, ?_,
        List.Forall₂.cons ⟨rfl, hp⟩ hcalls⟩
      simp only [recordLoop, hp, hrec]
      rw [hrun]
      simp

/-- What `RecordPodSnapshots` does when no pointer that `TransformToDataPods`
reads through is nil, over a store that logs its calls and for every order in
which `range` visits the map: it adds a list of `UpsertPodMetas` calls to the
log and does not end in a nil dereference.  When it returns no error, the
owner ids of the calls are distinct and are exactly the NodeIDs occurring in
the input; the call for owner n was given `TransformToDataPods` of the inputs
whose NodeID is n, in their input order; the lists given hold together as many
entries as the input; and an empty input adds no call.  Over a store none of
whose calls fails it returns no error. -/
theorem RecordPodSnapshots_calls {σ : Type} (store : PodStore σ)
    (order : List (String × List model.PodSnapshotInput) →
      List (String × List model.PodSnapshotInput))
    (horder : ∀ m, (order m).Perm m) (s : σ) (log : List (String × List PodMeta))
    (snapshots : List model.PodSnapshotInput) (hfull : ∀ x ∈ snapshots, x.complete = true) :
    ∃ s1 calls r,
      RecordPodSnapshots (recorded store) order (s, log) snapshots = ((s1, log ++ calls), r) ∧
      (r = .ok () →
        (calls.map Prod.fst).Nodup ∧
        (∀ n, n ∈ calls.map Prod.fst ↔ ∃ x ∈ snapshots, x.NodeID = n) ∧
        (∀ c ∈ calls,
          TransformToDataPods (snapshots.filter (fun x => x.NodeID = c.1)) = .ok c.2) ∧
        (calls.map (fun c => c.2.length)).sum = snapshots.length ∧
        (snapshots = [] → calls = [])) ∧
      ((∀ s0 n p, (store.UpsertPodMetas s0 n p).2 = none) → r = .ok ()) ∧
      r ≠ .error Failure.nilDeref := by
  obtain ⟨hnd, hval, hcov⟩ := nodesPodsMap_grouping snapshots
  have hperm := horder (nodesPodsMap snapshots)
  have hok : ∀ g ∈ order (nodesPodsMap snapshots), ∃ p, TransformToDataPods g.2 = .ok p := by
    intro g hg
    apply TransformToDataPods_ok
    intro x hx
    rw [(hval g (hperm.mem_iff.1 hg)).1] at hx
    exact hfull x (List.mem_of_mem_filter hx)
  obtain ⟨s1, calls, r, h1, h2, h3, h4⟩ := recordLoop_recorded store _ s log hok
  refine ⟨s1, calls, r, h1, ?_, h3, h4⟩
  intro hr
  obtain ⟨hk, hc, hl⟩ := calls_keys _ _ (h2 hr)
  have hkeys : (calls.map Prod.fst).Perm ((nodesPodsMap snapshots).map Prod.fst) := by
    rw [hk]; exact hperm.map _
  refine ⟨hkeys.nodup_iff.2 hnd, ?_, ?_, ?_, ?_⟩
  · intro n
    rw [hkeys.mem_iff]
    constructor
    · intro hn
      obtain ⟨e, he, rfl⟩ := List.mem_map.1 hn
      obtain ⟨hv1, hv2⟩ := hval e he
      obtain ⟨x, hx⟩ := List.exists_mem_of_ne_nil _ hv2
      rw [hv1] at hx
      exact ⟨x, List.mem_of_mem_filter hx, by simpa using (List.mem_filter.1 hx).2⟩
    · rintro ⟨x, hx, rfl⟩
      exact hcov x hx
  · intro c hcm
    obtain ⟨g, hg, hg1, hg2⟩ := hc c hcm
    rw [hg1, ← (hval g (hperm.mem_iff.1 hg)).1]
    exact hg2
  · rw [hl, (hperm.map (fun g => g.2.length)).sum_eq]
    have : (nodesPodsMap snapshots).map (fun g => g.2.length) =
        ((nodesPodsMap snapshots).map Prod.fst).map
          (fun k => (snapshots.filter (fun x => x.NodeID = k)).length) := by
      rw [List.map_map]
      apply List.map_congr_left
      intro e he
      simp only [Function.comp]
      rw [← (hval e he).1]
    rw [this]
    exact sum_group_lengths snapshots _ hnd hcov
  · intro hempty
    subst hempty
    have : order (nodesPodsMap []) = [] := List.Perm.eq_nil (by simpa [nodesPodsMap] using horder [])
    rw [this] at h2
    cases h2 hr
    rfl

/-- The three inputs of `podInputs`, every pointer set, with the map visited in
reverse, over the tree store on an empty table: the call for `n2` is given
`b`, the call for `n1` is given `a` and `c`. -/
theorem RecordPodSnapshots_calls_example :
    (∀ m : List (String × List model.PodSnapshotInput), (List.reverse m).Perm m) ∧
    (∀ x ∈ podInputs, x.complete = true) ∧
    (RecordPodSnapshots (recorded (treeStore mapTable sampleClock)) List.reverse
        (⟨[], 0⟩, []) podInputs).1.2.map (fun c => (c.1, c.2.map (fun p => p.ID))) =
      [("n2", ["b"]), ("n1", ["a", "c"])] ∧
    ∃ s1 calls r,
      RecordPodSnapshots (recorded (treeStore mapTable sampleClock)) List.reverse
        (⟨[], 0⟩, []) podInputs = ((s1, [] ++ calls), r) ∧
      (r = .ok () →
        (calls.map Prod.fst).Nodup ∧
        (∀ n, n ∈ calls.map Prod.fst ↔ ∃ x ∈ podInputs, x.NodeID = n) ∧
        (∀ c ∈ calls,
          TransformToDataPods (podInputs.filter (fun x => x.NodeID = c.1)) = .ok c.2) ∧
        (calls.map (fun c => c.2.length)).sum = podInputs.length ∧
        (podInputs = [] → calls = [])) ∧
      ((∀ s0 n p, ((treeStore mapTable sampleClock).UpsertPodMetas s0 n p).2 = none) →
        r = .ok ()) ∧
      r ≠ .error Failure.nilDeref :=
  ⟨fun m => List.reverse_perm m, by decide, by decide,
   RecordPodSnapshots_calls (treeStore mapTable sampleClock) List.reverse
     (fun m => List.reverse_perm m) ⟨[], 0⟩ [] podInputs (by decide)⟩

/-- C16, at the failing inputs. For every store none of whose calls fails,
every order in which `range` visits the map, and every list of workload
snapshot inputs in which some input has a nil pointer among those that
`TransformToDataPods` reads through: `RecordPodSnapshots` ends in a nil
dereference, and the `UpsertPodMetas` calls it has issued by then leave out
the NodeID of an input with a nil pointer, so a NodeID that occurs in the
input gets no call although no store call fails.  The calls that were issued
have distinct owner ids, and each was given `TransformToDataPods` of the
inputs with that NodeID. -/
theorem C16_recordPodSnapshots_faults_on_nil_pointer {σ : Type} (store : PodStore σ)
    (order : List (String × List model.PodSnapshotInput) →
      List (String × List model.PodSnapshotInput))
    (horder : ∀ m, (order m).Perm m)
    (hstore : ∀ s0 n p, (store.UpsertPodMetas s0 n p).2 = none)
    (s : σ) (log : List (String × List PodMeta))
    (snapshots : List model.PodSnapshotInput)
    (hnil : ∃ x ∈ snapshots, x.complete = false) :
    ∃ s1 calls,
      RecordPodSnapshots (recorded store) order (s, log) snapshots =
        ((s1, log ++ calls), .error Failure.nilDeref) ∧
      (∃ x ∈ snapshots, x.complete = false ∧ x.NodeID ∉ calls.map Prod.fst) ∧
      (calls.map Prod.fst).Nodup ∧
      (∀ c ∈ calls,
        TransformToDataPods (snapshots.filter (fun x => x.NodeID = c.1)) = .ok c.2) := by
  obtain ⟨hnd, hval, hcov⟩ := nodesPodsMap_grouping snapshots
  have hperm := horder (nodesPodsMap snapshots)
  have hbad : ∃ g ∈ order (nodesPodsMap snapshots), ∃ x ∈ g.2, x.complete = false := by
    obtain ⟨x, hx, hxc⟩ := hnil
    obtain ⟨g, hg, hgk⟩ := List.mem_map.1 (hcov x hx)
    refine ⟨g, hperm.mem_iff.2 hg, x, ?_, hxc⟩
    rw [(hval g hg).1, List.mem_filter]
    exact ⟨hx, by simp [hgk]⟩
  obtain ⟨s1, pre, g, post, calls, hsplit, ⟨x, hxg, hxc⟩, hrun, hcalls⟩ :=
    recordLoop_panics store hstore _ s log hbad
  obtain ⟨hk, hc, _⟩ := calls_keys _ _ hcalls
  have hkeys : ((pre ++ g :: post).map Prod.fst).Nodup := by
    rw [← hsplit]
    exact (hperm.map Prod.fst).nodup_iff.2 hnd
  rw [List.map_append, List.map_cons] at hkeys
  have hgm : g ∈ nodesPodsMap snapshots :=
    hperm.mem_iff.1 (by rw [hsplit]; simp)
  have hxf := hxg
  rw [(hval g hgm).1, List.mem_filter] at hxf
  have hxk : x.NodeID = g.1 := by simpa using hxf.2
  refine ⟨s1, calls, hrun, ⟨x, hxf.1, hxc, ?_⟩, ?_, ?_⟩
  · rw [hk, hxk]
    intro hmem
    exact (List.nodup_append.1 hkeys).2.2 hmem (List.mem_cons_self _ _)
  · rw [hk]
    exact (List.nodup_append.1 hkeys).1
  · intro c hcm
    obtain ⟨g1, hg1, hg1k, hg1t⟩ := hc c hcm
    have hg1m : g1 ∈ nodesPodsMap snapshots :=
      hperm.mem_iff.1 (by rw [hsplit]; exact List.mem_append_left _ hg1)
    rw [hg1k, ← (hval g1 hg1m).1]
    exact hg1t

/-- C16, witness: over a store that accepts every call, one input on host `n1`
whose `Namespace` pointer is nil ends the call in a nil dereference with no
call issued; and of three inputs on hosts `n1`, `n2`, `n1`, the one on `n2`
with a nil `DeletedAt`, the call for `n1` is issued when `range` visits `n1`
first and no call at all when it visits `n2` first. -/
theorem C16_recordPodSnapshots_faults_on_nil_pointer_witness :
    (RecordPodSnapshots (recorded acceptingStore) id ((), [])
        [{ mkPodInput "a" "n1" 10 with Namespace := none }] =
      (((), []), .error Failure.nilDeref)) ∧
    ((RecordPodSnapshots (recorded acceptingStore) id ((), [])
        [mkPodInput "a" "n1" 10, { mkPodInput "b" "n2" 20 with DeletedAt := none },
         mkPodInput "c" "n1" 30]).2 = .error Failure.nilDeref ∧
     (RecordPodSnapshots (recorded acceptingStore) id ((), [])
        [mkPodInput "a" "n1" 10, { mkPodInput "b" "n2" 20 with DeletedAt := none },
         mkPodInput "c" "n1" 30]).1.2.map (fun c => (c.1, c.2.map (fun p => p.ID))) =
       [("n1", ["a", "c"])]) ∧
    (RecordPodSnapshots (recorded acceptingStore) List.reverse ((), [])
        [mkPodInput "a" "n1" 10, { mkPodInput "b" "n2" 20 with DeletedAt := none },
         mkPodInput "c" "n1" 30] =
      (((), []), .error Failure.nilDeref)) ∧
    ∃ s1 calls,
      RecordPodSnapshots (recorded acceptingStore) id ((), [])
          [{ mkPodInput "a" "n1" 10 with Namespace := none }] =
        ((s1, [] ++ calls), .error Failure.nilDeref) ∧
      (∃ x ∈ [{ mkPodInput "a" "n1" 10 with Namespace := none }],
        x.complete = false ∧ x.NodeID ∉ calls.map Prod.fst) ∧
      (calls.map Prod.fst).Nodup ∧
      (∀ c ∈ calls,
        TransformToDataPods
          ([{ mkPodInput "a" "n1" 10 with Namespace := none }].filter
            (fun x => x.NodeID = c.1)) = .ok c.2) :=
  ⟨by decide, ⟨by decide, by decide⟩, by decide,
   C16_recordPodSnapshots_faults_on_nil_pointer acceptingStore id (fun m => List.Perm.refl m)
     (fun _ _ _ => rfl) () [] [{ mkPodInput "a" "n1" 10 with Namespace := none }]
     ⟨_, List.mem_singleton.2 rfl, by decide⟩⟩

end KubeReplay
